import Mathlib

/-!
s6-rc: the compiled-database reader, the service-directory reconciler, the path splitter

A shallow embedding of `src/libs6rc/s6rc_db_read.c`, `src/libs6rc/s6rc_servicedir_manage.c` and
`src/libs6rc/s6rc_sanitize_dir.c`, and theorems about them.

* Bytes are `Fin 256`; `unsigned int` and `uint32` values are natural numbers, with an
  explicit `% 2 ^ 32` at every operation of the source that can wrap.
* The memory blocks of the caller's `s6rc_db_t` (`string`, `deps`, `services`, `argvs`) are
  lists; a pointer into a block is an index into the list.
* The input behind `buffer *b` is the list of bytes not read yet; the end of the list is
  end of file.
-/

namespace S6rc

/-- One byte of the input stream or of the string pool. -/
abbrev Byte := Fin 256

/-! ## skalibs string primitives -/

/-- The skalibs `byte_chr (s, n, c)`: the index of the first byte equal to `c` among the first
`n` bytes of `s`, or `n` when there is none. A block that ends before `n` bytes holds no
further match. -/
def byte_chr : List Byte → Nat → Byte → Nat
  | _, 0, _ => 0
  | [], n + 1, _ => n + 1
  | x :: s, n + 1, c => if x = c then 0 else byte_chr s n c + 1

/-- The skalibs `str_nlen (s, max)`: the index of the first NUL among the first `max` bytes
of `s`, or `max` when there is none. -/
def str_nlen (s : List Byte) (max : Nat) : Nat :=
  byte_chr s max 0

/-- The skalibs `str_len (s)`: the index of the first NUL of `s` (the scan has no bound; it
stops at the end of the modelled block). -/
def str_len : List Byte → Nat
  | [] => 0
  | x :: s => if x = 0 then 0 else str_len s + 1

/-! ## String-pool validation (`s6rc_db_read.c`, lines 20-35) -/

/-- The source's `s6rc_db_check_valid_string (string, stringlen, pos)`; `string + pos` is the
pool from index `pos` on. -/
def s6rc_db_check_valid_string (string : List Byte) (stringlen pos : Nat) : Bool :=
  if pos ≥ stringlen then false
  else if str_nlen (string.drop pos) (stringlen - pos) = stringlen - pos then false
  else true

/-- The source's `s6rc_db_check_valid_strings (string, stringlen, pos, n)`: the loop
`while (n--)` is the recursion on `n`. The advance `pos += str_len (string + pos) + 1`
follows a successful check, so it stays at most `stringlen` and cannot wrap. -/
def s6rc_db_check_valid_strings (string : List Byte) (stringlen : Nat) : Nat → Nat → Bool
  | _, 0 => true
  | pos, n + 1 =>
    if !s6rc_db_check_valid_string string stringlen pos then false
    else s6rc_db_check_valid_strings string stringlen (pos + (str_len (string.drop pos) + 1)) n

/-! ## The reads of the string pool

The same scans as above, giving the offsets of the bytes they examine instead of their result.
An offset at or beyond the end of the block is a read outside the block. -/

/-- The offsets, from `s`, of the bytes `byte_chr (s, n, c)` examines: every byte up to and
including the first match, at most `n` of them. -/
def byte_chr_reads : List Byte → Nat → Byte → List Nat
  | _, 0, _ => []
  | [], n + 1, _ => List.range (n + 1)
  | x :: s, n + 1, c => 0 :: if x = c then [] else (byte_chr_reads s n c).map (· + 1)

/-- The offsets, from `s`, of the bytes `str_len (s)` examines: every byte up to and including
the first NUL. On a block without NUL the scan reads the byte after the block. -/
def str_len_reads : List Byte → List Nat
  | [] => [0]
  | x :: s => 0 :: if x = 0 then [] else (str_len_reads s).map (· + 1)

/-- The pool indices `s6rc_db_check_valid_string (string, stringlen, pos)` reads. -/
def s6rc_db_check_valid_string_reads (string : List Byte) (stringlen pos : Nat) : List Nat :=
  if pos ≥ stringlen then []
  else (byte_chr_reads (string.drop pos) (stringlen - pos) 0).map (pos + ·)

/-- The pool indices `s6rc_db_check_valid_strings (string, stringlen, pos, n)` reads: in every
iteration those of the check and, after a successful check, those of `str_len (string + pos)`. -/
def s6rc_db_check_valid_strings_reads (string : List Byte) (stringlen : Nat) :
    Nat → Nat → List Nat
  | _, 0 => []
  | pos, n + 1 =>
    s6rc_db_check_valid_string_reads string stringlen pos ++
      if !s6rc_db_check_valid_string string stringlen pos then []
      else (str_len_reads (string.drop pos)).map (pos + ·) ++
        s6rc_db_check_valid_strings_reads string stringlen
          (pos + (str_len (string.drop pos) + 1)) n

/-- The values `pos` takes after each advance `pos += str_len (string + pos) + 1` of
`s6rc_db_check_valid_strings`, as exact sums. -/
def s6rc_db_check_valid_strings_advances (string : List Byte) (stringlen : Nat) :
    Nat → Nat → List Nat
  | _, 0 => []
  | pos, n + 1 =>
    if !s6rc_db_check_valid_string string stringlen pos then []
    else (pos + (str_len (string.drop pos) + 1)) ::
      s6rc_db_check_valid_strings_advances string stringlen
        (pos + (str_len (string.drop pos) + 1)) n

/-! ## Properties used to state the string-pool claims -/

/-- The pool holds a NUL byte at some index in `[pos, stringlen)`. -/
def HasNul (string : List Byte) (stringlen pos : Nat) : Prop :=
  ∃ i, pos ≤ i ∧ i < stringlen ∧ string[i]? = some 0

/-- Index `e` holds the first NUL of the pool at or after `p`. -/
def FirstNulAt (string : List Byte) (p e : Nat) : Prop :=
  p ≤ e ∧ string[e]? = some 0 ∧ ∀ j, p ≤ j → j < e → string[j]? ≠ some 0

/-- The chain of the claim about `s6rc_db_check_valid_strings`, read literally: positions
`p 0 = pos < p 1 < ... < p n ≤ stringlen` with the first NUL at or after `p k` at index
`p (k + 1) - 1`. -/
def PackedChain (string : List Byte) (stringlen pos n : Nat) : Prop :=
  ∃ p : Nat → Nat, p 0 = pos ∧ p n ≤ stringlen ∧
    ∀ k, k < n → p k < p (k + 1) ∧ FirstNulAt string (p k) (p (k + 1) - 1)

/-- The chain with the bound `≤ stringlen` put on the end of every string instead of on the
last position: for `n = 0` it asks nothing of `pos`. -/
def PackedStrings (string : List Byte) (stringlen pos n : Nat) : Prop :=
  ∃ p : Nat → Nat, p 0 = pos ∧
    ∀ k, k < n → p k < p (k + 1) ∧ p (k + 1) ≤ stringlen ∧
      FirstNulAt string (p k) (p (k + 1) - 1)

/-! ## The caller's database (`s6rc_db_t`, declared in `s6-rc/s6rc-db.h`) -/

/-- The union `x` of a service record: the member written last. -/
inductive s6rc_longshot_t where
  | longrun (servicedir : Nat)
  | oneshot (argc0 argc1 argv0 argv1 : Nat)
  deriving DecidableEq, Repr

/-- A service record `s6rc_service_t`, with the fields the reader writes. The arrays
`timeout[2]`, `ndeps[2]`, `deps[2]` are pairs of fields. -/
structure s6rc_service_t where
  name : Nat
  flags : Nat
  timeout0 : Nat
  timeout1 : Nat
  ndeps0 : Nat
  ndeps1 : Nat
  deps0 : Nat
  deps1 : Nat
  type : Nat
  x : s6rc_longshot_t
  deriving DecidableEq, Repr

/-- The database `s6rc_db_t`: the counts the caller sets before the read and the blocks the
reader fills. An entry of `argvs` is a pointer into the string pool (`some` offset) or the
null pointer (`none`). -/
structure s6rc_db_t where
  services : List s6rc_service_t
  nshort : Nat
  nlong : Nat
  stringlen : Nat
  nargvs : Nat
  ndeps : Nat
  string : List Byte
  argvs : List (Option Nat)
  deps : List Nat
  deriving DecidableEq, Repr

/-- The store `sv->x.oneshot.argv[i] = argvpos ; sv->x.oneshot.argc[i] = argc`. The fields of
the other group keep their value; over a union that held the longrun member they are
indeterminate in C and read as `0` here. -/
def s6rc_longshot_t.setGroup (x : s6rc_longshot_t) (i argvpos argc : Nat) : s6rc_longshot_t :=
  match x, i with
  | .oneshot _ c1 _ v1, 0 => .oneshot argc c1 argvpos v1
  | .oneshot c0 _ v0 _, _ + 1 => .oneshot c0 argc v0 argvpos
  | .longrun _, 0 => .oneshot argc 0 argvpos 0
  | .longrun _, _ + 1 => .oneshot 0 argc 0 argvpos

/-! ## Machine integers -/

/-- Reduction of an `unsigned int` result modulo `2 ^ 32`. -/
def wrap32 (x : Nat) : Nat := x % 2 ^ 32

/-- The conversion `(int) x` of an `unsigned int`. -/
def int_of_uint (x : Nat) : Int :=
  if x % 2 ^ 32 < 2 ^ 31 then ((x % 2 ^ 32 : Nat) : Int) else ((x % 2 ^ 32 : Nat) : Int) - 2 ^ 32

/-- The skalibs `uint32_unpack_big`: the big-endian value of four bytes. -/
def uint32_unpack_big (b0 b1 b2 b3 : Byte) : Nat :=
  b0.val * 2 ^ 24 + b1.val * 2 ^ 16 + b2.val * 2 ^ 8 + b3.val

/-! ## The reader's state and control flow -/

/-- The memory the reader works on: the caller's database and the local variables of
`s6rc_db_read_services` that live across loop iterations (`sv` and `argvs` as indices into
`db.services` and `db.argvs`, `nargvs` the remaining capacity). -/
structure Mem where
  db : s6rc_db_t
  sv : Nat
  nargvs : Nat
  argvs : Nat
  deriving DecidableEq, Repr

/-- The outcome of a piece of the reader: it falls through with a value (`ok`), or it has
executed `return code` (`ret`). Both carry the memory and the unread input. -/
inductive Res (α : Type) where
  | ok (a : α) (m : Mem) (b : List Byte)
  | ret (code : Int) (m : Mem) (b : List Byte)

/-- A piece of the reader: from the memory and the unread input to an outcome. -/
def M (α : Type) : Type := Mem → List Byte → Res α

/-- Sequencing: a `return` of the first piece ends the read. -/
def M.bind {α β : Type} (m : M α) (f : α → M β) : M β := fun mem b =>
  match m mem b with
  | .ok a mem1 b1 => f a mem1 b1
  | .ret c mem1 b1 => .ret c mem1 b1

instance : Monad M where
  pure a := fun mem b => .ok a mem b
  bind := M.bind

/-- The statement `return code ;`. Every early return of the reader's functions is `0` or
`-1` and every caller hands a result below `1` straight up (`if (r < 1) return r ;`), so a
`ret` ends the whole read with that code. -/
def ret {α : Type} (code : Int) : M α := fun mem b => .ret code mem b

/-- The statement `if (c) return code ;`. -/
def returnIf (c : Prop) [Decidable c] (code : Int) : M Unit :=
  if c then ret code else pure ()

/-- Read access to the memory. -/
def getMem : M Mem := fun mem b => .ok mem mem b

/-- A store into the memory. -/
def setMem (f : Mem → Mem) : M Unit := fun mem b => .ok () (f mem) b

/-- The result code, the memory and the unread input at the end of a function returning
`int`. -/
def Res.code : Res Int → Int
  | .ok r _ _ => r
  | .ret c _ _ => c

/-- The memory of an outcome. -/
def Res.mem {α : Type} : Res α → Mem
  | .ok _ m _ => m
  | .ret _ m _ => m

/-- The unread input of an outcome. -/
def Res.rest {α : Type} : Res α → List Byte
  | .ok _ _ b => b
  | .ret _ _ b => b

/-! ## Input primitives -/

/-- The skalibs `buffer_get (b, s, len)` followed by the caller's test
`if (buffer_get (b, s, len) < len) return code ;` for a destination `s` that is a local
variable: at end of file `buffer_get` hands back the short count, which the test turns into
`return code`. -/
def buffer_get_or (len : Nat) (code : Int) : M (List Byte) := fun mem b =>
  if b.length < len then .ret code mem [] else .ok (b.take len) mem (b.drop len)

/-- Modelled from the spec: `s6rc_db_read_uint32` (its source file is not under `src/`) reads one
big-endian 32-bit unsigned integer from the buffer; it gives `none` (the C result `0`) on a
short read, and stores nothing then. -/
def s6rc_db_read_uint32 (b : List Byte) : Option (Nat × List Byte) :=
  match b with
  | b0 :: b1 :: b2 :: b3 :: rest => some (uint32_unpack_big b0 b1 b2 b3, rest)
  | _ => none

/-- The statement `if (!s6rc_db_read_uint32 (b, &x)) return code ;`, giving `x`. -/
def read_uint32_or (code : Int) : M Nat := fun mem b =>
  match s6rc_db_read_uint32 b with
  | some (x, rest) => .ok x mem rest
  | none => .ret code mem []

/-! ## `s6rc_db_read_string` and `s6rc_db_read_deps` (lines 37-48, 132-136) -/

/-- The source's `s6rc_db_read_string (b, string, len)` at its only call, where `string` is
`db->string`: `buffer_get` overwrites the first bytes of the block with what it could read,
and the counts are compared as `int`. -/
def s6rc_db_read_string (len : Nat) : M Int := fun mem b =>
  let got := b.take len
  let mem1 := { mem with db := { mem.db with string := got ++ mem.db.string.drop got.length } }
  if int_of_uint got.length < int_of_uint len then .ret (-1) mem1 (b.drop len)
  else .ok 1 mem1 (b.drop len)

/-- The loop `while (ndeps--)` of `s6rc_db_read_deps`, `ndeps` already doubled; `deps` is the
index the pointer `deps` has reached in `db->deps`. -/
def s6rc_db_read_deps_loop (max : Nat) : Nat → Nat → M Unit
  | 0, _ => pure ()
  | ndeps + 1, deps => do
    let x ← read_uint32_or (-1)
    returnIf (x ≥ max) 0
    setMem fun mem => { mem with db := { mem.db with deps := mem.db.deps.set deps x } }
    s6rc_db_read_deps_loop max ndeps (deps + 1)

/-- The source's `s6rc_db_read_deps (b, max, deps, ndeps)` with `deps = db->deps`. -/
def s6rc_db_read_deps (max ndeps : Nat) : M Int := do
  s6rc_db_read_deps_loop max (wrap32 (ndeps <<< 1)) 0
  pure 1

/-! ## `s6rc_db_read_services` (lines 50-130) -/

/-- The skalibs `env_make (v, argc, s, len)` on the argv block: `v` is an index into the
block, `s` an offset into the string pool. It gives `false` (the C result `0`) when a string
has no NUL within `len`. -/
def env_make (string : List Byte) :
    Nat → List (Option Nat) → Nat → Nat → Nat → Bool × List (Option Nat)
  | 0, argvs, _, _, _ => (true, argvs)
  | argc + 1, argvs, v, s, len =>
    let n := byte_chr (string.drop s) len 0
    if n = len then (false, argvs)
    else env_make string argc (argvs.set v (some s)) (v + 1) (s + (n + 1)) (len - (n + 1))

/-- A store into the record `*sv`. -/
def setSv (f : s6rc_service_t → s6rc_service_t) : M Unit :=
  setMem fun mem => { mem with db := { mem.db with services := mem.db.services.modify f mem.sv } }

/-- The body of the loop `for (; i < 2 ; i++)` over the two argument groups of a oneshot
(lines 109-121). The last three statements are `if (!nargvs--) return 0 ; *argvs++ = 0 ;`. -/
def s6rc_db_read_services_argv (i : Nat) : M Unit := do
  let argc ← read_uint32_or (-1)
  let mem ← getMem
  returnIf (argc > mem.nargvs) 0
  let argvpos ← read_uint32_or (-1)
  returnIf (s6rc_db_check_valid_strings mem.db.string mem.db.stringlen argvpos argc = false) 0
  let made := env_make mem.db.string argc mem.db.argvs mem.argvs argvpos
    (wrap32 (mem.db.stringlen + 2 ^ 32 - argvpos))
  setMem fun m => { m with db := { m.db with argvs := made.2 } }
  returnIf (made.1 = false) (-1)
  setSv fun sv => { sv with x := sv.x.setGroup i argvpos argc }
  setMem fun m => { m with argvs := m.argvs + argc, nargvs := m.nargvs - argc }
  let mem ← getMem
  setMem fun m => { m with nargvs := wrap32 (m.nargvs + 2 ^ 32 - 1) }
  returnIf (mem.nargvs = 0) 0
  setMem fun m =>
    { m with db := { m.db with argvs := m.db.argvs.set m.argvs none }, argvs := m.argvs + 1 }

/-- The two branches of `if (type)` (lines 95-123): the payload of a longrun or of a
oneshot. -/
def s6rc_db_read_services_payload (type : Byte) : M Unit :=
  if type ≠ 0 then do
    setSv fun sv => { sv with type := 1 }
    let servicedir ← read_uint32_or (-1)
    setSv fun sv => { sv with x := .longrun servicedir }
    let mem ← getMem
    returnIf (s6rc_db_check_valid_string mem.db.string mem.db.stringlen servicedir = false) 0
  else do
    setSv fun sv => { sv with type := 0 }
    s6rc_db_read_services_argv 0
    s6rc_db_read_services_argv 1

/-- One iteration of the loop `while (n--)` of `s6rc_db_read_services` up to the read of the
end marker (lines 63-123). The range tests use the values just stored in `sv->deps[i]` and
`sv->ndeps[i]`; their sum is an `unsigned int`. -/
def s6rc_db_read_services_record : M Unit := do
  let name ← read_uint32_or (-1)
  setSv fun sv => { sv with name := name }
  let mem ← getMem
  returnIf (name ≥ mem.db.stringlen) 0
  returnIf (s6rc_db_check_valid_string mem.db.string mem.db.stringlen name = false) 0
  let flags ← read_uint32_or (-1)
  setSv fun sv => { sv with flags := flags }
  let timeout0 ← read_uint32_or (-1)
  setSv fun sv => { sv with timeout0 := timeout0 }
  let timeout1 ← read_uint32_or (-1)
  setSv fun sv => { sv with timeout1 := timeout1 }
  let ndeps0 ← read_uint32_or (-1)
  setSv fun sv => { sv with ndeps0 := ndeps0 }
  let ndeps1 ← read_uint32_or (-1)
  setSv fun sv => { sv with ndeps1 := ndeps1 }
  let deps0 ← read_uint32_or (-1)
  setSv fun sv => { sv with deps0 := deps0 }
  returnIf (deps0 > mem.db.ndeps ∨ wrap32 (deps0 + ndeps0) > mem.db.ndeps) 0
  let deps1 ← read_uint32_or (-1)
  setSv fun sv => { sv with deps1 := deps1 }
  returnIf (deps1 > mem.db.ndeps ∨ wrap32 (deps1 + ndeps1) > mem.db.ndeps) 0
  let type ← buffer_get_or 1 (-1)
  s6rc_db_read_services_payload (type.headD 0)

/-- The end of an iteration (lines 124-126): the end marker must be `'\376'`, then `sv++`. -/
def s6rc_db_read_services_marker : M Unit := do
  let type ← buffer_get_or 1 (-1)
  returnIf (type.headD 0 ≠ 254) 0
  setMem fun m => { m with sv := m.sv + 1 }

/-- The loop `while (n--)` of `s6rc_db_read_services`. -/
def s6rc_db_read_services_loop : Nat → M Unit
  | 0 => pure ()
  | n + 1 => do
    s6rc_db_read_services_record
    s6rc_db_read_services_marker
    s6rc_db_read_services_loop n

/-- The initialisation of the locals of `s6rc_db_read_services` (lines 52-55), giving `n`. -/
def s6rc_db_read_services_init : M Nat := do
  let mem ← getMem
  setMem fun m => { m with sv := 0, nargvs := mem.db.nargvs, argvs := 0 }
  pure (wrap32 (mem.db.nshort + mem.db.nlong))

/-- The source's `s6rc_db_read_services (b, db)`. -/
def s6rc_db_read_services : M Int := do
  let n ← s6rc_db_read_services_init
  s6rc_db_read_services_loop n
  let mem ← getMem
  returnIf (mem.nargvs ≠ 0) 0
  pure 1

/-! ## `s6rc_db_read_buffer` (lines 138-161) -/

/-- The source's `s6rc_db_read_buffer (b, db)`. The banners `S6RC_DB_BANNER_START` and
`S6RC_DB_BANNER_END` are declared in `s6-rc/s6rc-db.h`, which is not under `src/`: they are the
parameters `bs` and `be`, of length `S6RC_DB_BANNER_START_LEN` and `S6RC_DB_BANNER_END_LEN`. -/
def s6rc_db_read_buffer (bs be : List Byte) : M Int := do
  let banner ← buffer_get_or bs.length (-1)
  returnIf (banner ≠ bs) 0
  let mem ← getMem
  let r ← s6rc_db_read_string mem.db.stringlen
  returnIf (r < 1) r
  let r ← s6rc_db_read_deps (wrap32 (mem.db.nshort + mem.db.nlong)) mem.db.ndeps
  returnIf (r < 1) r
  let r ← s6rc_db_read_services
  returnIf (r < 1) r
  let banner ← buffer_get_or be.length (-1)
  returnIf (banner ≠ be) 0
  pure 1

/-- What `s6rc_db_read_buffer` does after `s6rc_db_read_string` has returned `1`: the rest of
its second block and its third block. The counts are those of `mem0`, the memory at the
call. -/
def s6rc_db_read_buffer_rest (be : List Byte) (mem0 : Mem) : M Int := do
  returnIf ((1 : Int) < 1) 1
  let r ← s6rc_db_read_deps (wrap32 (mem0.db.nshort + mem0.db.nlong)) mem0.db.ndeps
  returnIf (r < 1) r
  let r ← s6rc_db_read_services
  returnIf (r < 1) r
  let banner ← buffer_get_or be.length (-1)
  returnIf (banner ≠ be) 0
  pure 1

/-- `s6rc_db_read_buffer` from its start to the initialisation of the locals of
`s6rc_db_read_services`, giving the number `n` of records to read. -/
def s6rc_db_read_buffer_head (bs : List Byte) : M Nat := do
  let banner ← buffer_get_or bs.length (-1)
  returnIf (banner ≠ bs) 0
  let mem ← getMem
  let r ← s6rc_db_read_string mem.db.stringlen
  returnIf (r < 1) r
  let r ← s6rc_db_read_deps (wrap32 (mem.db.nshort + mem.db.nlong)) mem.db.ndeps
  returnIf (r < 1) r
  s6rc_db_read_services_init

/-- `s6rc_db_read_buffer` from the end of the loop of `s6rc_db_read_services` on. -/
def s6rc_db_read_buffer_fin (be : List Byte) : M Int := do
  let r ← (do
    let mem ← getMem
    returnIf (mem.nargvs ≠ 0) 0
    pure 1 : M Int)
  returnIf (r < 1) r
  let banner ← buffer_get_or be.length (-1)
  returnIf (banner ≠ be) 0
  pure 1

/-- `s6rc_db_read_buffer` from its start to the point where it is about to read the end
marker of record `k` (records are counted from `0`). -/
def s6rc_db_read_upto_marker (bs : List Byte) (k : Nat) : M Unit := do
  let _ ← s6rc_db_read_buffer_head bs
  s6rc_db_read_services_loop k
  s6rc_db_read_services_record

/-- The offset in the input `b` of the end-marker byte of record `k`: the number of bytes
the reader has read when it is about to read that byte. -/
def endMarkerOffset (bs : List Byte) (db : s6rc_db_t) (b : List Byte) (k : Nat) : Option Nat :=
  match s6rc_db_read_upto_marker bs k { db := db, sv := 0, nargvs := 0, argvs := 0 } b with
  | .ok _ _ rest => some (b.length - rest.length)
  | .ret _ _ _ => none

/-- A call of `s6rc_db_read_buffer` on the caller's database `db` and the input `b`. -/
def readBuffer (bs be : List Byte) (db : s6rc_db_t) (b : List Byte) : Res Int :=
  s6rc_db_read_buffer bs be { db := db, sv := 0, nargvs := 0, argvs := 0 } b

/-! ## The wire format, written out (spec section 6 and the reading order of the source) -/

/-- The four bytes of a 32-bit value, most significant first. -/
def uint32_pack_big (x : Nat) : List Byte :=
  [Fin.ofNat (x / 2 ^ 24), Fin.ofNat (x / 2 ^ 16), Fin.ofNat (x / 2 ^ 8), Fin.ofNat x]

/-- The dependency table on the wire: one big-endian u32 per entry. -/
def encodeDeps : List Nat → List Byte
  | [] => []
  | d :: l => uint32_pack_big d ++ encodeDeps l

/-- The payload of a record on the wire: the servicedir offset of a longrun; for a oneshot the
count and the offset of the `up` group, then those of the `down` group. -/
def encodePayload : s6rc_longshot_t → List Byte
  | .longrun servicedir => uint32_pack_big servicedir
  | .oneshot argc0 argc1 argv0 argv1 =>
    uint32_pack_big argc0 ++ (uint32_pack_big argv0 ++
      (uint32_pack_big argc1 ++ uint32_pack_big argv1))

/-- Everything of a record that precedes its end marker. -/
def encodeRecord (sv : s6rc_service_t) : List Byte :=
  uint32_pack_big sv.name ++ (uint32_pack_big sv.flags ++ (uint32_pack_big sv.timeout0 ++
    (uint32_pack_big sv.timeout1 ++ (uint32_pack_big sv.ndeps0 ++ (uint32_pack_big sv.ndeps1 ++
      (uint32_pack_big sv.deps0 ++ (uint32_pack_big sv.deps1 ++
        (Fin.ofNat sv.type :: encodePayload sv.x))))))))

/-- A record on the wire: name, flags, timeout[0], timeout[1], ndeps[0], ndeps[1], deps[0],
deps[1], type byte, payload, `0xFE`. -/
def encodeService (sv : s6rc_service_t) : List Byte :=
  encodeRecord sv ++ [254]

/-- The records on the wire, one after the other. -/
def encodeServices : List s6rc_service_t → List Byte
  | [] => []
  | sv :: l => encodeService sv ++ encodeServices l

/-- The whole stream: start banner, string pool, dependency table, records, end banner. -/
def encodeDb (bs be pool : List Byte) (deps : List Nat) (svs : List s6rc_service_t) :
    List Byte :=
  bs ++ (pool ++ (encodeDeps deps ++ (encodeServices svs ++ be)))

/-- The argv slots the reader takes for a record: `argc + 1` for each group of a oneshot. -/
def argvSlots (sv : s6rc_service_t) : Nat :=
  match sv.x with
  | .longrun _ => 0
  | .oneshot argc0 argc1 _ _ => (argc0 + 1) + (argc1 + 1)

/-- The argv slots the reader takes for a list of records. -/
def argvSlotsTotal : List s6rc_service_t → Nat
  | [] => 0
  | sv :: l => argvSlots sv + argvSlotsTotal l

/-- The sum of the argument counts of all oneshot groups of a list of records. -/
def argcTotal : List s6rc_service_t → Nat
  | [] => 0
  | sv :: l =>
    (match sv.x with
      | .longrun _ => 0
      | .oneshot argc0 argc1 _ _ => argc0 + argc1) + argcTotal l

/-- A well-formed payload: the type tag names the member, every value fits 32 bits, a
servicedir offset addresses a bounded string and each argument group addresses `argc` strings
packed back to back. -/
def WfPayload (pool : List Byte) (sv : s6rc_service_t) : Prop :=
  match sv.x with
  | .longrun servicedir =>
    sv.type = 1 ∧ servicedir < 2 ^ 32 ∧ servicedir < pool.length ∧
      HasNul pool pool.length servicedir
  | .oneshot argc0 argc1 argv0 argv1 =>
    sv.type = 0 ∧ argc0 < 2 ^ 32 ∧ argc1 < 2 ^ 32 ∧ argv0 < 2 ^ 32 ∧ argv1 < 2 ^ 32 ∧
      PackedStrings pool pool.length argv0 argc0 ∧ PackedStrings pool pool.length argv1 argc1

/-- A well-formed record over a pool and a dependency table of `2 * ndeps` entries. -/
structure WfService (pool : List Byte) (ndeps : Nat) (sv : s6rc_service_t) : Prop where
  name_lt : sv.name < 2 ^ 32
  flags_lt : sv.flags < 2 ^ 32
  timeout0_lt : sv.timeout0 < 2 ^ 32
  timeout1_lt : sv.timeout1 < 2 ^ 32
  name_valid : sv.name < pool.length ∧ HasNul pool pool.length sv.name
  range0 : sv.deps0 + sv.ndeps0 ≤ ndeps
  range1 : sv.deps1 + sv.ndeps1 ≤ ndeps
  payload : WfPayload pool sv

/-- A well-formed service set for a database whose counts the caller has set: the pool, the
dependency table and the records match the counts, every dependency names a service, and the
blocks of the database have the sizes the counts announce. -/
structure WfDb (db : s6rc_db_t) (pool : List Byte) (deps : List Nat)
    (svs : List s6rc_service_t) : Prop where
  stringlen_eq : pool.length = db.stringlen
  stringlen_lt : db.stringlen < 2 ^ 32
  ndeps_lt : db.ndeps < 2 ^ 31
  deps_len : deps.length = 2 * db.ndeps
  deps_lt : ∀ d ∈ deps, d < svs.length
  count_eq : svs.length = db.nshort + db.nlong
  count_lt : svs.length < 2 ^ 32
  nargvs_lt : db.nargvs < 2 ^ 32
  wf : ∀ sv ∈ svs, WfService pool db.ndeps sv
  string_sized : db.string.length = db.stringlen
  deps_sized : db.deps.length = 2 * db.ndeps
  services_sized : db.services.length = svs.length

/-! ## Auxiliary descriptions used in the statements -/

/-- The values of the complete 4-byte groups among the first `k` groups of an input, in
input order. -/
def be32s : Nat → List Byte → List Nat
  | k + 1, b0 :: b1 :: b2 :: b3 :: rest => uint32_unpack_big b0 b1 b2 b3 :: be32s k rest
  | _, _ => []

/-- The stores `*p++ = x` of a list of values into a block, from index `d` on. -/
def blockWrite {α : Type} (block : List α) (d : Nat) : List α → List α
  | [] => block
  | x :: xs => blockWrite (block.set d x) (d + 1) xs

/-- A call of `s6rc_db_read_deps` with `deps = db->deps` on the caller's database. -/
def readDeps (max ndeps : Nat) (db : s6rc_db_t) (b : List Byte) : Res Int :=
  s6rc_db_read_deps max ndeps { db := db, sv := 0, nargvs := 0, argvs := 0 } b

/-! ## A small database, used for the instances -/

/-- The start banner of the example. -/
def exStart : List Byte := [115, 54]

/-- The end banner of the example. -/
def exEnd : List Byte := [101]

/-- The string pool of the example: `"a\0bc\0"`. -/
def exPool : List Byte := [97, 0, 98, 99, 0]

/-- The dependency table of the example (`ndeps = 1`). -/
def exDeps : List Nat := [1, 0]

/-- A oneshot named `"a"` whose `up` group is the one argument `"bc"` and whose `down` group is
empty, with an offset beyond the pool. -/
def exOneshot : s6rc_service_t :=
  { name := 0, flags := 5, timeout0 := 6, timeout1 := 7, ndeps0 := 0, ndeps1 := 0, deps0 := 0,
    deps1 := 0, type := 0, x := .oneshot 1 0 2 77 }

/-- A longrun named `"bc"` with the servicedir `"a"` and one reverse dependency. -/
def exLongrun : s6rc_service_t :=
  { name := 2, flags := 1, timeout0 := 0, timeout1 := 300, ndeps0 := 1, ndeps1 := 0, deps0 := 0,
    deps1 := 1, type := 1, x := .longrun 0 }

/-- The caller's database before the read, sized for the example. -/
def exDb : s6rc_db_t :=
  { services := [exLongrun, exLongrun], nshort := 1, nlong := 1, stringlen := 5, nargvs := 3,
    ndeps := 1, string := [0, 0, 0, 0, 0], argvs := [none, none, none], deps := [0, 0] }

/-- The example on the wire. -/
def exStream : List Byte :=
  encodeDb exStart exEnd exPool exDeps [exOneshot, exLongrun]

/-- The example database with an argv block of `n` slots. -/
def exDbSlots (n : Nat) : s6rc_db_t :=
  { exDb with nargvs := n, argvs := List.replicate n none }

/-- A longrun whose reverse dependency range starts at `1` and has `2 ^ 32 - 1` entries: the
32-bit sum `deps[0] + ndeps[0]` wraps to `0`. -/
def exWrapLongrun : s6rc_service_t :=
  { name := 0, flags := 0, timeout0 := 0, timeout1 := 0, ndeps0 := 4294967295, ndeps1 := 0,
    deps0 := 1, deps1 := 0, type := 1, x := .longrun 0 }

/-- A database sized for the one record `exWrapLongrun`, with `ndeps = 1`. -/
def exWrapDb : s6rc_db_t :=
  { services := [exLongrun], nshort := 0, nlong := 1, stringlen := 5, nargvs := 0, ndeps := 1,
    string := [0, 0, 0, 0, 0], argvs := [], deps := [0, 0] }

/-- The stream that holds `exWrapLongrun`. -/
def exWrapStream : List Byte :=
  encodeDb exStart exEnd exPool [0, 0] [exWrapLongrun]

/-- A record whose name offset `99` lies beyond the pool. -/
def exBadName : s6rc_service_t :=
  { exLongrun with name := 99 }

/-- The stream that holds the records `exOneshot` and `exBadName`. -/
def exBadStream : List Byte :=
  encodeDb exStart exEnd exPool exDeps [exOneshot, exBadName]

/-- What every run of the reader, accepted or not, leaves alone in the caller's database: the
counts and the sizes of the blocks of dependencies, records and argv slots. -/
def SameShape (db db1 : s6rc_db_t) : Prop :=
  db1.nshort = db.nshort ∧ db1.nlong = db.nlong ∧ db1.stringlen = db.stringlen ∧
    db1.ndeps = db.ndeps ∧ db1.nargvs = db.nargvs ∧ db1.deps.length = db.deps.length ∧
    db1.services.length = db.services.length ∧ db1.argvs.length = db.argvs.length

/-- A piece of the reader keeps the shape of the database on every run, whether it falls
through or returns. -/
def Shapes {α : Type} (m : M α) : Prop :=
  ∀ mem b, SameShape mem.db (m mem b).mem.db

/-! ## Validity of the offsets of a decoded record -/

/-- An offset that is strictly less than `stringlen` with a NUL in `[pos, stringlen)`. -/
def GoodOffset (string : List Byte) (stringlen pos : Nat) : Prop :=
  pos < stringlen ∧ HasNul string stringlen pos

/-- Every string-pool offset of a record is good, whatever the argument counts. -/
def OffsetsValid (string : List Byte) (stringlen : Nat) (sv : s6rc_service_t) : Prop :=
  GoodOffset string stringlen sv.name ∧
    match sv.x with
    | .longrun servicedir => GoodOffset string stringlen servicedir
    | .oneshot _ _ argv0 argv1 =>
      GoodOffset string stringlen argv0 ∧ GoodOffset string stringlen argv1

/-- The offsets of a payload that address at least one string are good. -/
def PayloadUsedValid (string : List Byte) (stringlen : Nat) : s6rc_longshot_t → Prop
  | .longrun servicedir => GoodOffset string stringlen servicedir
  | .oneshot argc0 argc1 argv0 argv1 =>
    (0 < argc0 → GoodOffset string stringlen argv0) ∧
      (0 < argc1 → GoodOffset string stringlen argv1)

/-- The name of a record and the offsets of its payload that address at least one string are
good. -/
def OffsetsUsedValid (string : List Byte) (stringlen : Nat) (sv : s6rc_service_t) : Prop :=
  GoodOffset string stringlen sv.name ∧ PayloadUsedValid string stringlen sv.x

/-- What a piece of `s6rc_db_read_services` working on the record `*sv` leaves alone: the
string pool, the counts, the dependency table, the pointer `sv`, the size of the block of
records and every record but `*sv`. -/
def Keeps (mem m1 : Mem) : Prop :=
  m1.db.string = mem.db.string ∧ m1.db.stringlen = mem.db.stringlen ∧
    m1.db.nshort = mem.db.nshort ∧ m1.db.nlong = mem.db.nlong ∧ m1.db.ndeps = mem.db.ndeps ∧
    m1.db.nargvs = mem.db.nargvs ∧ m1.db.deps = mem.db.deps ∧ m1.sv = mem.sv ∧
    m1.db.services.length = mem.db.services.length ∧
    ∀ j, j ≠ mem.sv → m1.db.services[j]? = mem.db.services[j]?

/-- The state of the record `*sv` while `s6rc_db_read_services_record` runs from `mem`: the
rest of the memory is kept and the record, when the block holds it, has the name just read. -/
def NameKept (name : Nat) (mem m : Mem) : Prop :=
  Keeps mem m ∧ ∀ s0, mem.db.services[mem.sv]? = some s0 →
    ∃ s, m.db.services[mem.sv]? = some s ∧ s.name = name

/-- The memory after stores into the record `*sv` that amount to applying `F` to it. -/
def withSv (mem : Mem) (F : s6rc_service_t → s6rc_service_t) : Mem :=
  { mem with db := { mem.db with services := List.modify F mem.sv mem.db.services } }

/-- The memory after an argument group has been read: the stores into the record `*sv`
amount to `F`, the argv block holds `A`, and `slots` slots of it have been taken. -/
def withArgv (mem : Mem) (F : s6rc_service_t → s6rc_service_t) (A : List (Option Nat))
    (slots : Nat) : Mem :=
  { db := { mem.db with services := List.modify F mem.sv mem.db.services, argvs := A },
    sv := mem.sv, nargvs := mem.nargvs - slots, argvs := mem.argvs + slots }

/-- The memory after an iteration of the loop of `s6rc_db_read_services` has decoded the
record `sv`: the record is stored at `*sv`, the pointer `sv` has advanced, `argvSlots sv` slots
of the argv block have been taken and the block holds `A`. -/
def afterRecord (mem : Mem) (sv : s6rc_service_t) (A : List (Option Nat)) : Mem :=
  { db := { mem.db with services := mem.db.services.set mem.sv sv, argvs := A },
    sv := mem.sv + 1, nargvs := mem.nargvs - argvSlots sv, argvs := mem.argvs + argvSlots sv }

/-- The memory after the loop of `s6rc_db_read_services` has decoded the records `recs`. -/
def afterRecords (mem : Mem) (recs : List s6rc_service_t) (A : List (Option Nat)) : Mem :=
  { db := { mem.db with services := blockWrite mem.db.services mem.sv recs, argvs := A },
    sv := mem.sv + recs.length, nargvs := mem.nargvs - argvSlotsTotal recs,
    argvs := mem.argvs + argvSlotsTotal recs }

/-- A call of `s6rc_db_read_services` on the caller's database. -/
def readServices (db : s6rc_db_t) (b : List Byte) : Res Int :=
  s6rc_db_read_services { db := db, sv := 0, nargvs := 0, argvs := 0 } b

/-! ## The writes to the argv pool

The pieces of `s6rc_db_read_services` again, giving the stores into the block `db->argvs`
instead of the result. -/

/-- One store into the argv pool: the index of the slot written, and the two locals of
`s6rc_db_read_services` at the store, `consumed` for `argvs - db->argvs` and `remaining` for
`nargvs`. For a store of `env_make` they are the locals at the call; for the store of the
statement `*argvs++ = 0` they are the locals as the statement leaves them. -/
structure ArgvWrite where
  slot : Nat
  consumed : Nat
  remaining : Nat
  deriving DecidableEq, Repr

/-- The stores of what follows the piece `m`: none when `m` returns. -/
def thenWrites {α : Type} (m : M α) (w : α → Mem → List Byte → List ArgvWrite) :
    Mem → List Byte → List ArgvWrite :=
  fun mem b =>
    match m mem b with
    | .ok a mem1 b1 => w a mem1 b1
    | .ret _ _ _ => []

/-- The indices of the slots `env_make (v, argc, s, len)` stores into: `*v++ = s` for every
string found. -/
def env_make_writes (string : List Byte) : Nat → Nat → Nat → Nat → List Nat
  | 0, _, _, _ => []
  | argc + 1, v, s, len =>
    let n := byte_chr (string.drop s) len 0
    if n = len then []
    else v :: env_make_writes string argc (v + 1) (s + (n + 1)) (len - (n + 1))

/-- The stores of one argument group (lines 109-121): those of `env_make`, then, when
`env_make` succeeds and `if (!nargvs--) return 0 ;` does not return, the store of the null
slot `*argvs++ = 0`. -/
def s6rc_db_read_services_argv_writes : Mem → List Byte → List ArgvWrite :=
  thenWrites (read_uint32_or (-1)) fun argc mem b1 =>
    if argc > mem.nargvs then []
    else thenWrites (read_uint32_or (-1)) (fun argvpos _ _ =>
      if s6rc_db_check_valid_strings mem.db.string mem.db.stringlen argvpos argc = false then []
      else
        (env_make_writes mem.db.string argc mem.argvs argvpos
            (wrap32 (mem.db.stringlen + 2 ^ 32 - argvpos))).map
          (fun j => { slot := j, consumed := mem.argvs, remaining := mem.nargvs }) ++
        if (env_make mem.db.string argc mem.db.argvs mem.argvs argvpos
            (wrap32 (mem.db.stringlen + 2 ^ 32 - argvpos))).1 = false then []
        else if mem.nargvs - argc = 0 then []
        else [{ slot := mem.argvs + argc, consumed := mem.argvs + argc + 1,
                remaining := wrap32 (mem.nargvs - argc + 2 ^ 32 - 1) }]) mem b1

/-- The stores of the payload of a record: none for a longrun, those of the two argument
groups for a oneshot. -/
def s6rc_db_read_services_payload_writes (type : Byte) : Mem → List Byte → List ArgvWrite :=
  if type ≠ 0 then fun _ _ => []
  else thenWrites (setSv fun sv => { sv with type := 0 }) fun _ mem b =>
    s6rc_db_read_services_argv_writes mem b ++
      thenWrites (s6rc_db_read_services_argv 0)
        (fun _ => s6rc_db_read_services_argv_writes) mem b

/-- The part of `s6rc_db_read_services_record` before the payload (lines 63-93): it ends with
the read of the type byte. -/
def s6rc_db_read_services_record_head : M (List Byte) := do
  let name ← read_uint32_or (-1)
  setSv fun sv => { sv with name := name }
  let mem ← getMem
  returnIf (name ≥ mem.db.stringlen) 0
  returnIf (s6rc_db_check_valid_string mem.db.string mem.db.stringlen name = false) 0
  let flags ← read_uint32_or (-1)
  setSv fun sv => { sv with flags := flags }
  let timeout0 ← read_uint32_or (-1)
  setSv fun sv => { sv with timeout0 := timeout0 }
  let timeout1 ← read_uint32_or (-1)
  setSv fun sv => { sv with timeout1 := timeout1 }
  let ndeps0 ← read_uint32_or (-1)
  setSv fun sv => { sv with ndeps0 := ndeps0 }
  let ndeps1 ← read_uint32_or (-1)
  setSv fun sv => { sv with ndeps1 := ndeps1 }
  let deps0 ← read_uint32_or (-1)
  setSv fun sv => { sv with deps0 := deps0 }
  returnIf (deps0 > mem.db.ndeps ∨ wrap32 (deps0 + ndeps0) > mem.db.ndeps) 0
  let deps1 ← read_uint32_or (-1)
  setSv fun sv => { sv with deps1 := deps1 }
  returnIf (deps1 > mem.db.ndeps ∨ wrap32 (deps1 + ndeps1) > mem.db.ndeps) 0
  buffer_get_or 1 (-1)

/-- The stores of one iteration of the loop `while (n--)`: those of the payload. -/
def s6rc_db_read_services_record_writes : Mem → List Byte → List ArgvWrite :=
  thenWrites s6rc_db_read_services_record_head fun type =>
    s6rc_db_read_services_payload_writes (type.headD 0)

/-- The stores of the loop `while (n--)`. -/
def s6rc_db_read_services_loop_writes : Nat → Mem → List Byte → List ArgvWrite
  | 0, _, _ => []
  | n + 1, mem, b =>
    s6rc_db_read_services_record_writes mem b ++
      thenWrites (s6rc_db_read_services_record >>= fun _ => s6rc_db_read_services_marker)
        (fun _ => s6rc_db_read_services_loop_writes n) mem b

/-- The stores of `s6rc_db_read_services (b, db)` into the argv pool, in order. -/
def s6rc_db_read_services_writes : Mem → List Byte → List ArgvWrite :=
  thenWrites s6rc_db_read_services_init s6rc_db_read_services_loop_writes

/-- The stores into the argv pool of a call of `s6rc_db_read_services` on the caller's
database. -/
def readServicesWrites (db : s6rc_db_t) (b : List Byte) : List ArgvWrite :=
  s6rc_db_read_services_writes { db := db, sv := 0, nargvs := 0, argvs := 0 } b

/-- The cursor invariant of `s6rc_db_read_services`: slots consumed plus remaining capacity is
the declared number `n` of slots. -/
def Cursor (n : Nat) (mem : Mem) : Prop :=
  mem.db.nargvs = n ∧ mem.argvs + mem.nargvs = n

/-! ## `s6rc_servicedir_manage` (`s6rc_servicedir_manage.c`)

The function works on the file system under `live` through libc, skalibs and s6. The part of
the file system it touches is the state `Fs`; the outcome of every external operation that the
state does not settle is given by the environment `Env`; the calls made are recorded in
order. File names are byte strings. -/

/-- An entry of `live/scandir`: a symbolic link with its target, or anything else. -/
inductive Node where
  | symlink (target : List Byte)
  | other
  deriving DecidableEq, Repr

/-- The part of the file system under `live` that `s6rc_servicedir_manage` reads or changes:
the names `readdir` hands back for `live/servicedirs`, in order; the names `d` for which
`live/servicedirs/d/down` and `live/servicedirs/d/event` exist; the entries of
`live/scandir`. -/
structure Fs where
  servicedirs : List (List Byte)
  down : List (List Byte)
  event : List (List Byte)
  scandir : List (List Byte × Node)
  deriving DecidableEq, Repr

/-- The outcomes of the external operations. A failing operation comes with the `errno` it
sets. `ftrigr_startf`, `opendir`, `touch`, `ftrigw_fifodir_make`, `genalloc_append`, `symlink`
and `ftrigr_wait_and` fail with `some errno`. `readdir k` is the `errno` of the call number `k`
of `readdir` when that call fails, and `0` when it does not. `s6_svc_ok` and `s6_svc_writectl`
give their result `r` and the `errno`; `ftrigr_subscribe` gives the id (`0` on failure) and
the `errno`. `symlink` stands for the failures other than the one of an existing `dstfn`. -/
structure Env where
  ftrigr_startf : Option Nat
  opendir : Option Nat
  readdir : Nat → Nat
  s6_svc_ok : List Byte → Int × Nat
  touch : List Byte → Option Nat
  ftrigw_fifodir_make : List Byte → Option Nat
  ftrigr_subscribe : List Byte → Nat × Nat
  genalloc_append : List Byte → Option Nat
  symlink : List Byte → Option Nat
  s6_svc_writectl : Int × Nat
  ftrigr_wait_and : List Nat → Option Nat

/-- A call of an external operation; the argument is the name `d->d_name` of the entry the
call is made for. -/
inductive Call where
  | ftrigr_startf
  | opendir
  | readdir
  | s6_svc_ok (d : List Byte)
  | touch (d : List Byte)
  | ftrigw_fifodir_make (d : List Byte)
  | ftrigr_subscribe (d : List Byte)
  | genalloc_append (id : Nat)
  | symlink (d : List Byte)
  | dir_close
  | s6_svc_writectl
  | ftrigr_wait_and (ids : List Nat)
  | genalloc_free
  | ftrigr_end
  deriving DecidableEq, Repr

/-- The state of a run of `s6rc_servicedir_manage`: the file system, the subscription ids in
the `genalloc ids`, and the calls made so far. -/
structure St where
  fs : Fs
  ids : List Nat
  calls : List Call
  deriving DecidableEq, Repr

/-- What the caller gets: the value returned, `errno` where the function sets it before it
returns `0` (on the success paths the model does not follow `errno`), the file system and the
calls made. -/
structure Outcome where
  ret : Int
  errno : Option Nat
  fs : Fs
  calls : List Call
  deriving DecidableEq, Repr

/-- The value of `EEXIST`. -/
def EEXIST : Nat := 17

/-- The state after one more recorded call. -/
def St.call (st : St) (c : Call) : St :=
  { st with calls := st.calls ++ [c] }

/-- The name `srcfn` for the entry `d`: `live`, then `"/servicedirs/"`, then `d`. -/
def srcfn (live d : List Byte) : List Byte :=
  live ++ [47, 115, 101, 114, 118, 105, 99, 101, 100, 105, 114, 115, 47] ++ d

/-- Adding a name to the names of existing files: no change when it is there. -/
def create (d : List Byte) (l : List (List Byte)) : List (List Byte) :=
  if d ∈ l then l else l ++ [d]

/-- The block under `if (!r)` (lines 50-60), for an entry the probe found not
supervised: `touch` of the `down` file, `ftrigw_fifodir_make` of the `event` directory,
`ftrigr_subscribe`, `genalloc_append`. The result is the value of `e` on `goto err`. -/
def s6rc_servicedir_manage_down (env : Env) (d : List Byte) (st : St) : Option Nat × St :=
  let st1 := st.call (.touch d)
  match env.touch d with
  | some e => (some e, st1)
  | none =>
    let st2 := { st1 with fs := { st1.fs with down := create d st1.fs.down } }
    let st3 := st2.call (.ftrigw_fifodir_make d)
    match env.ftrigw_fifodir_make d with
    | some e => (some e, st3)
    | none =>
      let st4 := { st3 with fs := { st3.fs with event := create d st3.fs.event } }
      let st5 := st4.call (.ftrigr_subscribe d)
      if (env.ftrigr_subscribe d).1 = 0 then (some (env.ftrigr_subscribe d).2, st5)
      else
        let st6 := st5.call (.genalloc_append (env.ftrigr_subscribe d).1)
        match env.genalloc_append d with
        | some e => (some e, st6)
        | none => (none, { st6 with ids := st6.ids ++ [(env.ftrigr_subscribe d).1] })

/-- The call `symlink (srcfn, dstfn)` with `dstfn` the entry `d` of `live/scandir`: it fails
with `EEXIST` when that entry exists, whatever it is; the result is the `errno` of a
failure. -/
def s6rc_servicedir_manage_symlink (env : Env) (live d : List Byte) (st : St) :
    Option Nat × St :=
  let st1 := st.call (.symlink d)
  if d ∈ st1.fs.scandir.map Prod.fst then (some EEXIST, st1)
  else
    match env.symlink d with
    | some e => (some e, st1)
    | none =>
      (none, { st1 with fs := { st1.fs with
        scandir := st1.fs.scandir ++ [(d, .symlink (srcfn live d))] } })

/-- The body of the loop for an entry `d` whose name does not start with a dot (lines 40-66).
The result is the value of `e` on `goto err`. The last test is
`symlink (srcfn, dstfn) < 0 && (!r || errno != EEXIST)`. -/
def s6rc_servicedir_manage_entry (env : Env) (live d : List Byte) (st : St) :
    Option Nat × St :=
  let st1 := st.call (.s6_svc_ok d)
  let r := (env.s6_svc_ok d).1
  if r < 0 then (some (env.s6_svc_ok d).2, st1)
  else
    match (if r = 0 then s6rc_servicedir_manage_down env d st1 else (none, st1)) with
    | (some e, st2) => (some e, st2)
    | (none, st2) =>
      match s6rc_servicedir_manage_symlink env live d st2 with
      | (some e, st3) => if r = 0 ∨ e ≠ EEXIST then (some e, st3) else (none, st3)
      | (none, st3) => (none, st3)

/-- The loop `for (;;)` (lines 33-67) with the test `if (errno)` that follows it (line 68), on
the entries `readdir` has not handed back yet; `k` is the number of calls of `readdir` made.
The result is the value of `e` on `goto err`. -/
def s6rc_servicedir_manage_scan (env : Env) (live : List Byte) :
    List (List Byte) → Nat → St → Option Nat × St
  | [], k, st =>
    if env.readdir k ≠ 0 then (some (env.readdir k), st.call .readdir)
    else (none, st.call .readdir)
  | d :: rest, k, st =>
    if env.readdir k ≠ 0 then (some (env.readdir k), st.call .readdir)
    else if d.head? = some 46 then
      s6rc_servicedir_manage_scan env live rest (k + 1) (st.call .readdir)
    else
      match s6rc_servicedir_manage_entry env live d (st.call .readdir) with
      | (some e, st1) => (some e, st1)
      | (none, st1) => s6rc_servicedir_manage_scan env live rest (k + 1) st1

/-- The exit through `closederr:` (lines 88-92) with the local `e`. -/
def s6rc_servicedir_manage_closederr (e : Nat) (st : St) : Outcome :=
  { ret := 0, errno := some e, fs := st.fs, calls := st.calls ++ [.genalloc_free, .ftrigr_end] }

/-- The exit `return ok` (lines 82-84). -/
def s6rc_servicedir_manage_return (ok : Int) (st : St) : Outcome :=
  { ret := ok, errno := none, fs := st.fs, calls := st.calls ++ [.genalloc_free, .ftrigr_end] }

/-- The source's `s6rc_servicedir_manage (live, deadline, stamp)`. The local `e` is `0` until
an `e = errno` sets it. -/
def s6rc_servicedir_manage (env : Env) (live : List Byte) (fs : Fs) : Outcome :=
  match env.ftrigr_startf with
  | some e => { ret := 0, errno := some e, fs := fs, calls := [.ftrigr_startf] }
  | none =>
    match env.opendir with
    | some _ =>
      s6rc_servicedir_manage_closederr 0
        { fs := fs, ids := [], calls := [.ftrigr_startf, .opendir] }
    | none =>
      match s6rc_servicedir_manage_scan env live fs.servicedirs 0
          { fs := fs, ids := [], calls := [.ftrigr_startf, .opendir] } with
      | (some e, st) => s6rc_servicedir_manage_closederr e (st.call .dir_close)
      | (none, st) =>
        let st1 := (st.call .dir_close).call .s6_svc_writectl
        if env.s6_svc_writectl.1 < 0 then
          s6rc_servicedir_manage_closederr env.s6_svc_writectl.2 st1
        else if env.s6_svc_writectl.1 = 0 then s6rc_servicedir_manage_return 3 st1
        else
          match env.ftrigr_wait_and st1.ids with
          | some e =>
            s6rc_servicedir_manage_closederr e (st1.call (.ftrigr_wait_and st1.ids))
          | none => s6rc_servicedir_manage_return 1 (st1.call (.ftrigr_wait_and st1.ids))

/-! ### Examples for the instances -/

/-- The name `"/l"` of a live directory. -/
def exLive : List Byte := [47, 108]

/-- An environment in which no operation fails, no entry is supervised and nothing listens on
the control pipe of the scan directory. -/
def exEnvDown : Env :=
  { ftrigr_startf := none, opendir := none, readdir := fun _ => 0, s6_svc_ok := fun _ => (0, 0),
    touch := fun _ => none, ftrigw_fifodir_make := fun _ => none,
    ftrigr_subscribe := fun _ => (1, 0), genalloc_append := fun _ => none,
    symlink := fun _ => none, s6_svc_writectl := (0, 0), ftrigr_wait_and := fun _ => none }

/-- An environment in which no operation fails, every entry is supervised and the control
write reaches a listener. -/
def exEnvUp : Env :=
  { exEnvDown with s6_svc_ok := fun _ => (1, 0), s6_svc_writectl := (1, 0) }

/-- The environment `exEnvDown` with an `opendir` that fails with `ENOENT` (2). -/
def exEnvNoDir : Env :=
  { exEnvDown with opendir := some 2 }

/-- A live directory with the one service directory `"a"` and an empty scan directory. -/
def exFs : Fs :=
  { servicedirs := [[97]], down := [], event := [], scandir := [] }

/-- The same with `scandir/a` a symbolic link to `servicedirs/a`. -/
def exFsLinked : Fs :=
  { exFs with scandir := [([97], .symlink (srcfn exLive [97]))] }

/-- The same with `scandir/a` something that is not a symbolic link. -/
def exFsOther : Fs :=
  { exFs with scandir := [([97], .other)] }

/-! ## `s6rc_sanitize_dir` (`s6rc_sanitize_dir.c`)

A `stralloc` is `none` when `sa->s` is the null pointer and `some` of its bytes
`s[0 .. len)` otherwise. The lengths are `unsigned int` values of a buffer that fits in
memory: no sum of lengths wraps. -/

/-- The outcomes of the skalibs operations `s6rc_sanitize_dir` calls: the bytes `sadirname`
and `sabasename` append for `fn` (`none` when the call fails and appends nothing), and whether
the call `stralloc_catb (sa, "/", 1)` succeeds. -/
structure SaEnv where
  sadirname : List Byte → Option (List Byte)
  stralloc_catb : Bool
  sabasename : List Byte → Option (List Byte)

/-- What the caller of `s6rc_sanitize_dir` gets: the value returned, the `stralloc`, and the
value stored in `*dirlen` when one is stored. -/
structure SanitizeOut where
  ret : Int
  sa : Option (List Byte)
  dirlen : Option Nat
  deriving DecidableEq, Repr

/-- The exit through `err:` (lines 22-25): `stralloc_free` when `sa->s` was null at the call,
`sa->len = base` otherwise. -/
def s6rc_sanitize_dir_err (wasnull : Bool) (base : Nat) (cur : List Byte) : SanitizeOut :=
  { ret := 0, sa := if wasnull then none else some (cur.take base), dirlen := none }

/-- The source's `s6rc_sanitize_dir (sa, fn, dirlen)`. -/
def s6rc_sanitize_dir (env : SaEnv) (sa : Option (List Byte)) (fn : List Byte) : SanitizeOut :=
  let wasnull := sa.isNone
  let base := (sa.getD []).length
  match env.sadirname fn with
  | none => { ret := 0, sa := sa, dirlen := none }
  | some dir =>
    let sa1 := sa.getD [] ++ dir
    if sa1.length ≠ base + 1 ∨ sa1[base]? ≠ some 47 then
      if env.stralloc_catb = false then s6rc_sanitize_dir_err wasnull base sa1
      else
        match env.sabasename fn with
        | none => s6rc_sanitize_dir_err wasnull base (sa1 ++ [47])
        | some bn =>
          { ret := 1, sa := some (sa1 ++ [47] ++ bn), dirlen := some (sa1 ++ [47]).length }
    else
      match env.sabasename fn with
      | none => s6rc_sanitize_dir_err wasnull base sa1
      | some bn => { ret := 1, sa := some (sa1 ++ bn), dirlen := some sa1.length }

/-- An environment in which the directory name of every path is `"/"` and its base name is
`"db"`. -/
def exSaRoot : SaEnv :=
  { sadirname := fun _ => some [47], stralloc_catb := true,
    sabasename := fun _ => some [100, 98] }

/-- An environment in which the directory name of every path is `"x"` and its base name is
`"db"`. -/
def exSaDir : SaEnv :=
  { sadirname := fun _ => some [120], stralloc_catb := true,
    sabasename := fun _ => some [100, 98] }

/-! ## Predicates on pieces of the reader -/

/-- A postcondition of a piece of the reader on the runs that fall through. -/
def Post {α : Type} (m : M α) (mem : Mem) (b : List Byte)
    (Q : α → Mem → List Byte → Prop) : Prop :=
  ∀ a mem1 b1, m mem b = .ok a mem1 b1 → Q a mem1 b1

/-- How a piece of the reader uses its input when it falls through: it has read a block `c`
at the head of the input; unless it met the end of the input (or under `G`, which stands for
`stringlen < 2 ^ 31`), what follows `c` has no influence; and under `G` every input that stops
inside `c` ends in `return -1`. -/
def Reads {α : Type} (G : Prop) (m : M α) (mem : Mem) (b : List Byte) : Prop :=
  ∀ a mem1 b1, m mem b = .ok a mem1 b1 →
    ∃ c, b = c ++ b1 ∧
      ((b1 ≠ [] ∨ G) → ∀ r, m mem (c ++ r) = .ok a mem1 r) ∧
      (G → ∀ p t, c = p ++ t → t ≠ [] → ∃ mem2 b2, m mem p = .ret (-1) mem2 b2)

/-- Every `return` a piece of the reader executes has a code below `1`. -/
def Rets {α : Type} (m : M α) : Prop :=
  ∀ mem b c mem1 b1, m mem b = .ret c mem1 b1 → c < 1

/-! ## Lemmas on the string primitives -/

theorem byte_chr_le (s : List Byte) (n : Nat) (c : Byte) : byte_chr s n c ≤ n := by
  induction s generalizing n with
  | nil => cases n <;> simp [byte_chr]
  | cons x s ih =>
    cases n with
    | zero => simp [byte_chr]
    | succ n =>
      simp only [byte_chr]
      split
      · omega
      · have := ih n; omega

theorem byte_chr_lt_iff (s : List Byte) (n : Nat) (c : Byte) :
    byte_chr s n c < n ↔ ∃ i, i < n ∧ s[i]? = some c := by
  induction s generalizing n with
  | nil => cases n <;> simp [byte_chr]
  | cons x s ih =>
    cases n with
    | zero => simp [byte_chr]
    | succ n =>
      simp only [byte_chr]
      split
      · rename_i hx
        subst hx
        simp only [Nat.zero_lt_succ, true_iff]
        exact ⟨0, by omega, by simp⟩
      · rename_i hx
        rw [Nat.add_lt_add_iff_right, ih n]
        constructor
        · rintro ⟨i, hi, hs⟩
          exact ⟨i + 1, by omega, by simpa using hs⟩
        · rintro ⟨i, hi, hs⟩
          cases i with
          | zero => simp at hs; exact absurd hs hx
          | succ i => exact ⟨i, by omega, by simpa using hs⟩

theorem byte_chr_spec (s : List Byte) (n : Nat) (c : Byte) (h : byte_chr s n c < n) :
    s[byte_chr s n c]? = some c ∧ ∀ j, j < byte_chr s n c → s[j]? ≠ some c := by
  induction s generalizing n with
  | nil => cases n <;> simp [byte_chr] at h
  | cons x s ih =>
    cases n with
    | zero => simp [byte_chr] at h
    | succ n =>
      simp only [byte_chr] at h ⊢
      split
      · rename_i hx
        subst hx
        simp
      · rename_i hx
        rw [if_neg hx] at h
        have h2 := ih n (by omega)
        refine ⟨by simpa using h2.1, ?_⟩
        intro j hj
        cases j with
        | zero => simpa using hx
        | succ j => simpa using h2.2 j (by omega)

theorem str_len_eq_byte_chr (s : List Byte) (n : Nat) (h : byte_chr s n 0 < n) :
    str_len s = byte_chr s n 0 := by
  induction s generalizing n with
  | nil => cases n <;> simp [byte_chr] at h
  | cons x s ih =>
    cases n with
    | zero => simp [byte_chr] at h
    | succ n =>
      simp only [byte_chr, str_len] at h ⊢
      split
      · rfl
      · rename_i hx
        rw [if_neg hx] at h
        rw [ih n (by omega)]

theorem check_valid_string_iff (string : List Byte) (stringlen pos : Nat) :
    s6rc_db_check_valid_string string stringlen pos = true ↔
      pos < stringlen ∧ HasNul string stringlen pos := by
  unfold s6rc_db_check_valid_string HasNul str_nlen
  by_cases hp : pos ≥ stringlen
  · simp [hp]
  · have hle := byte_chr_le (string.drop pos) (stringlen - pos) 0
    have hiff := byte_chr_lt_iff (string.drop pos) (stringlen - pos) 0
    simp only [hp, if_false]
    constructor
    · intro h
      have hlt : byte_chr (string.drop pos) (stringlen - pos) 0 < stringlen - pos := by
        by_contra hc
        have : byte_chr (string.drop pos) (stringlen - pos) 0 = stringlen - pos := by omega
        simp [this] at h
      obtain ⟨i, hi, hs⟩ := hiff.mp hlt
      refine ⟨by omega, pos + i, by omega, by omega, ?_⟩
      simpa [List.getElem?_drop] using hs
    · rintro ⟨_, i, hi1, hi2, hs⟩
      have hlt : byte_chr (string.drop pos) (stringlen - pos) 0 < stringlen - pos := by
        apply hiff.mpr
        refine ⟨i - pos, by omega, ?_⟩
        rw [List.getElem?_drop]
        have : pos + (i - pos) = i := by omega
        rw [this]; exact hs
      have hne : byte_chr (string.drop pos) (stringlen - pos) 0 ≠ stringlen - pos := by omega
      simp [hne]

/-- After a successful single-string check the unbounded `str_len` finds the same NUL as the
bounded scan: the first NUL at or after `pos`, strictly before `stringlen`. -/
theorem str_len_of_valid (string : List Byte) (stringlen pos : Nat)
    (h : s6rc_db_check_valid_string string stringlen pos = true) :
    pos + str_len (string.drop pos) < stringlen ∧
      FirstNulAt string pos (pos + str_len (string.drop pos)) := by
  unfold s6rc_db_check_valid_string str_nlen at h
  by_cases hp : pos ≥ stringlen
  · simp [hp] at h
  · simp only [hp, if_false] at h
    have hle := byte_chr_le (string.drop pos) (stringlen - pos) 0
    have hlt : byte_chr (string.drop pos) (stringlen - pos) 0 < stringlen - pos := by
      by_contra hc
      have : byte_chr (string.drop pos) (stringlen - pos) 0 = stringlen - pos := by omega
      simp [this] at h
    rw [str_len_eq_byte_chr _ _ hlt]
    obtain ⟨h1, h2⟩ := byte_chr_spec _ _ _ hlt
    refine ⟨by omega, by omega, ?_, ?_⟩
    · simpa [List.getElem?_drop] using h1
    · intro j hj1 hj2
      have := h2 (j - pos) (by omega)
      rw [List.getElem?_drop] at this
      have e : pos + (j - pos) = j := by omega
      rwa [e] at this

theorem firstNulAt_unique (string : List Byte) (p e e' : Nat)
    (h : FirstNulAt string p e) (h' : FirstNulAt string p e') : e = e' := by
  obtain ⟨h1, h2, h3⟩ := h
  obtain ⟨h1', h2', h3'⟩ := h'
  rcases Nat.lt_trichotomy e e' with hlt | heq | hgt
  · exact absurd h2 (h3' e h1 hlt)
  · exact heq
  · exact absurd h2' (h3 e' h1' hgt)

theorem check_valid_strings_iff (string : List Byte) (stringlen pos n : Nat) :
    s6rc_db_check_valid_strings string stringlen pos n = true ↔
      PackedStrings string stringlen pos n := by
  induction n generalizing pos with
  | zero =>
    simp only [s6rc_db_check_valid_strings, true_iff]
    exact ⟨fun _ => pos, rfl, fun k hk => absurd hk (Nat.not_lt_zero k)⟩
  | succ n ih =>
    simp only [s6rc_db_check_valid_strings]
    by_cases hv : s6rc_db_check_valid_string string stringlen pos = true
    · obtain ⟨hlt, hfirst⟩ := str_len_of_valid string stringlen pos hv
      simp only [hv, Bool.not_true, Bool.false_eq_true, if_false]
      rw [ih]
      constructor
      · rintro ⟨p, hp0, hp⟩
        refine ⟨fun k => if k = 0 then pos else p (k - 1), by simp, ?_⟩
        intro k hk
        cases k with
        | zero =>
          simp only [if_true, Nat.zero_add, Nat.add_sub_cancel, if_neg (Nat.succ_ne_zero 0)]
          rw [hp0]
          refine ⟨by omega, by omega, ?_⟩
          have e : pos + (str_len (string.drop pos) + 1) - 1 = pos + str_len (string.drop pos) := by
            omega
          rw [e]; exact hfirst
        | succ k =>
          have := hp k (by omega)
          simpa using this
      · rintro ⟨p, hp0, hp⟩
        have h0 := hp 0 (by omega)
        rw [hp0] at h0
        have e := firstNulAt_unique string pos _ _ hfirst h0.2.2
        refine ⟨fun k => p (k + 1), by simp only; omega, ?_⟩
        intro k hk
        exact hp (k + 1) (by omega)
    · have hv2 : s6rc_db_check_valid_string string stringlen pos = false := by
        simpa using hv
      simp only [hv2, Bool.not_false, if_true, Bool.false_eq_true, false_iff]
      rintro ⟨p, hp0, hp⟩
      obtain ⟨h1, h2, h3, h4, h5⟩ := hp 0 (by omega)
      rw [hp0] at h1 h3
      apply hv
      rw [check_valid_string_iff]
      simp only [Nat.zero_add] at h1 h2 h3 h4
      exact ⟨by omega, p 1 - 1, h3, by omega, h4⟩

/-! ## Sequencing -/

theorem bind_apply {α β : Type} (m : M α) (f : α → M β) (mem : Mem) (b : List Byte) :
    (m >>= f) mem b =
      match m mem b with
      | .ok a mem1 b1 => f a mem1 b1
      | .ret c mem1 b1 => .ret c mem1 b1 := rfl

theorem bind_ok {α β : Type} {m : M α} {f : α → M β} {mem mem1 : Mem} {b b1 : List Byte} {a : α}
    (h : m mem b = .ok a mem1 b1) : (m >>= f) mem b = f a mem1 b1 := by
  rw [bind_apply, h]

theorem bind_ret {α β : Type} {m : M α} {f : α → M β} {mem mem1 : Mem} {b b1 : List Byte}
    {c : Int} (h : m mem b = .ret c mem1 b1) : (m >>= f) mem b = .ret c mem1 b1 := by
  rw [bind_apply, h]

theorem bind_ok_inv {α β : Type} {m : M α} {f : α → M β} {mem mem2 : Mem} {b b2 : List Byte}
    {x : β} (h : (m >>= f) mem b = .ok x mem2 b2) :
    ∃ a mem1 b1, m mem b = .ok a mem1 b1 ∧ f a mem1 b1 = .ok x mem2 b2 := by
  rw [bind_apply] at h
  cases hm : m mem b with
  | ok a mem1 b1 => rw [hm] at h; exact ⟨a, mem1, b1, rfl, h⟩
  | ret c mem1 b1 => rw [hm] at h; cases h

theorem bind_assoc_M {α β γ : Type} (m : M α) (f : α → M β) (g : β → M γ) :
    (m >>= f) >>= g = m >>= fun a => f a >>= g := by
  funext mem b
  simp only [bind_apply]
  cases m mem b <;> rfl

theorem getMem_apply (mem : Mem) (b : List Byte) : getMem mem b = .ok mem mem b := rfl

theorem setMem_apply (f : Mem → Mem) (mem : Mem) (b : List Byte) :
    setMem f mem b = .ok () (f mem) b := rfl

theorem pure_apply {α : Type} (a : α) (mem : Mem) (b : List Byte) :
    (pure a : M α) mem b = .ok a mem b := rfl

theorem returnIf_pos {c : Prop} [Decidable c] (code : Int) (mem : Mem) (b : List Byte)
    (h : c) : returnIf c code mem b = .ret code mem b := by
  simp [returnIf, h, ret]

theorem returnIf_neg {c : Prop} [Decidable c] (code : Int) (mem : Mem) (b : List Byte)
    (h : ¬ c) : returnIf c code mem b = .ok () mem b := by
  simp [returnIf, h, pure_apply]

theorem returnIf_ok_inv {c : Prop} [Decidable c] {code : Int} {mem mem1 : Mem}
    {b b1 : List Byte} {u : Unit} (h : returnIf c code mem b = .ok u mem1 b1) :
    ¬ c ∧ mem1 = mem ∧ b1 = b := by
  by_cases hc : c
  · rw [returnIf_pos code mem b hc] at h; cases h
  · rw [returnIf_neg code mem b hc] at h
    cases h
    exact ⟨hc, rfl, rfl⟩

/-! ## Postconditions, piece by piece -/

theorem post_bind {α β : Type} {m : M α} {f : α → M β} {mem : Mem} {b : List Byte}
    {Q : β → Mem → List Byte → Prop}
    (h : Post m mem b fun a mem1 b1 => Post (f a) mem1 b1 Q) : Post (m >>= f) mem b Q := by
  intro x mem2 b2 hx
  obtain ⟨a, mem1, b1, h1, h2⟩ := bind_ok_inv hx
  exact h a mem1 b1 h1 x mem2 b2 h2

theorem post_pure {α : Type} {a : α} {mem : Mem} {b : List Byte}
    {Q : α → Mem → List Byte → Prop} (h : Q a mem b) : Post (pure a) mem b Q := by
  intro x mem1 b1 hx
  rw [pure_apply] at hx
  cases hx
  exact h

theorem post_ret {α : Type} {code : Int} {mem : Mem} {b : List Byte}
    {Q : α → Mem → List Byte → Prop} : Post (ret code) mem b Q := by
  intro x mem1 b1 hx
  cases hx

theorem post_returnIf {c : Prop} [Decidable c] {code : Int} {mem : Mem} {b : List Byte}
    {Q : Unit → Mem → List Byte → Prop} (h : ¬ c → Q () mem b) :
    Post (returnIf c code) mem b Q := by
  intro x mem1 b1 hx
  obtain ⟨hc, rfl, rfl⟩ := returnIf_ok_inv hx
  exact h hc

theorem post_getMem {mem : Mem} {b : List Byte} {Q : Mem → Mem → List Byte → Prop}
    (h : Q mem mem b) : Post getMem mem b Q := by
  intro x mem1 b1 hx
  cases hx
  exact h

theorem post_setMem {f : Mem → Mem} {mem : Mem} {b : List Byte}
    {Q : Unit → Mem → List Byte → Prop} (h : Q () (f mem) b) : Post (setMem f) mem b Q := by
  intro x mem1 b1 hx
  cases hx
  exact h

theorem post_setSv {f : s6rc_service_t → s6rc_service_t} {mem : Mem} {b : List Byte}
    {Q : Unit → Mem → List Byte → Prop}
    (h : Q () { mem with db := { mem.db with services := mem.db.services.modify f mem.sv } } b) :
    Post (setSv f) mem b Q :=
  post_setMem h

theorem read_uint32_or_ok_inv {code : Int} {mem mem1 : Mem} {b b1 : List Byte} {x : Nat}
    (h : read_uint32_or code mem b = .ok x mem1 b1) :
    ∃ b0 b1' b2 b3, b = b0 :: b1' :: b2 :: b3 :: b1 ∧ x = uint32_unpack_big b0 b1' b2 b3 ∧
      mem1 = mem := by
  unfold read_uint32_or s6rc_db_read_uint32 at h
  split at h
  · rename_i x' rest heq
    split at heq
    · cases heq
      cases h
      exact ⟨_, _, _, _, rfl, rfl, rfl⟩
    · cases heq
  · cases h

theorem post_read_uint32_or {code : Int} {mem : Mem} {b : List Byte}
    {Q : Nat → Mem → List Byte → Prop}
    (h : ∀ b0 b1 b2 b3 rest, b = b0 :: b1 :: b2 :: b3 :: rest →
      Q (uint32_unpack_big b0 b1 b2 b3) mem rest) :
    Post (read_uint32_or code) mem b Q := by
  intro x mem1 b1 hx
  obtain ⟨b0, b1', b2, b3, rfl, rfl, rfl⟩ := read_uint32_or_ok_inv hx
  exact h _ _ _ _ _ rfl

theorem buffer_get_or_ok_inv {len : Nat} {code : Int} {mem mem1 : Mem} {b b1 : List Byte}
    {x : List Byte} (h : buffer_get_or len code mem b = .ok x mem1 b1) :
    b = x ++ b1 ∧ x.length = len ∧ mem1 = mem := by
  unfold buffer_get_or at h
  split at h
  · cases h
  · rename_i hlen
    cases h
    refine ⟨(List.take_append_drop len b).symm, ?_, rfl⟩
    rw [List.length_take]
    omega

theorem post_buffer_get_or {len : Nat} {code : Int} {mem : Mem} {b : List Byte}
    {Q : List Byte → Mem → List Byte → Prop}
    (h : ∀ x rest, b = x ++ rest → x.length = len → Q x mem rest) :
    Post (buffer_get_or len code) mem b Q := by
  intro x mem1 b1 hx
  obtain ⟨rfl, hl, rfl⟩ := buffer_get_or_ok_inv hx
  exact h _ _ rfl hl

theorem post_mono {α : Type} {m : M α} {mem : Mem} {b : List Byte}
    {Q Q' : α → Mem → List Byte → Prop} (h : Post m mem b Q)
    (hq : ∀ a mem1 b1, Q a mem1 b1 → Q' a mem1 b1) : Post m mem b Q' :=
  fun a mem1 b1 hx => hq a mem1 b1 (h a mem1 b1 hx)

/-! ## Use of the input, piece by piece -/

theorem reads_bind {α β : Type} {G : Prop} {m : M α} {f : α → M β} {mem : Mem} {b : List Byte}
    (hm : Reads G m mem b)
    (hf : ∀ a mem1 b1, m mem b = .ok a mem1 b1 → Reads G (f a) mem1 b1) :
    Reads G (m >>= f) mem b := by
  intro x mem2 b2 hx
  obtain ⟨a, mem1, b1, h1, h2⟩ := bind_ok_inv hx
  obtain ⟨c1, e1, fr1, sh1⟩ := hm a mem1 b1 h1
  obtain ⟨c2, e2, fr2, sh2⟩ := hf a mem1 b1 h1 x mem2 b2 h2
  have hne : (b2 ≠ [] ∨ G) → (b1 ≠ [] ∨ G) := by
    rintro (h | h)
    · left
      rw [e2]
      intro hnil
      exact h (List.append_eq_nil.mp hnil).2
    · exact Or.inr h
  refine ⟨c1 ++ c2, by rw [e1, e2, List.append_assoc], ?_, ?_⟩
  · intro hb r
    rw [List.append_assoc, bind_ok (fr1 (hne hb) (c2 ++ r))]
    exact fr2 hb r
  · intro hG p t hpt ht
    rcases List.append_eq_append_iff.mp hpt with ⟨u, hu1, hu2⟩ | ⟨u, hu1, hu2⟩
    · -- c1 ++ u = p, c2 = u ++ t
      subst hu1
      rw [bind_ok (fr1 (Or.inr hG) u)]
      exact sh2 hG u t hu2 ht
    · -- p ++ u = c1, t = u ++ c2
      by_cases hu : u = []
      · subst hu
        simp only [List.append_nil, List.nil_append] at hu1 hu2
        subst hu1
        subst hu2
        have := fr1 (Or.inr hG) []
        rw [List.append_nil] at this
        rw [bind_ok this]
        exact sh2 hG [] _ (by simp) ht
      · obtain ⟨mem3, b3, h3⟩ := sh1 hG p u hu1 hu
        exact ⟨mem3, b3, bind_ret h3⟩

theorem reads_of_noread {α : Type} {G : Prop} {m : M α} {mem : Mem} {b : List Byte}
    (h : ∀ a mem1 b1, m mem b = .ok a mem1 b1 → b1 = b ∧ ∀ r, m mem r = .ok a mem1 r) :
    Reads G m mem b := by
  intro a mem1 b1 hx
  obtain ⟨rfl, hr⟩ := h a mem1 b1 hx
  refine ⟨[], rfl, fun _ r => hr r, ?_⟩
  intro _ p t hpt ht
  rcases List.nil_eq_append_iff.mp hpt with ⟨_, rfl⟩
  exact absurd rfl ht

theorem reads_pure {α : Type} {G : Prop} {a : α} {mem : Mem} {b : List Byte} :
    Reads G (pure a) mem b :=
  reads_of_noread fun _ _ _ hx => by
    rw [pure_apply] at hx; cases hx; exact ⟨rfl, fun _ => rfl⟩

theorem reads_ret {α : Type} {G : Prop} {code : Int} {mem : Mem} {b : List Byte} :
    Reads G (ret code : M α) mem b := by
  intro a mem1 b1 hx
  cases hx

theorem reads_returnIf {G : Prop} {c : Prop} [Decidable c] {code : Int} {mem : Mem}
    {b : List Byte} : Reads G (returnIf c code) mem b :=
  reads_of_noread fun _ _ _ hx => by
    obtain ⟨hc, rfl, rfl⟩ := returnIf_ok_inv hx
    exact ⟨rfl, fun r => returnIf_neg code _ r hc⟩

theorem reads_getMem {G : Prop} {mem : Mem} {b : List Byte} : Reads G getMem mem b :=
  reads_of_noread fun _ _ _ hx => by
    cases hx; exact ⟨rfl, fun _ => rfl⟩

theorem reads_setMem {G : Prop} {f : Mem → Mem} {mem : Mem} {b : List Byte} :
    Reads G (setMem f) mem b :=
  reads_of_noread fun _ _ _ hx => by
    cases hx; exact ⟨rfl, fun _ => rfl⟩

theorem reads_setSv {G : Prop} {f : s6rc_service_t → s6rc_service_t} {mem : Mem}
    {b : List Byte} : Reads G (setSv f) mem b :=
  reads_setMem

theorem read_uint32_short (code : Int) (mem : Mem) (p t : List Byte) (b0 b1 b2 b3 : Byte)
    (h : [b0, b1, b2, b3] = p ++ t) (ht : t ≠ []) :
    read_uint32_or code mem p = .ret code mem [] := by
  have hl : p.length + t.length = 4 := by
    have := congrArg List.length h
    simp only [List.length_append, List.length_cons, List.length_nil] at this
    omega
  have ht' : 0 < t.length := List.length_pos.mpr ht
  unfold read_uint32_or s6rc_db_read_uint32
  match p, hl with
  | [], _ => rfl
  | [_], _ => rfl
  | [_, _], _ => rfl
  | [_, _, _], _ => rfl
  | _ :: _ :: _ :: _ :: _, hl => simp at hl; omega

theorem reads_read_uint32_or {G : Prop} {mem : Mem} {b : List Byte} :
    Reads G (read_uint32_or (-1)) mem b := by
  intro x mem1 b1 hx
  obtain ⟨b0, b1', b2, b3, rfl, rfl, rfl⟩ := read_uint32_or_ok_inv hx
  refine ⟨[b0, b1', b2, b3], rfl, fun _ r => rfl, ?_⟩
  intro _ p t hpt ht
  exact ⟨_, _, read_uint32_short (-1) mem1 p t b0 b1' b2 b3 hpt ht⟩

theorem reads_buffer_get_or {G : Prop} {len : Nat} {mem : Mem} {b : List Byte} :
    Reads G (buffer_get_or len (-1)) mem b := by
  intro x mem1 b1 hx
  obtain ⟨rfl, hl, rfl⟩ := buffer_get_or_ok_inv hx
  refine ⟨x, rfl, ?_, ?_⟩
  · intro _ r
    unfold S6rc.buffer_get_or
    rw [if_neg (by simp [hl])]
    simp [← hl]
  · intro _ p t hpt ht
    have ht' : 0 < t.length := List.length_pos.mpr ht
    have : p.length < len := by
      rw [← hl, hpt, List.length_append]; omega
    exact ⟨mem1, [], by unfold S6rc.buffer_get_or; rw [if_pos this]⟩

theorem int_of_uint_small (x : Nat) (h : x < 2 ^ 31) : int_of_uint x = (x : Int) := by
  unfold int_of_uint
  have e : x % 2 ^ 32 = x := Nat.mod_eq_of_lt (by omega)
  rw [e, if_pos h]

theorem read_string_ok_inv {len : Nat} {mem mem1 : Mem} {b b1 : List Byte} {r : Int}
    (h : s6rc_db_read_string len mem b = .ok r mem1 b1) :
    r = 1 ∧ b1 = b.drop len ∧
      mem1 = { mem with db := { mem.db with
        string := b.take len ++ mem.db.string.drop (b.take len).length } } := by
  unfold s6rc_db_read_string at h
  simp only at h
  split at h
  · cases h
  · cases h
    exact ⟨rfl, rfl, rfl⟩

theorem read_string_full (len : Nat) (mem : Mem) (c r : List Byte) (hc : c.length = len) :
    s6rc_db_read_string len mem (c ++ r) =
      .ok 1 { mem with db := { mem.db with string := c ++ mem.db.string.drop len } } r := by
  unfold s6rc_db_read_string
  have e1 : (c ++ r).take len = c := by rw [← hc]; simp
  have e2 : (c ++ r).drop len = r := by rw [← hc]; simp
  simp only [e1, e2, hc, lt_self_iff_false, if_false]

theorem read_string_short (len : Nat) (mem : Mem) (p : List Byte) (hp : p.length < len)
    (hl : len < 2 ^ 31) : ∃ mem2 b2, s6rc_db_read_string len mem p = .ret (-1) mem2 b2 := by
  have e : (p.take len).length = p.length := by rw [List.length_take]; omega
  have hlt : int_of_uint (p.take len).length < int_of_uint len := by
    rw [e, int_of_uint_small _ hl, int_of_uint_small _ (by omega)]
    exact_mod_cast hp
  unfold s6rc_db_read_string
  simp only
  rw [if_pos hlt]
  exact ⟨_, _, rfl⟩

theorem reads_read_string {G : Prop} {len : Nat} {mem : Mem} {b : List Byte}
    (hG : G → len < 2 ^ 31) : Reads G (s6rc_db_read_string len) mem b := by
  intro r mem1 b1 hx
  have hx' := hx
  obtain ⟨rfl, rfl, rfl⟩ := read_string_ok_inv hx
  refine ⟨b.take len, (List.take_append_drop len b).symm, ?_, ?_⟩
  · intro hb r
    have hlen : (b.take len).length = len := by
      rcases hb with hb | hb
      · rw [List.length_take]
        have : len < b.length := by
          by_contra hc
          exact hb (List.drop_eq_nil_of_le (by omega))
        omega
      · have hl := hG hb
        unfold s6rc_db_read_string at hx'
        simp only at hx'
        split at hx'
        · cases hx'
        · rename_i hnlt
          have h1 : (b.take len).length ≤ len := by rw [List.length_take]; omega
          rw [int_of_uint_small _ hl, int_of_uint_small _ (by omega)] at hnlt
          omega
    rw [read_string_full len mem _ r hlen, hlen]
  · intro hg p t hpt ht
    have hl := hG hg
    have ht' : 0 < t.length := List.length_pos.mpr ht
    have h1 : (b.take len).length ≤ len := by rw [List.length_take]; omega
    have hp : p.length < len := by
      have := congrArg List.length hpt
      rw [List.length_append] at this
      omega
    exact read_string_short len mem p hp hl

theorem reads_read_deps_loop {G : Prop} (max n d : Nat) (mem : Mem) (b : List Byte) :
    Reads G (s6rc_db_read_deps_loop max n d) mem b := by
  induction n generalizing d mem b with
  | zero => exact reads_pure
  | succ n ih =>
    unfold s6rc_db_read_deps_loop
    refine reads_bind reads_read_uint32_or fun _ _ _ _ => ?_
    refine reads_bind reads_returnIf fun _ _ _ _ => ?_
    refine reads_bind reads_setMem fun _ _ _ _ => ?_
    exact ih _ _ _

theorem reads_read_deps {G : Prop} (max n : Nat) (mem : Mem) (b : List Byte) :
    Reads G (s6rc_db_read_deps max n) mem b := by
  unfold s6rc_db_read_deps
  exact reads_bind (reads_read_deps_loop _ _ _ _ _) fun _ _ _ _ => reads_pure

theorem reads_read_services_argv {G : Prop} (i : Nat) (mem : Mem) (b : List Byte) :
    Reads G (s6rc_db_read_services_argv i) mem b := by
  unfold s6rc_db_read_services_argv
  refine reads_bind reads_read_uint32_or fun _ _ _ _ => ?_
  refine reads_bind reads_getMem fun _ _ _ _ => ?_
  refine reads_bind reads_returnIf fun _ _ _ _ => ?_
  refine reads_bind reads_read_uint32_or fun _ _ _ _ => ?_
  refine reads_bind reads_returnIf fun _ _ _ _ => ?_
  refine reads_bind reads_setMem fun _ _ _ _ => ?_
  refine reads_bind reads_returnIf fun _ _ _ _ => ?_
  refine reads_bind reads_setSv fun _ _ _ _ => ?_
  refine reads_bind reads_setMem fun _ _ _ _ => ?_
  refine reads_bind reads_getMem fun _ _ _ _ => ?_
  refine reads_bind reads_setMem fun _ _ _ _ => ?_
  refine reads_bind reads_returnIf fun _ _ _ _ => ?_
  exact reads_setMem

theorem reads_read_services_payload {G : Prop} (type : Byte) (mem : Mem) (b : List Byte) :
    Reads G (s6rc_db_read_services_payload type) mem b := by
  unfold s6rc_db_read_services_payload
  split
  · refine reads_bind reads_setSv fun _ _ _ _ => ?_
    refine reads_bind reads_read_uint32_or fun _ _ _ _ => ?_
    refine reads_bind reads_setSv fun _ _ _ _ => ?_
    refine reads_bind reads_getMem fun _ _ _ _ => ?_
    exact reads_returnIf
  · refine reads_bind reads_setSv fun _ _ _ _ => ?_
    refine reads_bind (reads_read_services_argv _ _ _) fun _ _ _ _ => ?_
    exact reads_read_services_argv _ _ _

theorem reads_read_services_record {G : Prop} (mem : Mem) (b : List Byte) :
    Reads G s6rc_db_read_services_record mem b := by
  unfold s6rc_db_read_services_record
  refine reads_bind reads_read_uint32_or fun _ _ _ _ => ?_
  refine reads_bind reads_setSv fun _ _ _ _ => ?_
  refine reads_bind reads_getMem fun _ _ _ _ => ?_
  refine reads_bind reads_returnIf fun _ _ _ _ => ?_
  refine reads_bind reads_returnIf fun _ _ _ _ => ?_
  refine reads_bind reads_read_uint32_or fun _ _ _ _ => ?_
  refine reads_bind reads_setSv fun _ _ _ _ => ?_
  refine reads_bind reads_read_uint32_or fun _ _ _ _ => ?_
  refine reads_bind reads_setSv fun _ _ _ _ => ?_
  refine reads_bind reads_read_uint32_or fun _ _ _ _ => ?_
  refine reads_bind reads_setSv fun _ _ _ _ => ?_
  refine reads_bind reads_read_uint32_or fun _ _ _ _ => ?_
  refine reads_bind reads_setSv fun _ _ _ _ => ?_
  refine reads_bind reads_read_uint32_or fun _ _ _ _ => ?_
  refine reads_bind reads_setSv fun _ _ _ _ => ?_
  refine reads_bind reads_read_uint32_or fun _ _ _ _ => ?_
  refine reads_bind reads_setSv fun _ _ _ _ => ?_
  refine reads_bind reads_returnIf fun _ _ _ _ => ?_
  refine reads_bind reads_read_uint32_or fun _ _ _ _ => ?_
  refine reads_bind reads_setSv fun _ _ _ _ => ?_
  refine reads_bind reads_returnIf fun _ _ _ _ => ?_
  refine reads_bind reads_buffer_get_or fun _ _ _ _ => ?_
  exact reads_read_services_payload _ _ _

theorem reads_read_services_marker {G : Prop} (mem : Mem) (b : List Byte) :
    Reads G s6rc_db_read_services_marker mem b := by
  unfold s6rc_db_read_services_marker
  refine reads_bind reads_buffer_get_or fun _ _ _ _ => ?_
  refine reads_bind reads_returnIf fun _ _ _ _ => ?_
  exact reads_setMem

theorem reads_read_services_loop {G : Prop} (n : Nat) (mem : Mem) (b : List Byte) :
    Reads G (s6rc_db_read_services_loop n) mem b := by
  induction n generalizing mem b with
  | zero => exact reads_pure
  | succ n ih =>
    unfold s6rc_db_read_services_loop
    refine reads_bind (reads_read_services_record _ _) fun _ _ _ _ => ?_
    refine reads_bind (reads_read_services_marker _ _) fun _ _ _ _ => ?_
    exact ih _ _

theorem reads_read_services_init {G : Prop} (mem : Mem) (b : List Byte) :
    Reads G s6rc_db_read_services_init mem b := by
  unfold s6rc_db_read_services_init
  refine reads_bind reads_getMem fun _ _ _ _ => ?_
  refine reads_bind reads_setMem fun _ _ _ _ => ?_
  exact reads_pure

theorem reads_read_services {G : Prop} (mem : Mem) (b : List Byte) :
    Reads G s6rc_db_read_services mem b := by
  unfold s6rc_db_read_services
  refine reads_bind (reads_read_services_init _ _) fun _ _ _ _ => ?_
  refine reads_bind (reads_read_services_loop _ _ _) fun _ _ _ _ => ?_
  refine reads_bind reads_getMem fun _ _ _ _ => ?_
  refine reads_bind reads_returnIf fun _ _ _ _ => ?_
  exact reads_pure

theorem getMem_ok_inv {mem mem1 : Mem} {b b1 : List Byte} {x : Mem}
    (h : getMem mem b = .ok x mem1 b1) : x = mem ∧ mem1 = mem ∧ b1 = b := by
  cases h
  exact ⟨rfl, rfl, rfl⟩

theorem reads_read_buffer (bs be : List Byte) (mem : Mem) (b : List Byte) :
    Reads (mem.db.stringlen < 2 ^ 31) (s6rc_db_read_buffer bs be) mem b := by
  unfold s6rc_db_read_buffer
  refine reads_bind reads_buffer_get_or fun _ _ _ h1 => ?_
  obtain ⟨_, _, rfl⟩ := buffer_get_or_ok_inv h1
  refine reads_bind reads_returnIf fun _ _ _ h2 => ?_
  obtain ⟨_, rfl, _⟩ := returnIf_ok_inv h2
  refine reads_bind reads_getMem fun _ _ _ h3 => ?_
  obtain ⟨rfl, rfl, _⟩ := getMem_ok_inv h3
  refine reads_bind (reads_read_string fun h => h) fun _ _ _ _ => ?_
  refine reads_bind reads_returnIf fun _ _ _ _ => ?_
  refine reads_bind (reads_read_deps _ _ _ _) fun _ _ _ _ => ?_
  refine reads_bind reads_returnIf fun _ _ _ _ => ?_
  refine reads_bind (reads_read_services _ _) fun _ _ _ _ => ?_
  refine reads_bind reads_returnIf fun _ _ _ _ => ?_
  refine reads_bind reads_buffer_get_or fun _ _ _ _ => ?_
  refine reads_bind reads_returnIf fun _ _ _ _ => ?_
  exact reads_pure

/-! ## The single-string and the packed-strings checks (C5, C6) -/

/-- C5: `s6rc_db_check_valid_string (pool, stringlen, pos)` is true exactly when
`pos < stringlen` and some index `i` with `pos ≤ i < stringlen` holds a NUL byte; an offset
at a NUL in the last pool position is accepted, and an offset with no NUL before the pool
boundary is rejected. -/
theorem C5_check_valid_string (string : List Byte) (stringlen pos : Nat) :
    (s6rc_db_check_valid_string string stringlen pos = true ↔
      pos < stringlen ∧ ∃ i, pos ≤ i ∧ i < stringlen ∧ string[i]? = some 0) ∧
    (0 < stringlen → string[stringlen - 1]? = some 0 →
      s6rc_db_check_valid_string string stringlen (stringlen - 1) = true) ∧
    ((∀ i, pos ≤ i → i < stringlen → string[i]? ≠ some 0) →
      s6rc_db_check_valid_string string stringlen pos = false) := by
  refine ⟨check_valid_string_iff string stringlen pos, ?_, ?_⟩
  · intro h0 hlast
    rw [check_valid_string_iff]
    exact ⟨by omega, stringlen - 1, le_refl _, by omega, hlast⟩
  · intro hno
    cases hv : s6rc_db_check_valid_string string stringlen pos with
    | false => rfl
    | true =>
      obtain ⟨_, i, h1, h2, h3⟩ := (check_valid_string_iff string stringlen pos).mp hv
      exact absurd h3 (hno i h1 h2)

/-- An instance of C5 on the pool `"a\0bc\0"`: offset 4, the NUL in the last position, is
accepted; offset 2 is accepted; with the boundary drawn before the last NUL, offset 2 is
rejected. -/
theorem C5_check_valid_string_witness :
    s6rc_db_check_valid_string [97, 0, 98, 99, 0] 5 4 = true ∧
      s6rc_db_check_valid_string [97, 0, 98, 99, 0] 5 2 = true ∧
      s6rc_db_check_valid_string [97, 0, 98, 99, 0] 4 2 = false :=
  ⟨(C5_check_valid_string [97, 0, 98, 99, 0] 5 4).2.1 (by decide) (by decide),
    by decide,
    (C5_check_valid_string [97, 0, 98, 99, 0] 4 2).2.2 (by decide)⟩

theorem packedChain_iff_packedStrings (string : List Byte) (stringlen pos n : Nat)
    (h : 0 < n ∨ pos ≤ stringlen) :
    PackedChain string stringlen pos n ↔ PackedStrings string stringlen pos n := by
  constructor
  · rintro ⟨p, hp0, hpn, hp⟩
    refine ⟨p, hp0, fun k hk => ⟨(hp k hk).1, ?_, (hp k hk).2⟩⟩
    have mono : ∀ j, j ≤ n → k + 1 ≤ j → p (k + 1) ≤ p j := by
      intro j
      induction j with
      | zero => intro _ h0; omega
      | succ j ih =>
        intro hj hkj
        by_cases e : k + 1 = j + 1
        · rw [e]
        · have := ih (by omega) (by omega)
          have := (hp j (by omega)).1
          omega
    exact le_trans (mono n (le_refl _) (by omega)) hpn
  · rintro ⟨p, hp0, hp⟩
    refine ⟨p, hp0, ?_, fun k hk => ⟨(hp k hk).1, (hp k hk).2.2⟩⟩
    cases n with
    | zero =>
      rcases h with h | h
      · omega
      · rw [hp0]; exact h
    | succ n => exact (hp n (by omega)).2.1

theorem check_valid_strings_first_failure (string : List Byte) (stringlen : Nat) (k : Nat) :
    ∀ (pos n : Nat) (p : Nat → Nat), k < n → p 0 = pos →
      (∀ j, j < k → p j < p (j + 1) ∧ p (j + 1) ≤ stringlen ∧
        FirstNulAt string (p j) (p (j + 1) - 1)) →
      s6rc_db_check_valid_string string stringlen (p k) = false →
      s6rc_db_check_valid_strings string stringlen pos n = false := by
  induction k with
  | zero =>
    intro pos n p hk hp0 _ hfail
    obtain ⟨n, rfl⟩ : ∃ n', n = n' + 1 := ⟨n - 1, by omega⟩
    rw [hp0] at hfail
    simp [s6rc_db_check_valid_strings, hfail]
  | succ k ih =>
    intro pos n p hk hp0 hsteps hfail
    obtain ⟨n, rfl⟩ : ∃ n', n = n' + 1 := ⟨n - 1, by omega⟩
    obtain ⟨h1, h2, h3⟩ := hsteps 0 (by omega)
    rw [hp0] at h1 h3
    simp only [Nat.zero_add] at h1 h2 h3
    have hv : s6rc_db_check_valid_string string stringlen pos = true := by
      rw [check_valid_string_iff]
      exact ⟨by omega, p 1 - 1, h3.1, by omega, h3.2.1⟩
    have e := firstNulAt_unique string pos _ _ (str_len_of_valid string stringlen pos hv).2 h3
    simp only [s6rc_db_check_valid_strings, hv, Bool.not_true, Bool.false_eq_true, if_false]
    apply ih _ n (fun j => p (j + 1)) (by omega)
    · simp only [Nat.zero_add]; omega
    · intro j hj
      exact hsteps (j + 1) (by omega)
    · exact hfail

/-- C6, the claim as stated fails: for `n = 0` and `pos = 5` beyond a pool of length `0` the
source returns true, while no chain `p 0 = 5 ≤ 0` exists. -/
theorem C6_counterexample :
    ¬ (s6rc_db_check_valid_strings [] 0 5 0 = true ↔ PackedChain [] 0 5 0) := by
  intro h
  obtain ⟨p, hp0, hpn, _⟩ := h.mp rfl
  omega

/-- C6, amended: `s6rc_db_check_valid_strings (pool, stringlen, pos, n)` is true exactly when
there are positions `p 0 = pos < p 1 < ... < p n` such that for each `k < n` the first NUL at
or after `p k` is at index `p (k + 1) - 1` and `p (k + 1) ≤ stringlen`; this is the chain of the
claim whenever `0 < n` or `pos ≤ stringlen`, and for `n = 0` the result is true whatever `pos`
is. It is false as soon as the single-string check fails at some `p k`, `k < n`, reached
through `k` good strings. -/
theorem C6_check_valid_strings (string : List Byte) (stringlen pos n : Nat) :
    (s6rc_db_check_valid_strings string stringlen pos n = true ↔
      PackedStrings string stringlen pos n) ∧
    ((0 < n ∨ pos ≤ stringlen) →
      (s6rc_db_check_valid_strings string stringlen pos n = true ↔
        PackedChain string stringlen pos n)) ∧
    s6rc_db_check_valid_strings string stringlen pos 0 = true ∧
    (∀ (k : Nat) (p : Nat → Nat), k < n → p 0 = pos →
      (∀ j, j < k → p j < p (j + 1) ∧ p (j + 1) ≤ stringlen ∧
        FirstNulAt string (p j) (p (j + 1) - 1)) →
      s6rc_db_check_valid_string string stringlen (p k) = false →
      s6rc_db_check_valid_strings string stringlen pos n = false) := by
  refine ⟨check_valid_strings_iff string stringlen pos n, ?_, rfl, ?_⟩
  · intro h
    rw [packedChain_iff_packedStrings string stringlen pos n h]
    exact check_valid_strings_iff string stringlen pos n
  · intro k p hk hp0 hsteps hfail
    exact check_valid_strings_first_failure string stringlen k pos n p hk hp0 hsteps hfail

/-- An instance of C6 on the pool `"a\0bc\0"`: two strings packed from offset 0 are accepted
and the chain of the claim exists; three are not. -/
theorem C6_check_valid_strings_witness :
    (s6rc_db_check_valid_strings [97, 0, 98, 99, 0] 5 0 2 = true ↔
      PackedChain [97, 0, 98, 99, 0] 5 0 2) ∧
    PackedChain [97, 0, 98, 99, 0] 5 0 2 ∧
    s6rc_db_check_valid_strings [97, 0, 98, 99, 0] 5 0 3 = false :=
  ⟨(C6_check_valid_strings [97, 0, 98, 99, 0] 5 0 2).2.1 (Or.inl (by decide)),
    ((C6_check_valid_strings [97, 0, 98, 99, 0] 5 0 2).2.1 (Or.inl (by decide))).mp (by decide),
    by decide⟩

/-! ## The codes of the early returns -/

theorem rets_bind {α β : Type} {m : M α} {f : α → M β} (hm : Rets m) (hf : ∀ a, Rets (f a)) :
    Rets (m >>= f) := by
  intro mem b c mem2 b2 h
  rw [bind_apply] at h
  cases hx : m mem b with
  | ok a mem1 b1 => rw [hx] at h; exact hf a mem1 b1 c mem2 b2 h
  | ret c' mem1 b1 =>
    rw [hx] at h
    cases h
    exact hm mem b c mem2 b2 hx

theorem rets_pure {α : Type} {a : α} : Rets (pure a : M α) := by
  intro mem b c mem1 b1 h
  cases h

theorem rets_ret {α : Type} {code : Int} (h : code < 1) : Rets (ret code : M α) := by
  intro mem b c mem1 b1 hx
  cases hx
  exact h

theorem rets_returnIf {c : Prop} [Decidable c] {code : Int} (h : c → code < 1) :
    Rets (returnIf c code) := by
  intro mem b c' mem1 b1 hx
  by_cases hc : c
  · rw [returnIf_pos code mem b hc] at hx
    cases hx
    exact h hc
  · rw [returnIf_neg code mem b hc] at hx
    cases hx

theorem rets_getMem : Rets getMem := by
  intro mem b c mem1 b1 h
  cases h

theorem rets_setMem {f : Mem → Mem} : Rets (setMem f) := by
  intro mem b c mem1 b1 h
  cases h

theorem rets_setSv {f : s6rc_service_t → s6rc_service_t} : Rets (setSv f) :=
  rets_setMem

theorem rets_read_uint32_or : Rets (read_uint32_or (-1)) := by
  intro mem b c mem1 b1 h
  unfold S6rc.read_uint32_or at h
  split at h
  · cases h
  · cases h
    decide

theorem rets_buffer_get_or {len : Nat} : Rets (buffer_get_or len (-1)) := by
  intro mem b c mem1 b1 h
  unfold S6rc.buffer_get_or at h
  split at h
  · cases h
    decide
  · cases h

theorem rets_read_string {len : Nat} : Rets (s6rc_db_read_string len) := by
  intro mem b c mem1 b1 h
  unfold s6rc_db_read_string at h
  simp only at h
  split at h
  · cases h
    decide
  · cases h

theorem rets_read_deps_loop (max n d : Nat) : Rets (s6rc_db_read_deps_loop max n d) := by
  induction n generalizing d with
  | zero => exact rets_pure
  | succ n ih =>
    unfold s6rc_db_read_deps_loop
    refine rets_bind rets_read_uint32_or fun _ => ?_
    refine rets_bind (rets_returnIf fun _ => by decide) fun _ => ?_
    refine rets_bind rets_setMem fun _ => ?_
    exact ih _

theorem rets_read_deps (max n : Nat) : Rets (s6rc_db_read_deps max n) := by
  unfold s6rc_db_read_deps
  exact rets_bind (rets_read_deps_loop _ _ _) fun _ => rets_pure

theorem rets_read_services_argv (i : Nat) : Rets (s6rc_db_read_services_argv i) := by
  unfold s6rc_db_read_services_argv
  refine rets_bind rets_read_uint32_or fun _ => ?_
  refine rets_bind rets_getMem fun _ => ?_
  refine rets_bind (rets_returnIf fun _ => by decide) fun _ => ?_
  refine rets_bind rets_read_uint32_or fun _ => ?_
  refine rets_bind (rets_returnIf fun _ => by decide) fun _ => ?_
  refine rets_bind rets_setMem fun _ => ?_
  refine rets_bind (rets_returnIf fun _ => by decide) fun _ => ?_
  refine rets_bind rets_setSv fun _ => ?_
  refine rets_bind rets_setMem fun _ => ?_
  refine rets_bind rets_getMem fun _ => ?_
  refine rets_bind rets_setMem fun _ => ?_
  refine rets_bind (rets_returnIf fun _ => by decide) fun _ => ?_
  exact rets_setMem

theorem rets_read_services_payload (type : Byte) : Rets (s6rc_db_read_services_payload type) := by
  unfold s6rc_db_read_services_payload
  split
  · refine rets_bind rets_setSv fun _ => ?_
    refine rets_bind rets_read_uint32_or fun _ => ?_
    refine rets_bind rets_setSv fun _ => ?_
    refine rets_bind rets_getMem fun _ => ?_
    exact rets_returnIf fun _ => by decide
  · refine rets_bind rets_setSv fun _ => ?_
    refine rets_bind (rets_read_services_argv _) fun _ => ?_
    exact rets_read_services_argv _

theorem rets_read_services_record : Rets s6rc_db_read_services_record := by
  unfold s6rc_db_read_services_record
  refine rets_bind rets_read_uint32_or fun _ => ?_
  refine rets_bind rets_setSv fun _ => ?_
  refine rets_bind rets_getMem fun _ => ?_
  refine rets_bind (rets_returnIf fun _ => by decide) fun _ => ?_
  refine rets_bind (rets_returnIf fun _ => by decide) fun _ => ?_
  refine rets_bind rets_read_uint32_or fun _ => ?_
  refine rets_bind rets_setSv fun _ => ?_
  refine rets_bind rets_read_uint32_or fun _ => ?_
  refine rets_bind rets_setSv fun _ => ?_
  refine rets_bind rets_read_uint32_or fun _ => ?_
  refine rets_bind rets_setSv fun _ => ?_
  refine rets_bind rets_read_uint32_or fun _ => ?_
  refine rets_bind rets_setSv fun _ => ?_
  refine rets_bind rets_read_uint32_or fun _ => ?_
  refine rets_bind rets_setSv fun _ => ?_
  refine rets_bind rets_read_uint32_or fun _ => ?_
  refine rets_bind rets_setSv fun _ => ?_
  refine rets_bind (rets_returnIf fun _ => by decide) fun _ => ?_
  refine rets_bind rets_read_uint32_or fun _ => ?_
  refine rets_bind rets_setSv fun _ => ?_
  refine rets_bind (rets_returnIf fun _ => by decide) fun _ => ?_
  refine rets_bind rets_buffer_get_or fun _ => ?_
  exact rets_read_services_payload _

theorem rets_read_services_marker : Rets s6rc_db_read_services_marker := by
  unfold s6rc_db_read_services_marker
  refine rets_bind rets_buffer_get_or fun _ => ?_
  refine rets_bind (rets_returnIf fun _ => by decide) fun _ => ?_
  exact rets_setMem

theorem rets_read_services_loop (n : Nat) : Rets (s6rc_db_read_services_loop n) := by
  induction n with
  | zero => exact rets_pure
  | succ n ih =>
    unfold s6rc_db_read_services_loop
    refine rets_bind rets_read_services_record fun _ => ?_
    refine rets_bind rets_read_services_marker fun _ => ?_
    exact ih

theorem rets_read_services_init : Rets s6rc_db_read_services_init := by
  unfold s6rc_db_read_services_init
  refine rets_bind rets_getMem fun _ => ?_
  refine rets_bind rets_setMem fun _ => ?_
  exact rets_pure

theorem rets_read_services : Rets s6rc_db_read_services := by
  unfold s6rc_db_read_services
  refine rets_bind rets_read_services_init fun _ => ?_
  refine rets_bind (rets_read_services_loop _) fun _ => ?_
  refine rets_bind rets_getMem fun _ => ?_
  refine rets_bind (rets_returnIf fun _ => by decide) fun _ => ?_
  exact rets_pure

theorem rets_read_buffer (bs be : List Byte) : Rets (s6rc_db_read_buffer bs be) := by
  unfold s6rc_db_read_buffer
  refine rets_bind rets_buffer_get_or fun _ => ?_
  refine rets_bind (rets_returnIf fun _ => by decide) fun _ => ?_
  refine rets_bind rets_getMem fun _ => ?_
  refine rets_bind rets_read_string fun _ => ?_
  refine rets_bind (rets_returnIf fun h => h) fun _ => ?_
  refine rets_bind (rets_read_deps _ _) fun _ => ?_
  refine rets_bind (rets_returnIf fun h => h) fun _ => ?_
  refine rets_bind rets_read_services fun _ => ?_
  refine rets_bind (rets_returnIf fun h => h) fun _ => ?_
  refine rets_bind rets_buffer_get_or fun _ => ?_
  refine rets_bind (rets_returnIf fun _ => by decide) fun _ => ?_
  exact rets_pure

/-- A result code `1` is a run that fell through to the final `return 1`. -/
theorem ok_of_code_one {m : M Int} (hm : Rets m) {mem : Mem} {b : List Byte}
    (h : (m mem b).code = 1) : ∃ mem1 b1, m mem b = .ok 1 mem1 b1 := by
  cases hx : m mem b with
  | ok r mem1 b1 =>
    rw [hx] at h
    simp only [Res.code] at h
    subst h
    exact ⟨mem1, b1, rfl⟩
  | ret c mem1 b1 =>
    rw [hx] at h
    simp only [Res.code] at h
    have := hm mem b c mem1 b1 hx
    omega

/-! ## The banners (C10) -/

theorem reads_consumes {α : Type} {G : Prop} {m : M α} {mem mem1 : Mem} {b b1 : List Byte}
    {a : α} (h : Reads G m mem b) (hx : m mem b = .ok a mem1 b1) : ∃ c, b = c ++ b1 := by
  obtain ⟨c, e, _⟩ := h a mem1 b1 hx
  exact ⟨c, e⟩

/-- The shape of an accepted input: the start banner, a middle part, the end banner, and the
input left unread. -/
theorem read_buffer_shape (bs be : List Byte) (mem memF : Mem) (b bF : List Byte) (r : Int)
    (hx : s6rc_db_read_buffer bs be mem b = .ok r memF bF) :
    ∃ mid, b = bs ++ (mid ++ (be ++ bF)) := by
  unfold s6rc_db_read_buffer at hx
  obtain ⟨x, m1, b1, h1, hx1⟩ := bind_ok_inv hx
  clear hx
  obtain ⟨rfl, _, rfl⟩ := buffer_get_or_ok_inv h1
  obtain ⟨_, m2, b2, h2, hx2⟩ := bind_ok_inv hx1
  clear hx1
  obtain ⟨hbs, rfl, rfl⟩ := returnIf_ok_inv h2
  obtain ⟨_, m3, b3, h3, hx3⟩ := bind_ok_inv hx2
  clear hx2
  obtain ⟨rfl, rfl, rfl⟩ := getMem_ok_inv h3
  obtain ⟨_, m4, b4, h4, hx4⟩ := bind_ok_inv hx3
  clear hx3
  obtain ⟨c4, rfl⟩ := reads_consumes (reads_read_string (G := False) (fun h => h.elim)) h4
  obtain ⟨_, m5, b5, h5, hx5⟩ := bind_ok_inv hx4
  clear hx4
  obtain ⟨_, rfl, rfl⟩ := returnIf_ok_inv h5
  obtain ⟨_, m6, b6, h6, hx6⟩ := bind_ok_inv hx5
  clear hx5
  obtain ⟨c6, rfl⟩ := reads_consumes (reads_read_deps (G := False) _ _ _ _) h6
  obtain ⟨_, m7, b7, h7, hx7⟩ := bind_ok_inv hx6
  clear hx6
  obtain ⟨_, rfl, rfl⟩ := returnIf_ok_inv h7
  obtain ⟨_, m8, b8, h8, hx8⟩ := bind_ok_inv hx7
  clear hx7
  obtain ⟨c8, rfl⟩ := reads_consumes (reads_read_services (G := False) _ _) h8
  obtain ⟨_, m9, b9, h9, hx9⟩ := bind_ok_inv hx8
  clear hx8
  obtain ⟨_, rfl, rfl⟩ := returnIf_ok_inv h9
  obtain ⟨y, m10, b10, h10, hx10⟩ := bind_ok_inv hx9
  clear hx9
  obtain ⟨rfl, _, rfl⟩ := buffer_get_or_ok_inv h10
  obtain ⟨_, m11, b11, h11, hx11⟩ := bind_ok_inv hx10
  clear hx10
  obtain ⟨hbe, rfl, rfl⟩ := returnIf_ok_inv h11
  rw [pure_apply] at hx11
  cases hx11
  have e1 : x = bs := not_not.mp hbs
  have e2 : y = be := not_not.mp hbe
  subst e1 e2
  exact ⟨c4 ++ (c6 ++ c8), by simp [List.append_assoc]⟩

/-- C10, the claim as stated fails: with the banners `[1]` and `[2]` and an empty database the
input `[1, 2, 9]` is accepted, and its last byte is not the end banner. -/
theorem C10_counterexample :
    (readBuffer [1] [2]
        { services := [], nshort := 0, nlong := 0, stringlen := 0, nargvs := 0, ndeps := 0,
          string := [], argvs := [], deps := [] } [1, 2, 9]).code = 1 ∧
      ([1, 2, 9] : List Byte).drop (([1, 2, 9] : List Byte).length - ([2] : List Byte).length)
        ≠ [2] := by
  constructor
  · rfl
  · decide

/-- C10, amended: on every input that `s6rc_db_read_buffer` accepts, the first
`S6RC_DB_BANNER_START_LEN` bytes are the start banner and the bytes the reader has read end
with the end banner: the input is the start banner, a middle part, the end banner, and the
input left unread, which the reader does not look at; when nothing is left unread the last
`S6RC_DB_BANNER_END_LEN` bytes of the input are the end banner. -/
theorem C10_banners (bs be : List Byte) (db : s6rc_db_t) (b : List Byte)
    (h : (readBuffer bs be db b).code = 1) :
    b.take bs.length = bs ∧
      (∃ mid, b = bs ++ (mid ++ (be ++ (readBuffer bs be db b).rest))) ∧
      ((readBuffer bs be db b).rest = [] → b.drop (b.length - be.length) = be) := by
  obtain ⟨memF, bF, hx⟩ := ok_of_code_one (rets_read_buffer bs be) h
  have hx' : readBuffer bs be db b = .ok 1 memF bF := hx
  obtain ⟨mid, e⟩ := read_buffer_shape bs be _ memF b bF 1 hx
  rw [hx']
  simp only [Res.rest]
  refine ⟨by rw [e]; simp, ⟨mid, e⟩, ?_⟩
  intro hnil
  subst hnil
  rw [e]
  simp only [List.append_nil, List.length_append]
  rw [← List.append_assoc]
  have : bs.length + (mid.length + be.length) - be.length = (bs ++ mid).length := by
    rw [List.length_append]; omega
  rw [this, List.drop_left]

/-- An instance of C10: the input `[1, 2]` for the banners `[1]`, `[2]` and an empty
database. -/
theorem C10_banners_witness :
    ([1, 2] : List Byte).take ([1] : List Byte).length = [1] ∧
      ([1, 2] : List Byte).drop (([1, 2] : List Byte).length - ([2] : List Byte).length) = [2] :=
  have h := C10_banners [1] [2]
    { services := [], nshort := 0, nlong := 0, stringlen := 0, nargvs := 0, ndeps := 0,
      string := [], argvs := [], deps := [] } [1, 2] rfl
  ⟨h.1, h.2.2 rfl⟩

/-! ## Short reads (C8) -/

theorem reads_read_buffer_rest {G : Prop} (be : List Byte) (mem0 mem : Mem) (b : List Byte) :
    Reads G (s6rc_db_read_buffer_rest be mem0) mem b := by
  unfold s6rc_db_read_buffer_rest
  refine reads_bind reads_returnIf fun _ _ _ _ => ?_
  refine reads_bind (reads_read_deps _ _ _ _) fun _ _ _ _ => ?_
  refine reads_bind reads_returnIf fun _ _ _ _ => ?_
  refine reads_bind (reads_read_services _ _) fun _ _ _ _ => ?_
  refine reads_bind reads_returnIf fun _ _ _ _ => ?_
  refine reads_bind reads_buffer_get_or fun _ _ _ _ => ?_
  refine reads_bind reads_returnIf fun _ _ _ _ => ?_
  exact reads_pure

/-- The run of `s6rc_db_read_buffer` up to the return of `s6rc_db_read_string`. -/
theorem read_buffer_split (bs be : List Byte) (mem memF : Mem) (b bF : List Byte) (r : Int)
    (hx : s6rc_db_read_buffer bs be mem b = .ok r memF bF) :
    ∃ b1 mem4, b = bs ++ b1 ∧
      s6rc_db_read_string mem.db.stringlen mem b1 = .ok 1 mem4 (b1.drop mem.db.stringlen) ∧
      s6rc_db_read_buffer_rest be mem mem4 (b1.drop mem.db.stringlen) = .ok r memF bF := by
  unfold s6rc_db_read_buffer at hx
  obtain ⟨x, m1, b1, h1, hx1⟩ := bind_ok_inv hx
  clear hx
  obtain ⟨rfl, _, rfl⟩ := buffer_get_or_ok_inv h1
  obtain ⟨_, m2, b2, h2, hx2⟩ := bind_ok_inv hx1
  clear hx1
  obtain ⟨hbs, rfl, rfl⟩ := returnIf_ok_inv h2
  obtain ⟨_, m3, b3, h3, hx3⟩ := bind_ok_inv hx2
  clear hx2
  obtain ⟨rfl, rfl, rfl⟩ := getMem_ok_inv h3
  obtain ⟨r4, m4, b4, h4, hx4⟩ := bind_ok_inv hx3
  clear hx3
  have h4' := h4
  obtain ⟨rfl, rfl, rfl⟩ := read_string_ok_inv h4'
  have e1 : x = bs := not_not.mp hbs
  subst e1
  exact ⟨_, _, rfl, h4, hx4⟩

/-- The run of `s6rc_db_read_buffer` on an input that holds the start banner. -/
theorem read_buffer_after_banner (bs be : List Byte) (mem : Mem) (b1 : List Byte) :
    s6rc_db_read_buffer bs be mem (bs ++ b1) =
      (s6rc_db_read_string mem.db.stringlen >>= fun r =>
        returnIf (r < 1) r >>= fun _ =>
          s6rc_db_read_deps (wrap32 (mem.db.nshort + mem.db.nlong)) mem.db.ndeps >>= fun r =>
            returnIf (r < 1) r >>= fun _ =>
              s6rc_db_read_services >>= fun r =>
                returnIf (r < 1) r >>= fun _ =>
                  buffer_get_or be.length (-1) >>= fun banner =>
                    returnIf (banner ≠ be) 0 >>= fun _ => pure 1) mem b1 := by
  have h1 : buffer_get_or bs.length (-1) mem (bs ++ b1) = .ok bs mem b1 := by
    unfold buffer_get_or
    rw [if_neg (by simp)]
    simp
  unfold s6rc_db_read_buffer
  rw [bind_ok h1, bind_ok (returnIf_neg 0 mem b1 (not_not.mpr rfl))]
  rfl

theorem read_buffer_after_string (bs be : List Byte) (mem mem4 : Mem) (b1 b4 : List Byte)
    (h : s6rc_db_read_string mem.db.stringlen mem b1 = .ok 1 mem4 b4) :
    s6rc_db_read_buffer bs be mem (bs ++ b1) = s6rc_db_read_buffer_rest be mem mem4 b4 := by
  rw [read_buffer_after_banner, bind_ok h]
  rfl

theorem read_deps_loop_nil (max k d : Nat) (mem : Mem) :
    s6rc_db_read_deps_loop max (k + 1) d mem [] = .ret (-1) mem [] := by
  unfold s6rc_db_read_deps_loop
  exact bind_ret rfl

theorem read_services_loop_nil (n : Nat) (mem : Mem) :
    s6rc_db_read_services_loop (n + 1) mem [] = .ret (-1) mem [] := by
  unfold s6rc_db_read_services_loop s6rc_db_read_services_record
  exact bind_ret (bind_ret rfl)

/-- At the end of the input the rest of `s6rc_db_read_buffer` returns `-1` whenever the end
banner is not empty and the same rest has accepted some input under the same counts. -/
theorem read_buffer_rest_nil (be : List Byte) (mem0 mem4 mem4' memF : Mem) (b4 bF : List Byte)
    (r : Int) (hbe : be ≠ [])
    (hacc : s6rc_db_read_buffer_rest be mem0 mem4 b4 = .ok r memF bF)
    (hn : mem4'.db.nargvs = mem4.db.nargvs)
    (hs : mem4'.db.nshort = mem4.db.nshort) (hl : mem4'.db.nlong = mem4.db.nlong) :
    ∃ mem2 b2, s6rc_db_read_buffer_rest be mem0 mem4' [] = .ret (-1) mem2 b2 := by
  unfold s6rc_db_read_buffer_rest at hacc ⊢
  rw [bind_ok (returnIf_neg 1 _ _ (by decide))] at hacc ⊢
  unfold s6rc_db_read_deps at hacc ⊢
  cases hk : wrap32 (mem0.db.ndeps <<< 1) with
  | succ k =>
    exact ⟨_, _, bind_ret (bind_ret (read_deps_loop_nil _ _ _ _))⟩
  | zero =>
    rw [hk] at hacc
    have e0 : ∀ (m : Mem) (bb : List Byte),
        (s6rc_db_read_deps_loop (wrap32 (mem0.db.nshort + mem0.db.nlong)) 0 0 >>= fun _ =>
          (pure 1 : M Int)) m bb = .ok 1 m bb := fun _ _ => rfl
    rw [bind_ok (e0 _ _), bind_ok (returnIf_neg 1 _ _ (by decide))] at hacc ⊢
    unfold s6rc_db_read_services at hacc ⊢
    have einit : ∀ (m : Mem) (bb : List Byte), s6rc_db_read_services_init m bb =
        .ok (wrap32 (m.db.nshort + m.db.nlong))
          { m with sv := 0, nargvs := m.db.nargvs, argvs := 0 } bb := fun _ _ => rfl
    rw [bind_assoc_M, bind_ok (einit _ _)] at hacc ⊢
    rw [hs, hl]
    cases hcount : wrap32 (mem4.db.nshort + mem4.db.nlong) with
    | succ n =>
      exact ⟨_, _, bind_ret (bind_ret (read_services_loop_nil _ _))⟩
    | zero =>
      rw [hcount] at hacc
      have eloop : ∀ (m : Mem) (bb : List Byte),
          s6rc_db_read_services_loop 0 m bb = .ok () m bb := fun _ _ => rfl
      rw [bind_assoc_M, bind_ok (eloop _ _), bind_assoc_M, bind_ok (getMem_apply _ _)]
        at hacc ⊢
      simp only at hacc ⊢
      have hz : mem4.db.nargvs = 0 := by
        by_contra hne
        rw [bind_ret (bind_ret (returnIf_pos 0 _ _ hne))] at hacc
        cases hacc
      have hz' : ¬ (mem4'.db.nargvs ≠ 0) := by rw [hn, hz]; simp
      have hlen : ([] : List Byte).length < be.length := by
        simpa using List.length_pos.mpr hbe
      have e1 : ∀ mm : Mem, (returnIf (mem4'.db.nargvs ≠ 0) 0 >>= fun _ => (pure 1 : M Int))
          mm [] = .ok 1 mm [] := fun mm => by
        rw [bind_ok (returnIf_neg 0 _ _ hz')]; rfl
      rw [bind_ok (e1 _), bind_ok (returnIf_neg 1 _ _ (by decide))]
      exact ⟨_, _, bind_ret (by unfold buffer_get_or; rw [if_pos hlen])⟩

theorem read_buffer_short (bs be : List Byte) (mem memF : Mem) (b p t : List Byte)
    (hbe : be ≠ [] ∨ mem.db.stringlen < 2 ^ 31)
    (hacc : s6rc_db_read_buffer bs be mem b = .ok 1 memF [])
    (hpt : b = p ++ t) (ht : t ≠ []) :
    ∃ mem2 b2, s6rc_db_read_buffer bs be mem p = .ret (-1) mem2 b2 := by
  by_cases hG : mem.db.stringlen < 2 ^ 31
  · obtain ⟨c, e, _, sh⟩ := reads_read_buffer bs be mem b 1 memF [] hacc
    rw [List.append_nil] at e
    subst e
    exact sh hG p t hpt ht
  · have hbe' : be ≠ [] := hbe.resolve_right hG
    obtain ⟨b1, mem4, e, hstr, hrest⟩ := read_buffer_split bs be mem memF b [] 1 hacc
    rw [e] at hpt
    have key : ∀ p1, p = bs ++ p1 → b1 = p1 ++ t →
        ∃ mem2 b2, s6rc_db_read_buffer bs be mem p = .ret (-1) mem2 b2 := by
      intro p1 hp hb1
      subst hp
      by_cases hlen : mem.db.stringlen ≤ p1.length
      · -- the string pool is read whole
        have etake : b1.take mem.db.stringlen = p1.take mem.db.stringlen := by
          rw [hb1, List.take_append_of_le_length hlen]
        have edrop : b1.drop mem.db.stringlen = p1.drop mem.db.stringlen ++ t := by
          rw [hb1, List.drop_append_of_le_length hlen]
        have hstr' : s6rc_db_read_string mem.db.stringlen mem p1 =
            .ok 1 mem4 (p1.drop mem.db.stringlen) := by
          have h1 := read_string_full mem.db.stringlen mem (p1.take mem.db.stringlen)
            (p1.drop mem.db.stringlen) (by rw [List.length_take]; omega)
          rw [List.take_append_drop] at h1
          obtain ⟨_, _, e4⟩ := read_string_ok_inv hstr
          rw [e4, etake, List.length_take, Nat.min_eq_left hlen]
          exact h1
        rw [read_buffer_after_string bs be mem mem4 p1 _ hstr']
        obtain ⟨c, ec, _, sh⟩ :=
          reads_read_buffer_rest (G := True) be mem mem4 _ 1 memF [] hrest
        rw [List.append_nil] at ec
        exact sh trivial _ t (by rw [← ec, edrop]) ht
      · -- the input ends inside the string pool
        cases hs : s6rc_db_read_string mem.db.stringlen mem p1 with
        | ret c m2 b2 =>
          have hc : c = -1 := by
            unfold s6rc_db_read_string at hs
            simp only at hs
            split at hs
            · cases hs; rfl
            · cases hs
          subst hc
          rw [read_buffer_after_banner]
          exact ⟨_, _, bind_ret hs⟩
        | ok r m2 b2 =>
          have hs' := hs
          obtain ⟨rfl, rfl, rfl⟩ := read_string_ok_inv hs'
          rw [read_buffer_after_string bs be mem _ p1 _ hs]
          have hd : p1.drop mem.db.stringlen = [] := List.drop_eq_nil_of_le (by omega)
          rw [hd]
          obtain ⟨_, _, e4⟩ := read_string_ok_inv hstr
          refine read_buffer_rest_nil be mem mem4 _ memF _ [] 1 hbe' hrest ?_ ?_ ?_ <;>
            rw [e4]
    rcases List.append_eq_append_iff.mp hpt with ⟨u, hu1, hu2⟩ | ⟨u, hu1, hu2⟩
    · exact key u hu1 hu2
    · by_cases hu : u = []
      · subst hu
        simp only [List.append_nil, List.nil_append] at hu1 hu2
        exact key [] (by simp [hu1]) (by simp [hu2])
      · have hlen : p.length < bs.length := by
          have hu' : 0 < u.length := List.length_pos.mpr hu
          rw [hu1, List.length_append]; omega
        exact ⟨mem, [], by
          unfold s6rc_db_read_buffer
          exact bind_ret (by unfold buffer_get_or; rw [if_pos hlen])⟩

/-- C8: short reads are reported as `-1`, never as `0` or success: when
`s6rc_db_read_buffer` accepts an input and has read it to its last byte, it returns `-1` on
every strict prefix of that input. (The end banner is a non-empty constant; the alternative
`stringlen < 2 ^ 31` covers a model with an empty one.) -/
theorem C8_short_read (bs be : List Byte) (db : s6rc_db_t) (b p t : List Byte)
    (hbe : be ≠ [] ∨ db.stringlen < 2 ^ 31)
    (hacc : (readBuffer bs be db b).code = 1) (hend : (readBuffer bs be db b).rest = [])
    (hpt : b = p ++ t) (ht : t ≠ []) :
    (readBuffer bs be db p).code = -1 := by
  obtain ⟨memF, bF, hx⟩ := ok_of_code_one (rets_read_buffer bs be) hacc
  have hx' : readBuffer bs be db b = .ok 1 memF bF := hx
  rw [hx'] at hend
  simp only [Res.rest] at hend
  subst hend
  obtain ⟨mem2, b2, h2⟩ := read_buffer_short bs be _ memF b p t hbe hx hpt ht
  have h2' : readBuffer bs be db p = .ret (-1) mem2 b2 := h2
  rw [h2']
  rfl

/-! ## The dependency table (C7) -/

theorem read_deps_loop_ok_inv (max k : Nat) :
    ∀ (d : Nat) (mem m1 : Mem) (b b1 : List Byte) (u : Unit),
      s6rc_db_read_deps_loop max k d mem b = .ok u m1 b1 →
      (be32s k b).length = k ∧ (∀ x ∈ be32s k b, x < max) ∧ b1 = b.drop (4 * k) ∧
        m1 = { mem with db := { mem.db with deps := blockWrite mem.db.deps d (be32s k b) } } := by
  induction k with
  | zero =>
    intro d mem m1 b b1 u h
    cases h
    cases b <;> simp [be32s, blockWrite]
  | succ k ih =>
    intro d mem m1 b b1 u h
    unfold s6rc_db_read_deps_loop at h
    obtain ⟨x, m2, b2, h2, hx2⟩ := bind_ok_inv h
    clear h
    obtain ⟨c0, c1, c2, c3, rfl, rfl, rfl⟩ := read_uint32_or_ok_inv h2
    obtain ⟨_, m3, b3, h3, hx3⟩ := bind_ok_inv hx2
    clear hx2
    obtain ⟨hlt, rfl, rfl⟩ := returnIf_ok_inv h3
    obtain ⟨_, m4, b4, h4, hx4⟩ := bind_ok_inv hx3
    clear hx3
    rw [setMem_apply] at h4
    cases h4
    obtain ⟨i1, i2, i3, i4⟩ := ih _ _ _ _ _ _ hx4
    refine ⟨by simp [be32s, i1], ?_, ?_, ?_⟩
    · intro y hy
      simp only [be32s, List.mem_cons] at hy
      rcases hy with rfl | hy
      · omega
      · exact i2 y hy
    · rw [i3]
      have : 4 * (k + 1) = 4 * k + 4 := by omega
      rw [this]
      simp [List.drop_drop]
    · rw [i4]
      simp [be32s, blockWrite]

theorem read_deps_loop_ok (max k : Nat) :
    ∀ (d : Nat) (mem : Mem) (b : List Byte),
      (be32s k b).length = k → (∀ x ∈ be32s k b, x < max) →
      s6rc_db_read_deps_loop max k d mem b =
        .ok () { mem with db := { mem.db with deps := blockWrite mem.db.deps d (be32s k b) } }
          (b.drop (4 * k)) := by
  induction k with
  | zero =>
    intro d mem b _ _
    cases b <;> simp [be32s, blockWrite, s6rc_db_read_deps_loop, pure_apply]
  | succ k ih =>
    intro d mem b hl hlt
    match b, hl, hlt with
    | b0 :: b1 :: b2 :: b3 :: rest, hl, hlt =>
      simp only [be32s, List.length_cons, Nat.add_right_cancel_iff] at hl
      simp only [be32s, List.mem_cons, forall_eq_or_imp] at hlt
      unfold s6rc_db_read_deps_loop
      have e1 : read_uint32_or (-1) mem (b0 :: b1 :: b2 :: b3 :: rest) =
          .ok (uint32_unpack_big b0 b1 b2 b3) mem rest := rfl
      rw [bind_ok e1, bind_ok (returnIf_neg 0 _ _ (by omega)), bind_ok (setMem_apply _ _ _),
        ih _ _ _ hl hlt.2]
      have : 4 * (k + 1) = 4 * k + 4 := by omega
      rw [this]
      simp [be32s, blockWrite, List.drop_drop]
    | [], hl, _ => simp [be32s] at hl
    | [_], hl, _ => simp [be32s] at hl
    | [_, _], hl, _ => simp [be32s] at hl
    | [_, _, _], hl, _ => simp [be32s] at hl

theorem read_deps_loop_bad (max k : Nat) :
    ∀ (j d : Nat) (mem : Mem) (b : List Byte) (x : Nat),
      (be32s k b)[j]? = some x → max ≤ x →
      ∃ m1 b1, s6rc_db_read_deps_loop max k d mem b = .ret 0 m1 b1 := by
  induction k with
  | zero =>
    intro j d mem b x hj _
    cases b <;> simp [be32s] at hj
  | succ k ih =>
    intro j d mem b x hj hx
    match b, hj with
    | b0 :: b1 :: b2 :: b3 :: rest, hj =>
      unfold s6rc_db_read_deps_loop
      have e1 : read_uint32_or (-1) mem (b0 :: b1 :: b2 :: b3 :: rest) =
          .ok (uint32_unpack_big b0 b1 b2 b3) mem rest := rfl
      rw [bind_ok e1]
      by_cases hb : uint32_unpack_big b0 b1 b2 b3 ≥ max
      · exact ⟨_, _, bind_ret (returnIf_pos 0 _ _ hb)⟩
      · rw [bind_ok (returnIf_neg 0 _ _ hb), bind_ok (setMem_apply _ _ _)]
        cases j with
        | zero =>
          simp only [be32s, List.getElem?_cons_zero, Option.some.injEq] at hj
          omega
        | succ j =>
          simp only [be32s, List.getElem?_cons_succ] at hj
          exact ih j _ _ _ x hj hx
    | [], hj => simp [be32s] at hj
    | [_], hj => simp [be32s] at hj
    | [_, _], hj => simp [be32s] at hj
    | [_, _, _], hj => simp [be32s] at hj

theorem read_deps_loop_safe (max k : Nat) :
    ∀ (d : Nat) (mem : Mem) (b : List Byte) (i y : Nat),
      (s6rc_db_read_deps_loop max k d mem b).mem.db.deps[i]? = some y →
      y < max ∨ mem.db.deps[i]? = some y := by
  induction k with
  | zero =>
    intro d mem b i y h
    exact Or.inr h
  | succ k ih =>
    intro d mem b i y h
    unfold s6rc_db_read_deps_loop at h
    cases h1 : read_uint32_or (-1) mem b with
    | ret c m1 b1 =>
      rw [bind_ret h1] at h
      have : m1 = mem := by
        unfold read_uint32_or at h1
        split at h1
        · cases h1
        · cases h1; rfl
      subst this
      exact Or.inr h
    | ok x m1 b1 =>
      obtain ⟨_, _, _, _, _, _, rfl⟩ := read_uint32_or_ok_inv h1
      rw [bind_ok h1] at h
      by_cases hb : x ≥ max
      · rw [bind_ret (returnIf_pos 0 _ _ hb)] at h
        exact Or.inr h
      · rw [bind_ok (returnIf_neg 0 _ _ hb), bind_ok (setMem_apply _ _ _)] at h
        rcases ih _ _ _ i y h with h' | h'
        · exact Or.inl h'
        · simp only at h'
          rw [List.getElem?_set] at h'
          split at h'
          · split at h'
            · cases h'
              left
              omega
            · cases h'
          · exact Or.inr h'

theorem blockWrite_length {α : Type} (vals : List α) :
    ∀ (deps : List α) (d : Nat), (blockWrite deps d vals).length = deps.length := by
  induction vals with
  | nil => intro deps d; rfl
  | cons x xs ih => intro deps d; simp [blockWrite, ih]

theorem blockWrite_getElem? {α : Type} (vals : List α) :
    ∀ (deps : List α) (d i : Nat), d + vals.length ≤ deps.length →
      (blockWrite deps d vals)[i]? =
        if d ≤ i ∧ i < d + vals.length then vals[i - d]? else deps[i]? := by
  induction vals with
  | nil =>
    intro deps d i _
    simp only [blockWrite, List.length_nil, Nat.add_zero]
    rw [if_neg (by omega)]
  | cons x xs ih =>
    intro deps d i hle
    simp only [List.length_cons] at hle
    simp only [blockWrite, List.length_cons]
    rw [ih _ _ _ (by simp; omega)]
    by_cases h1 : d + 1 ≤ i ∧ i < d + 1 + xs.length
    · rw [if_pos h1, if_pos (by omega)]
      have : i - d = (i - (d + 1)) + 1 := by omega
      rw [this, List.getElem?_cons_succ]
    · rw [if_neg h1]
      by_cases h2 : i = d
      · subst h2
        rw [if_pos (by omega), Nat.sub_self, List.getElem?_cons_zero]
        rw [List.getElem?_set_eq_of_lt _ (by omega)]
      · rw [if_neg (by omega), List.getElem?_set_ne (by omega)]

theorem blockWrite_full {α : Type} (deps vals : List α) (h : vals.length = deps.length) :
    blockWrite deps 0 vals = vals := by
  apply List.ext_getElem?
  intro i
  rw [blockWrite_getElem? vals deps 0 i (by omega)]
  by_cases hi : i < vals.length
  · rw [if_pos ⟨by omega, by omega⟩, Nat.sub_zero]
  · rw [if_neg (by omega)]
    rw [List.getElem?_eq_none (by omega), List.getElem?_eq_none (by omega)]

theorem wrap32_shift (ndeps : Nat) (h : ndeps < 2 ^ 31) : wrap32 (ndeps <<< 1) = 2 * ndeps := by
  unfold wrap32
  rw [Nat.shiftLeft_eq, Nat.mod_eq_of_lt (by omega)]
  omega

theorem read_deps_eq (max ndeps : Nat) (mem : Mem) (b : List Byte) :
    s6rc_db_read_deps max ndeps mem b =
      match s6rc_db_read_deps_loop max (wrap32 (ndeps <<< 1)) 0 mem b with
      | .ok _ m1 b1 => .ok 1 m1 b1
      | .ret c m1 b1 => .ret c m1 b1 := by
  unfold s6rc_db_read_deps
  rw [bind_apply]
  cases s6rc_db_read_deps_loop max (wrap32 (ndeps <<< 1)) 0 mem b <;> rfl

/-- C7, the claim as stated fails: for `ndeps = 2 ^ 31` the doubled count wraps to `0`, and
`s6rc_db_read_deps` returns `1` on the empty input without reading any of the `2 * ndeps`
values. -/
theorem C7_counterexample :
    (readDeps 1 (2 ^ 31)
        { services := [], nshort := 1, nlong := 0, stringlen := 0, nargvs := 0, ndeps := 2 ^ 31,
          string := [], argvs := [], deps := [] } []).code = 1 ∧
      (be32s (2 * 2 ^ 31) []).length ≠ 2 * 2 ^ 31 := by
  constructor
  · rfl
  · decide

/-- C7, amended: for `ndeps < 2 ^ 31` (so that the doubled count does not wrap in 32 bits),
`s6rc_db_read_deps` returns `1` exactly when the `2 * ndeps` big-endian 32-bit values are all
present and each is `< max`; it has then read exactly these `8 * ndeps` bytes and a table of
`2 * ndeps` entries holds the values in input order; it returns `0` when a value `≥ max` is
among the values present; and whatever the result, an entry of the table is a value `< max`
or the entry the table held before. -/
theorem C7_read_deps (max ndeps : Nat) (db : s6rc_db_t) (b : List Byte) (h : ndeps < 2 ^ 31) :
    ((readDeps max ndeps db b).code = 1 ↔
      (be32s (2 * ndeps) b).length = 2 * ndeps ∧ ∀ x ∈ be32s (2 * ndeps) b, x < max) ∧
    ((readDeps max ndeps db b).code = 1 →
      (readDeps max ndeps db b).rest = b.drop (8 * ndeps) ∧
        (db.deps.length = 2 * ndeps →
          (readDeps max ndeps db b).mem.db.deps = be32s (2 * ndeps) b)) ∧
    (∀ (j x : Nat), (be32s (2 * ndeps) b)[j]? = some x → max ≤ x →
      (readDeps max ndeps db b).code = 0) ∧
    (∀ (i y : Nat), (readDeps max ndeps db b).mem.db.deps[i]? = some y →
      y < max ∨ db.deps[i]? = some y) := by
  have hrd : ∀ mem, s6rc_db_read_deps max ndeps mem b =
      match s6rc_db_read_deps_loop max (2 * ndeps) 0 mem b with
      | .ok _ m1 b1 => .ok 1 m1 b1
      | .ret c m1 b1 => .ret c m1 b1 := by
    intro mem
    rw [read_deps_eq, wrap32_shift ndeps h]
  have hok : (be32s (2 * ndeps) b).length = 2 * ndeps → (∀ x ∈ be32s (2 * ndeps) b, x < max) →
      readDeps max ndeps db b = .ok 1
        { db := { db with deps := blockWrite db.deps 0 (be32s (2 * ndeps) b) },
          sv := 0, nargvs := 0, argvs := 0 } (b.drop (4 * (2 * ndeps))) := by
    intro h1 h2
    unfold readDeps
    rw [hrd, read_deps_loop_ok max (2 * ndeps) 0 _ b h1 h2]
  have hinv : (readDeps max ndeps db b).code = 1 →
      (be32s (2 * ndeps) b).length = 2 * ndeps ∧ ∀ x ∈ be32s (2 * ndeps) b, x < max := by
    intro hc
    unfold readDeps at hc
    rw [hrd] at hc
    cases hl : s6rc_db_read_deps_loop max (2 * ndeps) 0
        { db := db, sv := 0, nargvs := 0, argvs := 0 } b with
    | ok u m1 b1 =>
      obtain ⟨i1, i2, _, _⟩ := read_deps_loop_ok_inv max (2 * ndeps) 0 _ _ _ _ u hl
      exact ⟨i1, i2⟩
    | ret c m1 b1 =>
      rw [hl] at hc
      simp only [Res.code] at hc
      have := rets_read_deps_loop max (2 * ndeps) 0 _ _ c m1 b1 hl
      omega
  refine ⟨⟨hinv, fun ⟨h1, h2⟩ => by rw [hok h1 h2]; rfl⟩, ?_, ?_, ?_⟩
  · intro hc
    obtain ⟨h1, h2⟩ := hinv hc
    rw [hok h1 h2]
    simp only [Res.rest, Res.mem]
    refine ⟨by congr 1; omega, fun hlen => blockWrite_full _ _ (by omega)⟩
  · intro j x hj hx
    unfold readDeps
    rw [hrd]
    obtain ⟨m1, b1, hl⟩ := read_deps_loop_bad max (2 * ndeps) j 0
      { db := db, sv := 0, nargvs := 0, argvs := 0 } b x hj hx
    rw [hl]
    rfl
  · intro i y hy
    unfold readDeps at hy
    rw [hrd] at hy
    have hsafe := read_deps_loop_safe max (2 * ndeps) 0
      { db := db, sv := 0, nargvs := 0, argvs := 0 } b i y
    cases hl : s6rc_db_read_deps_loop max (2 * ndeps) 0
        { db := db, sv := 0, nargvs := 0, argvs := 0 } b with
    | ok u m1 b1 =>
      rw [hl] at hy hsafe
      exact hsafe hy
    | ret c m1 b1 =>
      rw [hl] at hy hsafe
      exact hsafe hy

/-- An instance of C7: a table of two entries (`ndeps = 1`), read from the values `1` and `0`
with `max = 2`. -/
theorem C7_read_deps_witness :
    (readDeps 2 1
        { services := [], nshort := 2, nlong := 0, stringlen := 0, nargvs := 0, ndeps := 1,
          string := [], argvs := [], deps := [9, 9] } [0, 0, 0, 1, 0, 0, 0, 0]).code = 1 ∧
      (readDeps 2 1
        { services := [], nshort := 2, nlong := 0, stringlen := 0, nargvs := 0, ndeps := 1,
          string := [], argvs := [], deps := [9, 9] } [0, 0, 0, 1, 0, 0, 0, 0]).mem.db.deps
        = [1, 0] :=
  have h := C7_read_deps 2 1
    { services := [], nshort := 2, nlong := 0, stringlen := 0, nargvs := 0, ndeps := 1,
      string := [], argvs := [], deps := [9, 9] } [0, 0, 0, 1, 0, 0, 0, 0] (by decide)
  ⟨h.1.mpr (by decide), (h.2.1 (h.1.mpr (by decide))).2 rfl⟩

/-- An instance of C8: the example stream is accepted and read to its last byte, and the
reader returns `-1` on the stream without its last byte. -/
theorem C8_short_read_witness :
    (readBuffer exStart exEnd exDb exStream).code = 1 ∧
      (readBuffer exStart exEnd exDb (exStream.take (exStream.length - 1))).code = -1 :=
  ⟨by rfl,
    C8_short_read exStart exEnd exDb exStream (exStream.take (exStream.length - 1))
      (exStream.drop (exStream.length - 1)) (Or.inl (by decide)) (by rfl) (by rfl)
      (List.take_append_drop _ _).symm (by decide)⟩

/-! ## The end marker (C9) -/

theorem read_buffer_eq_head (bs be : List Byte) :
    s6rc_db_read_buffer bs be =
      s6rc_db_read_buffer_head bs >>= fun n =>
        s6rc_db_read_services_loop n >>= fun _ => s6rc_db_read_buffer_fin be := by
  simp only [s6rc_db_read_buffer, s6rc_db_read_buffer_head, s6rc_db_read_buffer_fin,
    s6rc_db_read_services, bind_assoc_M]

theorem reads_read_buffer_head (bs : List Byte) (mem : Mem) (b : List Byte) :
    Reads False (s6rc_db_read_buffer_head bs) mem b := by
  unfold s6rc_db_read_buffer_head
  refine reads_bind reads_buffer_get_or fun _ _ _ _ => ?_
  refine reads_bind reads_returnIf fun _ _ _ _ => ?_
  refine reads_bind reads_getMem fun _ _ _ _ => ?_
  refine reads_bind (reads_read_string fun h => h.elim) fun _ _ _ _ => ?_
  refine reads_bind reads_returnIf fun _ _ _ _ => ?_
  refine reads_bind (reads_read_deps _ _ _ _) fun _ _ _ _ => ?_
  refine reads_bind reads_returnIf fun _ _ _ _ => ?_
  exact reads_read_services_init _ _

theorem read_deps_ok_inv (max ndeps : Nat) (mem m1 : Mem) (b b1 : List Byte) (r : Int)
    (h : s6rc_db_read_deps max ndeps mem b = .ok r m1 b1) :
    r = 1 ∧ ∃ deps, m1 = { mem with db := { mem.db with deps := deps } } := by
  rw [read_deps_eq] at h
  cases hl : s6rc_db_read_deps_loop max (wrap32 (ndeps <<< 1)) 0 mem b with
  | ok u m2 b2 =>
    rw [hl] at h
    cases h
    obtain ⟨_, _, _, e⟩ := read_deps_loop_ok_inv _ _ _ _ _ _ _ u hl
    exact ⟨rfl, _, e⟩
  | ret c m2 b2 =>
    rw [hl] at h
    cases h

/-- The number of records the reader goes through is computed from the caller's counts. -/
theorem read_buffer_head_count (bs : List Byte) (mem m1 : Mem) (b b1 : List Byte) (n : Nat)
    (h : s6rc_db_read_buffer_head bs mem b = .ok n m1 b1) :
    n = wrap32 (mem.db.nshort + mem.db.nlong) := by
  unfold s6rc_db_read_buffer_head at h
  obtain ⟨x, m1, b1, h1, hx1⟩ := bind_ok_inv h
  clear h
  obtain ⟨_, _, rfl⟩ := buffer_get_or_ok_inv h1
  obtain ⟨_, m2, b2, h2, hx2⟩ := bind_ok_inv hx1
  clear hx1
  obtain ⟨_, rfl, rfl⟩ := returnIf_ok_inv h2
  obtain ⟨_, m3, b3, h3, hx3⟩ := bind_ok_inv hx2
  clear hx2
  obtain ⟨rfl, rfl, rfl⟩ := getMem_ok_inv h3
  obtain ⟨r4, m4, b4, h4, hx4⟩ := bind_ok_inv hx3
  clear hx3
  obtain ⟨rfl, rfl, rfl⟩ := read_string_ok_inv h4
  obtain ⟨_, m5, b5, h5, hx5⟩ := bind_ok_inv hx4
  clear hx4
  obtain ⟨_, rfl, rfl⟩ := returnIf_ok_inv h5
  obtain ⟨r6, m6, b6, h6, hx6⟩ := bind_ok_inv hx5
  clear hx5
  obtain ⟨rfl, deps, rfl⟩ := read_deps_ok_inv _ _ _ _ _ _ _ h6
  obtain ⟨_, m7, b7, h7, hx7⟩ := bind_ok_inv hx6
  clear hx6
  obtain ⟨_, rfl, rfl⟩ := returnIf_ok_inv h7
  cases hx7
  rfl

theorem marker_cons (mem : Mem) (x : Byte) (r : List Byte) :
    s6rc_db_read_services_marker mem (x :: r) =
      if x ≠ 254 then .ret 0 mem r else .ok () { mem with sv := mem.sv + 1 } r := by
  have h1 : buffer_get_or 1 (-1) mem (x :: r) = .ok [x] mem r := by
    simp [buffer_get_or]
  unfold s6rc_db_read_services_marker
  rw [bind_ok h1]
  by_cases hx : x ≠ 254
  · rw [if_pos hx]
    exact bind_ret (returnIf_pos 0 _ _ (by simpa using hx))
  · rw [if_neg hx, bind_ok (returnIf_neg 0 _ _ (by simpa using hx))]
    rfl

theorem marker_ok_inv (mem m1 : Mem) (b b1 : List Byte) (u : Unit)
    (h : s6rc_db_read_services_marker mem b = .ok u m1 b1) :
    b = 254 :: b1 ∧ m1 = { mem with sv := mem.sv + 1 } := by
  cases b with
  | nil =>
    unfold s6rc_db_read_services_marker at h
    have : buffer_get_or 1 (-1) mem [] = .ret (-1) mem [] := by simp [buffer_get_or]
    rw [bind_ret this] at h
    cases h
  | cons x r =>
    rw [marker_cons] at h
    split at h
    · cases h
    · rename_i hx
      cases h
      exact ⟨by rw [not_not.mp hx], rfl⟩

theorem loop_zero_bind {β : Type} (f : Unit → M β) :
    (s6rc_db_read_services_loop 0 >>= f) = f () := by
  funext mem b
  rfl

theorem loop_succ_bind {β : Type} (k : Nat) (f : Unit → M β) :
    (s6rc_db_read_services_loop (k + 1) >>= f) =
      s6rc_db_read_services_record >>= fun _ =>
        s6rc_db_read_services_marker >>= fun _ => s6rc_db_read_services_loop k >>= f := by
  simp only [s6rc_db_read_services_loop, bind_assoc_M]

theorem loop_marker (n : Nat) :
    ∀ (k : Nat) (mem m1 : Mem) (b b1 : List Byte) (u : Unit),
      s6rc_db_read_services_loop n mem b = .ok u m1 b1 → k < n →
      ∃ c post memk, b = c ++ 254 :: post ∧
        (∀ r, (s6rc_db_read_services_loop k >>= fun _ => s6rc_db_read_services_record)
          mem (c ++ r) = .ok () memk r) ∧
        (∀ v : Byte, v ≠ 254 →
          ∃ m2 b2, s6rc_db_read_services_loop n mem (c ++ v :: post) = .ret 0 m2 b2) := by
  induction n with
  | zero => intro k _ _ _ _ _ _ hk; omega
  | succ n ih =>
    intro k mem m1 b b1 u h hk
    unfold s6rc_db_read_services_loop at h
    obtain ⟨_, ma, ba, ha, hxa⟩ := bind_ok_inv h
    clear h
    obtain ⟨_, mb, bb, hb, hxb⟩ := bind_ok_inv hxa
    clear hxa
    obtain ⟨rfl, rfl⟩ := marker_ok_inv _ _ _ _ _ hb
    obtain ⟨c1, rfl, fr1, _⟩ := reads_read_services_record (G := False) mem _ _ ma _ ha
    have fr := fr1 (Or.inl (by simp))
    cases k with
    | zero =>
      refine ⟨c1, bb, ma, rfl, ?_, ?_⟩
      · intro r
        rw [loop_zero_bind]
        exact fr r
      · intro v hv
        unfold s6rc_db_read_services_loop
        rw [bind_ok (fr (v :: bb))]
        have hm : s6rc_db_read_services_marker ma (v :: bb) = .ret 0 ma bb := by
          rw [marker_cons, if_pos hv]
        exact ⟨_, _, bind_ret hm⟩
    | succ k =>
      obtain ⟨c2, post, memk, rfl, fr2, rep2⟩ := ih k _ _ _ _ _ hxb (by omega)
      refine ⟨c1 ++ 254 :: c2, post, memk, by simp, ?_, ?_⟩
      · intro r
        rw [loop_succ_bind, List.append_assoc, bind_ok (fr _), List.cons_append,
          bind_ok (by rw [marker_cons, if_neg (by simp)])]
        exact fr2 r
      · intro v hv
        obtain ⟨m2, b2, h2⟩ := rep2 v hv
        unfold s6rc_db_read_services_loop
        rw [List.append_assoc, bind_ok (fr _), List.cons_append,
          bind_ok (by rw [marker_cons, if_neg (by simp)])]
        exact ⟨m2, b2, h2⟩

/-- C9: on every input that `s6rc_db_read_buffer` accepts, each record `k` has its end marker
`0xFE` at the offset the reader has reached when it is about to read it, and replacing that
byte by any other value makes the reader return `0`. -/
theorem C9_end_marker (bs be : List Byte) (db : s6rc_db_t) (b : List Byte) (k : Nat) (v : Byte)
    (hacc : (readBuffer bs be db b).code = 1) (hk : k < wrap32 (db.nshort + db.nlong))
    (hv : v ≠ 254) :
    ∃ pos, endMarkerOffset bs db b k = some pos ∧ b[pos]? = some 254 ∧
      (readBuffer bs be db (b.set pos v)).code = 0 := by
  obtain ⟨memF, bF, hx⟩ := ok_of_code_one (rets_read_buffer bs be) hacc
  rw [read_buffer_eq_head] at hx
  obtain ⟨n, mh, bh, hh, hx1⟩ := bind_ok_inv hx
  clear hx
  have hn := read_buffer_head_count bs _ _ _ _ _ hh
  simp only at hn
  subst hn
  obtain ⟨_, ml, bl, hl, _⟩ := bind_ok_inv hx1
  obtain ⟨c, post, memk, rfl, frk, rep⟩ := loop_marker _ k _ _ _ _ _ hl hk
  obtain ⟨ch, rfl, frh, _⟩ := reads_read_buffer_head bs _ _ _ _ _ hh
  have fh := frh (Or.inl (by simp))
  refine ⟨ch.length + c.length, ?_, ?_, ?_⟩
  · unfold endMarkerOffset s6rc_db_read_upto_marker
    rw [bind_ok hh, frk (254 :: post)]
    simp only [List.length_append, List.length_cons]
    congr 1
    omega
  · have e : ch ++ (c ++ 254 :: post) = (ch ++ c) ++ 254 :: post := by simp
    have hlen : ch.length + c.length = (ch ++ c).length := by simp
    rw [e, hlen, List.getElem?_append_right (le_refl _)]
    simp
  · have e : (ch ++ (c ++ 254 :: post)).set (ch.length + c.length) v =
        ch ++ (c ++ v :: post) := by
      have e1 : ch ++ (c ++ 254 :: post) = (ch ++ c) ++ 254 :: post := by simp
      have e2 : ch ++ (c ++ v :: post) = (ch ++ c) ++ v :: post := by simp
      have hlen : ch.length + c.length = (ch ++ c).length := by simp
      rw [e1, e2, hlen, List.set_append_right _ _ (le_refl _)]
      simp
    rw [e]
    obtain ⟨m2, b2, h2⟩ := rep v hv
    have : readBuffer bs be db (ch ++ (c ++ v :: post)) = .ret 0 m2 b2 := by
      unfold readBuffer
      rw [read_buffer_eq_head, bind_ok (fh _)]
      exact bind_ret h2
    rw [this]
    rfl

/-- An instance of C9: the end marker of the second record of the example stream, turned
into `0`, makes the reader return `0`. -/
theorem C9_end_marker_witness :
    ∃ pos, endMarkerOffset exStart exDb exStream 1 = some pos ∧ exStream[pos]? = some 254 ∧
      (readBuffer exStart exEnd exDb (exStream.set pos 0)).code = 0 :=
  C9_end_marker exStart exEnd exDb exStream 1 0 (by rfl) (by decide) (by decide)

/-! ## The offsets of the decoded records (C1) -/

theorem keeps_refl (mem : Mem) : Keeps mem mem :=
  ⟨rfl, rfl, rfl, rfl, rfl, rfl, rfl, rfl, rfl, fun _ _ => rfl⟩

theorem keeps_trans {a b c : Mem} (h1 : Keeps a b) (h2 : Keeps b c) : Keeps a c := by
  obtain ⟨a1, a2, a3, a4, a5, a6, a7, a8, a9, a10⟩ := h1
  obtain ⟨b1, b2, b3, b4, b5, b6, b7, b8, b9, b10⟩ := h2
  refine ⟨b1.trans a1, b2.trans a2, b3.trans a3, b4.trans a4, b5.trans a5, b6.trans a6,
    b7.trans a7, b8.trans a8, b9.trans a9, ?_⟩
  intro j hj
  rw [b10 j (by rw [a8]; exact hj), a10 j hj]

theorem keeps_setSv (f : s6rc_service_t → s6rc_service_t) (mem : Mem) :
    Keeps mem
      { mem with db := { mem.db with services := List.modify f mem.sv mem.db.services } } := by
  refine ⟨rfl, rfl, rfl, rfl, rfl, rfl, rfl, rfl, by simp, ?_⟩
  intro j hj
  simp only
  rw [List.getElem?_modify_ne _ _ (Ne.symm hj)]

theorem post_read_services_argv (i : Nat) (mem : Mem) (b : List Byte) :
    Post (s6rc_db_read_services_argv i) mem b fun _ m1 _ =>
      Keeps mem m1 ∧ ∀ s0, mem.db.services[mem.sv]? = some s0 →
        ∃ argc argvpos,
          s6rc_db_check_valid_strings mem.db.string mem.db.stringlen argvpos argc = true ∧
          m1.db.services[mem.sv]? = some { s0 with x := s0.x.setGroup i argvpos argc } := by
  unfold s6rc_db_read_services_argv
  refine post_bind (post_read_uint32_or fun _ _ _ _ _ _ => ?_)
  refine post_bind (post_getMem ?_)
  refine post_bind (post_returnIf fun _ => ?_)
  refine post_bind (post_read_uint32_or fun _ _ _ _ _ _ => ?_)
  refine post_bind (post_returnIf fun hvalid => ?_)
  refine post_bind (post_setMem ?_)
  refine post_bind (post_returnIf fun _ => ?_)
  refine post_bind (post_setSv ?_)
  refine post_bind (post_setMem ?_)
  refine post_bind (post_getMem ?_)
  refine post_bind (post_setMem ?_)
  refine post_bind (post_returnIf fun _ => ?_)
  refine post_setMem ?_
  refine ⟨⟨rfl, rfl, rfl, rfl, rfl, rfl, rfl, rfl, ?_, ?_⟩, ?_⟩
  · simp
  · intro j hj
    simp only
    rw [List.getElem?_modify_ne _ _ (Ne.symm hj)]
  · intro s0 hs0
    refine ⟨_, _, by simpa using hvalid, ?_⟩
    simp only
    rw [List.getElem?_modify_eq, hs0]
    rfl

theorem setGroup_both (x : s6rc_longshot_t) (v0 c0 v1 c1 : Nat) :
    (x.setGroup 0 v0 c0).setGroup 1 v1 c1 = .oneshot c0 c1 v0 v1 := by
  cases x <;> rfl

theorem goodOffset_of_strings (string : List Byte) (stringlen pos n : Nat)
    (h : s6rc_db_check_valid_strings string stringlen pos n = true) (hn : 0 < n) :
    GoodOffset string stringlen pos := by
  obtain ⟨n, rfl⟩ : ∃ n', n = n' + 1 := ⟨n - 1, by omega⟩
  simp only [s6rc_db_check_valid_strings] at h
  by_cases hv : s6rc_db_check_valid_string string stringlen pos = true
  · exact (check_valid_string_iff string stringlen pos).mp hv
  · simp [hv] at h

theorem post_read_services_payload (type : Byte) (mem : Mem) (b : List Byte) :
    Post (s6rc_db_read_services_payload type) mem b fun _ m1 _ =>
      Keeps mem m1 ∧ ∀ s0, mem.db.services[mem.sv]? = some s0 →
        ∃ s1, m1.db.services[mem.sv]? = some s1 ∧ s1.name = s0.name ∧
          PayloadUsedValid mem.db.string mem.db.stringlen s1.x := by
  unfold s6rc_db_read_services_payload
  split
  · refine post_bind (post_setSv ?_)
    refine post_bind (post_read_uint32_or fun _ _ _ _ _ _ => ?_)
    refine post_bind (post_setSv ?_)
    refine post_bind (post_getMem ?_)
    refine post_returnIf fun hvalid => ?_
    refine ⟨⟨rfl, rfl, rfl, rfl, rfl, rfl, rfl, rfl, ?_, ?_⟩, ?_⟩
    · simp
    · intro j hj
      simp only
      rw [List.getElem?_modify_ne _ _ (Ne.symm hj), List.getElem?_modify_ne _ _ (Ne.symm hj)]
    · intro s0 hs0
      simp only
      rw [List.getElem?_modify_eq, List.getElem?_modify_eq, hs0]
      refine ⟨_, rfl, rfl, ?_⟩
      simp only [PayloadUsedValid]
      exact (check_valid_string_iff _ _ _).mp (by simpa using hvalid)
  · refine post_bind (post_setSv ?_)
    refine post_bind (post_mono (post_read_services_argv 0 _ _) ?_)
    intro _ ma ba ⟨ka, ha⟩
    refine post_mono (post_read_services_argv 1 _ _) ?_
    intro _ mb bb ⟨kb, hb⟩
    refine ⟨keeps_trans (keeps_trans (keeps_setSv _ mem) ka) kb, ?_⟩
    intro s0 hs0
    obtain ⟨c0, v0, hv0, e0⟩ := ha { s0 with type := 0 } (by
      simp only
      rw [List.getElem?_modify_eq, hs0]
      rfl)
    have hsv : ma.sv = mem.sv := ka.2.2.2.2.2.2.2.1
    have hstr : ma.db.string = mem.db.string := ka.1
    have hlen : ma.db.stringlen = mem.db.stringlen := ka.2.1
    simp only at e0
    obtain ⟨c1, v1, hv1, e1⟩ := hb _ (by rw [hsv]; exact e0)
    rw [hsv] at e1
    rw [hstr, hlen] at hv1
    simp only at hv0
    refine ⟨_, e1, rfl, ?_⟩
    simp only [setGroup_both, PayloadUsedValid]
    exact ⟨fun h => goodOffset_of_strings _ _ _ _ hv0 h,
      fun h => goodOffset_of_strings _ _ _ _ hv1 h⟩

theorem post_setSv_gen {P : Mem → Prop} {f : s6rc_service_t → s6rc_service_t} {mem : Mem}
    {b : List Byte} {Q : Unit → Mem → List Byte → Prop}
    (hP : P { mem with db := { mem.db with services := List.modify f mem.sv mem.db.services } })
    (h : ∀ m1, P m1 → Q () m1 b) : Post (setSv f) mem b Q :=
  post_setSv (h _ hP)

theorem nameKept_first (name : Nat) (mem : Mem) :
    NameKept name mem { mem with db := { mem.db with
      services := List.modify (fun sv => { sv with name := name }) mem.sv mem.db.services } } := by
  refine ⟨keeps_setSv _ mem, ?_⟩
  intro s0 hs0
  simp only
  rw [List.getElem?_modify_eq, hs0]
  exact ⟨_, rfl, rfl⟩

theorem nameKept_step (name : Nat) (mem m : Mem) (f : s6rc_service_t → s6rc_service_t)
    (hf : ∀ s, (f s).name = s.name) (h : NameKept name mem m) :
    NameKept name mem
      { m with db := { m.db with services := List.modify f m.sv m.db.services } } := by
  obtain ⟨hk, hn⟩ := h
  refine ⟨keeps_trans hk (keeps_setSv _ m), ?_⟩
  intro s0 hs0
  obtain ⟨s, hs, e⟩ := hn s0 hs0
  have hsv : m.sv = mem.sv := hk.2.2.2.2.2.2.2.1
  simp only
  rw [hsv, List.getElem?_modify_eq, hs]
  exact ⟨_, rfl, by rw [hf, e]⟩

theorem post_read_services_record (mem : Mem) (b : List Byte) :
    Post s6rc_db_read_services_record mem b fun _ m1 _ =>
      Keeps mem m1 ∧ ∀ s1, m1.db.services[mem.sv]? = some s1 →
        OffsetsUsedValid mem.db.string mem.db.stringlen s1 := by
  unfold s6rc_db_read_services_record
  refine post_bind (post_read_uint32_or fun c0 c1 c2 c3 _ _ => ?_)
  refine post_bind (post_setSv_gen (P := NameKept (uint32_unpack_big c0 c1 c2 c3) mem)
    (nameKept_first _ mem) fun m hI1 => ?_)
  refine post_bind (post_getMem ?_)
  refine post_bind (post_returnIf fun _ => ?_)
  refine post_bind (post_returnIf fun hname => ?_)
  refine post_bind (post_read_uint32_or fun _ _ _ _ _ _ => ?_)
  refine post_bind (post_setSv_gen (P := NameKept (uint32_unpack_big c0 c1 c2 c3) mem)
    (nameKept_step _ _ _ _ (fun _ => rfl) hI1) fun m2 hI2 => ?_)
  refine post_bind (post_read_uint32_or fun _ _ _ _ _ _ => ?_)
  refine post_bind (post_setSv_gen (P := NameKept (uint32_unpack_big c0 c1 c2 c3) mem)
    (nameKept_step _ _ _ _ (fun _ => rfl) hI2) fun m3 hI3 => ?_)
  refine post_bind (post_read_uint32_or fun _ _ _ _ _ _ => ?_)
  refine post_bind (post_setSv_gen (P := NameKept (uint32_unpack_big c0 c1 c2 c3) mem)
    (nameKept_step _ _ _ _ (fun _ => rfl) hI3) fun m4 hI4 => ?_)
  refine post_bind (post_read_uint32_or fun _ _ _ _ _ _ => ?_)
  refine post_bind (post_setSv_gen (P := NameKept (uint32_unpack_big c0 c1 c2 c3) mem)
    (nameKept_step _ _ _ _ (fun _ => rfl) hI4) fun m5 hI5 => ?_)
  refine post_bind (post_read_uint32_or fun _ _ _ _ _ _ => ?_)
  refine post_bind (post_setSv_gen (P := NameKept (uint32_unpack_big c0 c1 c2 c3) mem)
    (nameKept_step _ _ _ _ (fun _ => rfl) hI5) fun m6 hI6 => ?_)
  refine post_bind (post_read_uint32_or fun _ _ _ _ _ _ => ?_)
  refine post_bind (post_setSv_gen (P := NameKept (uint32_unpack_big c0 c1 c2 c3) mem)
    (nameKept_step _ _ _ _ (fun _ => rfl) hI6) fun m7 hI7 => ?_)
  refine post_bind (post_returnIf fun _ => ?_)
  refine post_bind (post_read_uint32_or fun _ _ _ _ _ _ => ?_)
  refine post_bind (post_setSv_gen (P := NameKept (uint32_unpack_big c0 c1 c2 c3) mem)
    (nameKept_step _ _ _ _ (fun _ => rfl) hI7) fun m8 hI8 => ?_)
  refine post_bind (post_returnIf fun _ => ?_)
  refine post_bind (post_buffer_get_or fun _ _ _ _ => ?_)
  refine post_mono (post_read_services_payload _ _ _) ?_
  intro _ m9 b9 ⟨kp, hp⟩
  have hgood := (check_valid_string_iff _ _ _).mp (by simpa using hname)
  rw [hI1.1.1, hI1.1.2.1] at hgood
  have k8 := hI8.1
  have k0 : Keeps mem m9 := keeps_trans k8 kp
  refine ⟨k0, ?_⟩
  intro s1 hs1
  cases h0 : mem.db.services[mem.sv]? with
  | none =>
    have hlen := k0.2.2.2.2.2.2.2.2.1
    rw [List.getElem?_eq_none_iff] at h0
    have : m9.db.services[mem.sv]? = none := by
      rw [List.getElem?_eq_none_iff]; omega
    rw [this] at hs1
    cases hs1
  | some s00 =>
    obtain ⟨s8, hs8, en8⟩ := hI8.2 s00 h0
    have hsv : m8.sv = mem.sv := k8.2.2.2.2.2.2.2.1
    rw [hsv] at hp
    obtain ⟨s1', e1, en, hpay⟩ := hp s8 hs8
    rw [hs1] at e1
    cases e1
    rw [k8.1, k8.2.1] at hpay
    exact ⟨by rw [en, en8]; exact hgood, hpay⟩

theorem read_services_loop_offsets (n : Nat) :
    ∀ (mem m1 : Mem) (b b1 : List Byte) (u : Unit),
      s6rc_db_read_services_loop n mem b = .ok u m1 b1 →
      m1.db.string = mem.db.string ∧ m1.db.stringlen = mem.db.stringlen ∧
        m1.sv = mem.sv + n ∧
        (∀ j, j < mem.sv → m1.db.services[j]? = mem.db.services[j]?) ∧
        ∀ j s, mem.sv ≤ j → j < mem.sv + n → m1.db.services[j]? = some s →
          OffsetsUsedValid mem.db.string mem.db.stringlen s := by
  induction n with
  | zero =>
    intro mem m1 b b1 u h
    cases h
    exact ⟨rfl, rfl, rfl, fun _ _ => rfl, fun j s h1 h2 => by omega⟩
  | succ n ih =>
    intro mem m1 b b1 u h
    unfold s6rc_db_read_services_loop at h
    obtain ⟨_, ma, ba, ha, hxa⟩ := bind_ok_inv h
    clear h
    obtain ⟨_, mb, bb, hb, hxb⟩ := bind_ok_inv hxa
    clear hxa
    obtain ⟨rfl, rfl⟩ := marker_ok_inv _ _ _ _ _ hb
    obtain ⟨ka, hga⟩ := post_read_services_record mem _ _ ma _ ha
    obtain ⟨i1, i2, i3, i4, i5⟩ := ih _ _ _ _ _ hxb
    simp only at i1 i2 i3 i4 i5
    have hsv : ma.sv = mem.sv := ka.2.2.2.2.2.2.2.1
    rw [hsv] at i3 i4 i5
    rw [ka.1, ka.2.1] at i5
    refine ⟨i1.trans ka.1, i2.trans ka.2.1, by omega, ?_, ?_⟩
    · intro j hj
      rw [i4 j (by omega), ka.2.2.2.2.2.2.2.2.2 j (by omega)]
    · intro j s h1 h2 hs
      by_cases hj : j = mem.sv
      · subst hj
        rw [i4 _ (by omega)] at hs
        exact hga s hs
      · exact i5 j s (by omega) (by omega) hs

theorem read_services_ok_inv (mem m1 : Mem) (b b1 : List Byte) (r : Int)
    (h : s6rc_db_read_services mem b = .ok r m1 b1) :
    r = 1 ∧ m1.db.string = mem.db.string ∧ m1.db.stringlen = mem.db.stringlen ∧
      ∀ j s, j < wrap32 (mem.db.nshort + mem.db.nlong) → m1.db.services[j]? = some s →
        OffsetsUsedValid mem.db.string mem.db.stringlen s := by
  unfold s6rc_db_read_services s6rc_db_read_services_init at h
  rw [bind_assoc_M, bind_ok (getMem_apply _ _), bind_assoc_M, bind_ok (setMem_apply _ _ _),
    bind_ok (pure_apply _ _ _)] at h
  obtain ⟨_, ma, ba, ha, hxa⟩ := bind_ok_inv h
  clear h
  rw [bind_ok (getMem_apply _ _)] at hxa
  obtain ⟨_, mb, bb, hb, hxb⟩ := bind_ok_inv hxa
  clear hxa
  obtain ⟨_, rfl, rfl⟩ := returnIf_ok_inv hb
  cases hxb
  obtain ⟨i1, i2, _, _, i5⟩ := read_services_loop_offsets _ _ _ _ _ _ ha
  simp only at i1 i2 i5
  exact ⟨rfl, i1, i2, fun j s hj hs => i5 j s (by omega) (by omega) hs⟩

theorem read_buffer_ok_inv (bs be : List Byte) (mem memF : Mem) (b bF : List Byte) (r : Int)
    (h : s6rc_db_read_buffer bs be mem b = .ok r memF bF) :
    memF.db.stringlen = mem.db.stringlen ∧
      ∀ j s, j < wrap32 (mem.db.nshort + mem.db.nlong) → memF.db.services[j]? = some s →
        OffsetsUsedValid memF.db.string mem.db.stringlen s := by
  obtain ⟨b1, mem4, _, hstr, hrest⟩ := read_buffer_split bs be mem memF b bF r h
  obtain ⟨_, _, rfl⟩ := read_string_ok_inv hstr
  unfold s6rc_db_read_buffer_rest at hrest
  rw [bind_ok (returnIf_neg 1 _ _ (by decide))] at hrest
  obtain ⟨r6, m6, b6, h6, hx6⟩ := bind_ok_inv hrest
  clear hrest
  obtain ⟨rfl, deps, rfl⟩ := read_deps_ok_inv _ _ _ _ _ _ _ h6
  rw [bind_ok (returnIf_neg 1 _ _ (by decide))] at hx6
  obtain ⟨r8, m8, b8, h8, hx8⟩ := bind_ok_inv hx6
  clear hx6
  obtain ⟨rfl, i1, i2, i3⟩ := read_services_ok_inv _ _ _ _ _ h8
  rw [bind_ok (returnIf_neg 1 _ _ (by decide))] at hx8
  obtain ⟨y, m10, b10, h10, hx10⟩ := bind_ok_inv hx8
  clear hx8
  obtain ⟨_, _, rfl⟩ := buffer_get_or_ok_inv h10
  obtain ⟨_, m11, b11, h11, hx11⟩ := bind_ok_inv hx10
  clear hx10
  obtain ⟨_, rfl, rfl⟩ := returnIf_ok_inv h11
  cases hx11
  simp only at i1 i2 i3
  refine ⟨i2, ?_⟩
  intro j s hj hs
  rw [i1]
  exact i3 j s hj hs

/-- C1, the claim as stated fails: the example stream is accepted, and its first record, a
oneshot whose `down` group has `argc = 0`, keeps the offset `argv[1] = 77` although the pool
has `stringlen = 5` bytes. -/
theorem C1_counterexample :
    (readBuffer exStart exEnd exDb exStream).code = 1 ∧
      (readBuffer exStart exEnd exDb exStream).mem.db.services[0]? = some exOneshot ∧
      ¬ OffsetsValid (readBuffer exStart exEnd exDb exStream).mem.db.string exDb.stringlen
        exOneshot := by
  refine ⟨by rfl, by rfl, ?_⟩
  intro h
  have h2 : (77 : Nat) < 5 := h.2.2.1
  omega

/-- C1, amended: on every input on which `s6rc_db_read_services`, and so
`s6rc_db_read_buffer`, returns `1`, every decoded record has a name offset strictly less
than `stringlen` with a NUL in `[offset, stringlen)`, and so has the servicedir of a longrun
and the offset `argv[i]` of each argument group of a oneshot whose `argc[i]` is not `0`; the
offset of a group with `argc[i] = 0` is stored unchecked. -/
theorem C1_offsets (bs be : List Byte) (db : s6rc_db_t) (b : List Byte) :
    ((readServices db b).code = 1 →
      ∀ (i : Nat) (sv : s6rc_service_t), i < wrap32 (db.nshort + db.nlong) →
        (readServices db b).mem.db.services[i]? = some sv →
        OffsetsUsedValid db.string db.stringlen sv) ∧
    ((readBuffer bs be db b).code = 1 →
      ∀ (i : Nat) (sv : s6rc_service_t), i < wrap32 (db.nshort + db.nlong) →
        (readBuffer bs be db b).mem.db.services[i]? = some sv →
        OffsetsUsedValid (readBuffer bs be db b).mem.db.string db.stringlen sv) := by
  constructor
  · intro hc i sv hi hs
    obtain ⟨memF, bF, hx⟩ := ok_of_code_one rets_read_services hc
    have hx' : readServices db b = .ok 1 memF bF := hx
    rw [hx'] at hs
    obtain ⟨_, _, _, h3⟩ := read_services_ok_inv _ _ _ _ _ hx
    exact h3 i sv hi hs
  · intro hc i sv hi hs
    obtain ⟨memF, bF, hx⟩ := ok_of_code_one (rets_read_buffer bs be) hc
    have hx' : readBuffer bs be db b = .ok 1 memF bF := hx
    rw [hx'] at hs ⊢
    obtain ⟨_, h3⟩ := read_buffer_ok_inv bs be _ _ _ _ _ hx
    exact h3 i sv hi hs

/-- An instance of C1 on the example stream: the name and the `up` offset of the oneshot and
the name and the servicedir of the longrun are good offsets. -/
theorem C1_offsets_witness :
    OffsetsUsedValid (readBuffer exStart exEnd exDb exStream).mem.db.string exDb.stringlen
        exOneshot ∧
      OffsetsUsedValid (readBuffer exStart exEnd exDb exStream).mem.db.string exDb.stringlen
        exLongrun :=
  ⟨(C1_offsets exStart exEnd exDb exStream).2 (by rfl) 0 exOneshot (by decide) (by rfl),
    (C1_offsets exStart exEnd exDb exStream).2 (by rfl) 1 exLongrun (by decide) (by rfl)⟩

/-! ## Running the reader on an encoded service set (C3, C4) -/

theorem unpack_pack (x : Nat) (h : x < 2 ^ 32) :
    uint32_unpack_big (Fin.ofNat (x / 2 ^ 24)) (Fin.ofNat (x / 2 ^ 16)) (Fin.ofNat (x / 2 ^ 8))
      (Fin.ofNat x) = x := by
  simp only [uint32_unpack_big, Fin.ofNat]
  omega

theorem read_pack (code : Int) (mem : Mem) (x : Nat) (r : List Byte) (h : x < 2 ^ 32) :
    read_uint32_or code mem (uint32_pack_big x ++ r) = .ok x mem r := by
  simp only [read_uint32_or, uint32_pack_big, s6rc_db_read_uint32, List.cons_append,
    List.nil_append, unpack_pack x h]

theorem setSv_apply (f : s6rc_service_t → s6rc_service_t) (mem : Mem) (b : List Byte) :
    setSv f mem b = .ok () (withSv mem f) b := rfl

theorem withSv_withSv (mem : Mem) (F f : s6rc_service_t → s6rc_service_t) :
    withSv (withSv mem F) f = withSv mem (f ∘ F) := by
  simp only [withSv, List.modify_modify_eq]

theorem env_make_ok (string : List Byte) (stringlen : Nat) (argc : Nat) :
    ∀ (argvs : List (Option Nat)) (v pos len : Nat),
      s6rc_db_check_valid_strings string stringlen pos argc = true →
      (0 < argc → len = stringlen - pos) →
      (env_make string argc argvs v pos len).1 = true := by
  induction argc with
  | zero => intro _ _ _ _ _ _; rfl
  | succ argc ih =>
    intro argvs v pos len hv hlen
    simp only [s6rc_db_check_valid_strings] at hv
    have hv1 : s6rc_db_check_valid_string string stringlen pos = true := by
      by_contra hc
      simp [hc] at hv
    simp only [hv1, Bool.not_true, Bool.false_eq_true, if_false] at hv
    have hl := hlen (by omega)
    subst hl
    have hv1' := hv1
    unfold s6rc_db_check_valid_string str_nlen at hv1'
    have hp : ¬ pos ≥ stringlen := by
      intro hc
      simp [hc] at hv1'
    simp only [hp, if_false] at hv1'
    have hle := byte_chr_le (string.drop pos) (stringlen - pos) 0
    have hlt : byte_chr (string.drop pos) (stringlen - pos) 0 < stringlen - pos := by
      by_contra hc
      have : byte_chr (string.drop pos) (stringlen - pos) 0 = stringlen - pos := by omega
      simp [this] at hv1'
    rw [str_len_eq_byte_chr _ _ hlt] at hv
    simp only [env_make]
    rw [if_neg (by omega)]
    exact ih _ _ _ _ hv (fun _ => by omega)

theorem exec_argv (i : Nat) (mem : Mem) (argc argvpos : Nat) (r : List Byte)
    (hc : argc < 2 ^ 32) (hp : argvpos < 2 ^ 32) (hsl : mem.db.stringlen < 2 ^ 32)
    (hn : mem.nargvs < 2 ^ 32)
    (hvalid : s6rc_db_check_valid_strings mem.db.string mem.db.stringlen argvpos argc = true) :
    (argc < mem.nargvs → ∃ A,
      s6rc_db_read_services_argv i mem (uint32_pack_big argc ++ (uint32_pack_big argvpos ++ r)) =
        .ok () (withArgv mem (fun sv => { sv with x := sv.x.setGroup i argvpos argc }) A
          (argc + 1)) r) ∧
    (¬ argc < mem.nargvs → ∃ m2 b2,
      s6rc_db_read_services_argv i mem (uint32_pack_big argc ++ (uint32_pack_big argvpos ++ r)) =
        .ret 0 m2 b2) := by
  have hmade : (env_make mem.db.string argc mem.db.argvs mem.argvs argvpos
      (wrap32 (mem.db.stringlen + 2 ^ 32 - argvpos))).1 = true := by
    apply env_make_ok mem.db.string mem.db.stringlen argc _ _ _ _ hvalid
    intro h0
    have := (goodOffset_of_strings _ _ _ _ hvalid h0).1
    unfold wrap32
    omega
  have e : wrap32 (mem.nargvs - argc + 2 ^ 32 - 1) = mem.nargvs - (argc + 1) ∨
      mem.nargvs - argc = 0 := by
    unfold wrap32
    omega
  unfold s6rc_db_read_services_argv
  rw [bind_ok (read_pack _ _ _ _ hc), bind_ok (getMem_apply _ _)]
  by_cases h1 : argc > mem.nargvs
  · refine ⟨fun h => by omega, fun _ => ?_⟩
    exact ⟨_, _, bind_ret (returnIf_pos 0 _ _ h1)⟩
  · rw [bind_ok (returnIf_neg 0 _ _ h1), bind_ok (read_pack _ _ _ _ hp),
      bind_ok (returnIf_neg 0 _ _ (by rw [hvalid]; decide))]
    simp only
    rw [bind_ok (setMem_apply _ _ _),
      bind_ok (returnIf_neg (-1) _ _ (by rw [hmade]; decide)),
      bind_ok (setSv_apply _ _ _), bind_ok (setMem_apply _ _ _), bind_ok (getMem_apply _ _),
      bind_ok (setMem_apply _ _ _)]
    by_cases h2 : mem.nargvs - argc = 0
    · refine ⟨fun h => by omega, fun _ => ?_⟩
      exact ⟨_, _, bind_ret (returnIf_pos 0 _ _ (by exact h2))⟩
    · refine ⟨fun _ => ?_, fun h => by omega⟩
      rw [bind_ok (returnIf_neg 0 _ _ (by exact h2)), setMem_apply]
      refine ⟨((env_make mem.db.string argc mem.db.argvs mem.argvs argvpos
        (wrap32 (mem.db.stringlen + 2 ^ 32 - argvpos))).2).set (mem.argvs + argc) none, ?_⟩
      show Res.ok () (Mem.mk _ _ (wrap32 (mem.nargvs - argc + 2 ^ 32 - 1)) _) r = _
      rw [e.resolve_right h2]
      rfl

theorem withArgv_withSv (mem : Mem) (F f : s6rc_service_t → s6rc_service_t)
    (A : List (Option Nat)) (slots : Nat) :
    withArgv (withSv mem F) f A slots = withArgv mem (f ∘ F) A slots := by
  simp only [withArgv, withSv, List.modify_modify_eq]

theorem withArgv_withArgv (mem : Mem) (F f : s6rc_service_t → s6rc_service_t)
    (A A1 : List (Option Nat)) (slots slots1 : Nat) :
    withArgv (withArgv mem F A slots) f A1 slots1 = withArgv mem (f ∘ F) A1 (slots + slots1) := by
  simp only [withArgv, List.modify_modify_eq, Nat.sub_sub, Nat.add_assoc]

theorem withSv_eq_withArgv (mem : Mem) (F : s6rc_service_t → s6rc_service_t) :
    withSv mem F = withArgv mem F mem.db.argvs 0 := rfl

theorem buffer_get_one (code : Int) (mem : Mem) (x : Byte) (r : List Byte) :
    buffer_get_or 1 code mem (x :: r) = .ok [x] mem r := by
  simp [buffer_get_or]

theorem exec_payload (mem : Mem) (sv : s6rc_service_t) (r : List Byte)
    (hlen : mem.db.string.length = mem.db.stringlen) (hsl : mem.db.stringlen < 2 ^ 32)
    (hn : mem.nargvs < 2 ^ 32) (hwf : WfPayload mem.db.string sv) :
    (argvSlots sv ≤ mem.nargvs → ∃ A,
      s6rc_db_read_services_payload (Fin.ofNat sv.type) mem (encodePayload sv.x ++ r) =
        .ok () (withArgv mem (fun s => { s with type := sv.type, x := sv.x }) A (argvSlots sv))
          r) ∧
    (¬ argvSlots sv ≤ mem.nargvs → ∃ m2 b2,
      s6rc_db_read_services_payload (Fin.ofNat sv.type) mem (encodePayload sv.x ++ r) =
        .ret 0 m2 b2) := by
  unfold WfPayload at hwf
  unfold s6rc_db_read_services_payload argvSlots
  cases hx : sv.x with
  | longrun servicedir =>
    rw [hx] at hwf
    obtain ⟨ht, h32, hlt, hnul⟩ := hwf
    simp only
    rw [ht, if_pos (by decide)]
    refine ⟨fun _ => ?_, fun h => absurd (Nat.zero_le _) h⟩
    have hv : s6rc_db_check_valid_string mem.db.string mem.db.stringlen servicedir = true :=
      (check_valid_string_iff _ _ _).mpr ⟨by omega, by rw [← hlen]; exact hnul⟩
    simp only [encodePayload]
    rw [bind_ok (setSv_apply _ _ _), bind_ok (read_pack _ _ _ _ h32),
      bind_ok (setSv_apply _ _ _), withSv_withSv, bind_ok (getMem_apply _ _),
      returnIf_neg 0 _ _ (by rw [show (withSv mem _).db.string = mem.db.string from rfl,
        show (withSv mem _).db.stringlen = mem.db.stringlen from rfl, hv]; decide)]
    exact ⟨mem.db.argvs, rfl⟩
  | oneshot argc0 argc1 argv0 argv1 =>
    rw [hx] at hwf
    obtain ⟨ht, hc0, hc1, hv0, hv1, hp0, hp1⟩ := hwf
    rw [hlen] at hp0 hp1
    have hs0 := (check_valid_strings_iff _ _ _ _).mpr hp0
    have hs1 := (check_valid_strings_iff _ _ _ _).mpr hp1
    simp only
    rw [ht, if_neg (by decide)]
    simp only [encodePayload, List.append_assoc]
    rw [bind_ok (setSv_apply _ _ _)]
    obtain ⟨ok0, bad0⟩ := exec_argv 0 (withSv mem fun s => { s with type := 0 }) argc0 argv0
      (uint32_pack_big argc1 ++ (uint32_pack_big argv1 ++ r)) hc0 hv0 hsl hn hs0
    by_cases h0 : argc0 < mem.nargvs
    · obtain ⟨A0, e0⟩ := ok0 h0
      rw [bind_ok e0, withArgv_withSv]
      obtain ⟨ok1, bad1⟩ := exec_argv 1
        (withArgv mem ((fun s => { s with x := s.x.setGroup 0 argv0 argc0 }) ∘
          fun s => { s with type := 0 }) A0 (argc0 + 1)) argc1 argv1 r hc1 hv1 hsl
        (by show mem.nargvs - (argc0 + 1) < 2 ^ 32; omega) hs1
      by_cases h1 : argc1 < mem.nargvs - (argc0 + 1)
      · obtain ⟨A1, e1⟩ := ok1 h1
        refine ⟨fun _ => ⟨A1, ?_⟩, fun h => by omega⟩
        rw [e1, withArgv_withArgv]
        congr 2
        funext s
        simp only [Function.comp, setGroup_both]
      · obtain ⟨m2, b2, e1⟩ := bad1 h1
        exact ⟨fun h => by omega, fun _ => ⟨m2, b2, e1⟩⟩
    · obtain ⟨m2, b2, e0⟩ := bad0 h0
      exact ⟨fun h => by omega, fun _ => ⟨m2, b2, bind_ret e0⟩⟩

theorem modify_eq_set_of_const {α : Type} (G : α → α) (a : α) (hG : ∀ s, G s = a) :
    ∀ (l : List α) (n : Nat), List.modify G n l = l.set n a := by
  intro l
  induction l with
  | nil => intro n; cases n <;> rfl
  | cons x xs ih =>
    intro n
    cases n with
    | zero => simp [List.modify, hG]
    | succ n => simp [List.modify_succ_cons, ih]

theorem afterRecord_eq (mem : Mem) (sv : s6rc_service_t) (A : List (Option Nat))
    (G : s6rc_service_t → s6rc_service_t) (hG : ∀ s, G s = sv) :
    { withArgv mem G A (argvSlots sv) with sv := (withArgv mem G A (argvSlots sv)).sv + 1 } =
      afterRecord mem sv A := by
  simp only [withArgv, afterRecord, modify_eq_set_of_const G sv hG]

theorem record_stores_eq (sv s : s6rc_service_t) :
    ((fun s => { s with type := sv.type, x := sv.x }) ∘
      (fun s => { s with deps1 := sv.deps1 }) ∘ (fun s => { s with deps0 := sv.deps0 }) ∘
      (fun s => { s with ndeps1 := sv.ndeps1 }) ∘ (fun s => { s with ndeps0 := sv.ndeps0 }) ∘
      (fun s => { s with timeout1 := sv.timeout1 }) ∘ (fun s => { s with timeout0 := sv.timeout0 }) ∘
      (fun s => { s with flags := sv.flags }) ∘ (fun s => { s with name := sv.name })) s = sv := by
  cases s
  cases sv
  simp only [Function.comp_apply]

theorem exec_record (mem : Mem) (sv : s6rc_service_t) (r : List Byte)
    (hlen : mem.db.string.length = mem.db.stringlen) (hsl : mem.db.stringlen < 2 ^ 32)
    (hnd : mem.db.ndeps < 2 ^ 32) (hn : mem.nargvs < 2 ^ 32)
    (hwf : WfService mem.db.string mem.db.ndeps sv) :
    (argvSlots sv ≤ mem.nargvs → ∃ A,
      (s6rc_db_read_services_record >>= fun _ => s6rc_db_read_services_marker) mem
        (encodeService sv ++ r) = .ok () (afterRecord mem sv A) r) ∧
    (¬ argvSlots sv ≤ mem.nargvs → ∃ m2 b2,
      (s6rc_db_read_services_record >>= fun _ => s6rc_db_read_services_marker) mem
        (encodeService sv ++ r) = .ret 0 m2 b2) := by
  obtain ⟨w1, w2, w3, w4, ⟨w5, w5'⟩, w6, w7, w8⟩ := hwf
  have hv : s6rc_db_check_valid_string mem.db.string mem.db.stringlen sv.name = true :=
    (check_valid_string_iff _ _ _).mpr ⟨by omega, by rw [← hlen]; exact w5'⟩
  have e0 : wrap32 (sv.deps0 + sv.ndeps0) = sv.deps0 + sv.ndeps0 :=
    Nat.mod_eq_of_lt (by omega)
  have e1 : wrap32 (sv.deps1 + sv.ndeps1) = sv.deps1 + sv.ndeps1 :=
    Nat.mod_eq_of_lt (by omega)
  obtain ⟨okp, badp⟩ := exec_payload
    (withSv mem ((fun s => { s with deps1 := sv.deps1 }) ∘ (fun s => { s with deps0 := sv.deps0 }) ∘
      (fun s => { s with ndeps1 := sv.ndeps1 }) ∘ (fun s => { s with ndeps0 := sv.ndeps0 }) ∘
      (fun s => { s with timeout1 := sv.timeout1 }) ∘ (fun s => { s with timeout0 := sv.timeout0 }) ∘
      (fun s => { s with flags := sv.flags }) ∘ (fun s => { s with name := sv.name })))
    sv (254 :: r) hlen hsl hn w8
  have hhead : ∀ rest : List Byte,
      s6rc_db_read_services_record mem (encodeRecord sv ++ rest) =
        s6rc_db_read_services_payload (Fin.ofNat sv.type)
          (withSv mem ((fun s => { s with deps1 := sv.deps1 }) ∘
            (fun s => { s with deps0 := sv.deps0 }) ∘
            (fun s => { s with ndeps1 := sv.ndeps1 }) ∘ (fun s => { s with ndeps0 := sv.ndeps0 }) ∘
            (fun s => { s with timeout1 := sv.timeout1 }) ∘
            (fun s => { s with timeout0 := sv.timeout0 }) ∘
            (fun s => { s with flags := sv.flags }) ∘ (fun s => { s with name := sv.name })))
          (encodePayload sv.x ++ rest) := by
    intro rest
    unfold s6rc_db_read_services_record
    simp only [encodeRecord, List.append_assoc, List.cons_append]
    rw [bind_ok (read_pack _ _ _ _ w1), bind_ok (setSv_apply _ _ _), bind_ok (getMem_apply _ _),
      bind_ok (returnIf_neg 0 _ _ (by show ¬ sv.name ≥ mem.db.stringlen; omega)),
      bind_ok (returnIf_neg 0 _ _ (by
        show ¬ s6rc_db_check_valid_string mem.db.string mem.db.stringlen sv.name = false
        rw [hv]; decide)),
      bind_ok (read_pack _ _ _ _ w2), bind_ok (setSv_apply _ _ _), withSv_withSv,
      bind_ok (read_pack _ _ _ _ w3), bind_ok (setSv_apply _ _ _), withSv_withSv,
      bind_ok (read_pack _ _ _ _ w4), bind_ok (setSv_apply _ _ _), withSv_withSv,
      bind_ok (read_pack _ _ _ _ (by omega : sv.ndeps0 < 2 ^ 32)), bind_ok (setSv_apply _ _ _),
      withSv_withSv,
      bind_ok (read_pack _ _ _ _ (by omega : sv.ndeps1 < 2 ^ 32)), bind_ok (setSv_apply _ _ _),
      withSv_withSv,
      bind_ok (read_pack _ _ _ _ (by omega : sv.deps0 < 2 ^ 32)), bind_ok (setSv_apply _ _ _),
      withSv_withSv,
      bind_ok (returnIf_neg 0 _ _ (by
        show ¬ (sv.deps0 > mem.db.ndeps ∨ wrap32 (sv.deps0 + sv.ndeps0) > mem.db.ndeps)
        rw [e0]; omega)),
      bind_ok (read_pack _ _ _ _ (by omega : sv.deps1 < 2 ^ 32)), bind_ok (setSv_apply _ _ _),
      withSv_withSv,
      bind_ok (returnIf_neg 0 _ _ (by
        show ¬ (sv.deps1 > mem.db.ndeps ∨ wrap32 (sv.deps1 + sv.ndeps1) > mem.db.ndeps)
        rw [e1]; omega)),
      bind_ok (buffer_get_one _ _ _ _)]
    rfl
  have hsplit : encodeService sv ++ r = encodeRecord sv ++ (254 :: r) := by
    simp [encodeService]
  rw [hsplit]
  constructor
  · intro hroom
    obtain ⟨A, eA⟩ := okp hroom
    refine ⟨A, ?_⟩
    have hrec := hhead (254 :: r)
    rw [eA, withArgv_withSv] at hrec
    rw [bind_ok hrec, marker_cons, if_neg (by simp)]
    exact congrArg (fun m => Res.ok () m r) (afterRecord_eq mem sv A _ (record_stores_eq sv))
  · intro hroom
    obtain ⟨m2, b2, e2⟩ := badp hroom
    have hrec := hhead (254 :: r)
    rw [e2] at hrec
    exact ⟨m2, b2, bind_ret hrec⟩

theorem afterRecords_cons (mem : Mem) (sv : s6rc_service_t) (recs : List s6rc_service_t)
    (A A1 : List (Option Nat)) :
    afterRecords (afterRecord mem sv A) recs A1 = afterRecords mem (sv :: recs) A1 := by
  simp only [afterRecords, afterRecord, blockWrite, argvSlotsTotal, List.length_cons,
    Nat.sub_sub, Nat.add_assoc, Nat.add_comm 1]

theorem exec_loop (recs : List s6rc_service_t) :
    ∀ (mem : Mem) (r : List Byte),
      mem.db.string.length = mem.db.stringlen → mem.db.stringlen < 2 ^ 32 →
      mem.db.ndeps < 2 ^ 32 → mem.nargvs < 2 ^ 32 →
      (∀ sv ∈ recs, WfService mem.db.string mem.db.ndeps sv) →
      (argvSlotsTotal recs ≤ mem.nargvs → ∃ A,
        s6rc_db_read_services_loop recs.length mem (encodeServices recs ++ r) =
          .ok () (afterRecords mem recs A) r) ∧
      (¬ argvSlotsTotal recs ≤ mem.nargvs → ∃ m2 b2,
        s6rc_db_read_services_loop recs.length mem (encodeServices recs ++ r) =
          .ret 0 m2 b2) := by
  induction recs with
  | nil =>
    intro mem r _ _ _ _ _
    exact ⟨fun _ => ⟨mem.db.argvs, rfl⟩, fun h => absurd (Nat.zero_le _) h⟩
  | cons sv recs ih =>
    intro mem r hlen hsl hnd hn hwf
    have hstep : ∀ bb, s6rc_db_read_services_loop (sv :: recs).length mem bb =
        ((s6rc_db_read_services_record >>= fun _ => s6rc_db_read_services_marker) >>= fun _ =>
          s6rc_db_read_services_loop recs.length) mem bb := by
      intro bb
      simp only [List.length_cons, s6rc_db_read_services_loop, bind_assoc_M]
    have henc : encodeServices (sv :: recs) ++ r = encodeService sv ++ (encodeServices recs ++ r) := by
      simp [encodeServices]
    rw [hstep, henc]
    obtain ⟨ok1, bad1⟩ := exec_record mem sv (encodeServices recs ++ r) hlen hsl hnd hn
      (hwf sv (List.mem_cons_self _ _))
    simp only [argvSlotsTotal]
    by_cases h1 : argvSlots sv ≤ mem.nargvs
    · obtain ⟨A, e1⟩ := ok1 h1
      rw [bind_ok e1]
      obtain ⟨ok2, bad2⟩ := ih (afterRecord mem sv A) r hlen hsl hnd
        (by show mem.nargvs - argvSlots sv < 2 ^ 32; omega)
        (fun s hs => hwf s (List.mem_cons_of_mem _ hs))
      by_cases h2 : argvSlotsTotal recs ≤ mem.nargvs - argvSlots sv
      · obtain ⟨A1, e2⟩ := ok2 h2
        refine ⟨fun _ => ⟨A1, ?_⟩, fun h => by omega⟩
        rw [e2, afterRecords_cons]
      · obtain ⟨m2, b2, e2⟩ := bad2 h2
        exact ⟨fun h => by omega, fun _ => ⟨m2, b2, e2⟩⟩
    · obtain ⟨m2, b2, e1⟩ := bad1 h1
      exact ⟨fun h => by omega, fun _ => ⟨m2, b2, bind_ret e1⟩⟩

theorem exec_services (mem : Mem) (recs : List s6rc_service_t) (r : List Byte)
    (hlen : mem.db.string.length = mem.db.stringlen) (hsl : mem.db.stringlen < 2 ^ 32)
    (hnd : mem.db.ndeps < 2 ^ 32) (hn : mem.db.nargvs < 2 ^ 32)
    (hcount : wrap32 (mem.db.nshort + mem.db.nlong) = recs.length)
    (hwf : ∀ sv ∈ recs, WfService mem.db.string mem.db.ndeps sv) :
    (mem.db.nargvs = argvSlotsTotal recs → ∃ A,
      s6rc_db_read_services mem (encodeServices recs ++ r) =
        .ok 1 (afterRecords { mem with sv := 0, nargvs := mem.db.nargvs, argvs := 0 } recs A) r) ∧
    (mem.db.nargvs ≠ argvSlotsTotal recs → ∃ m2 b2,
      s6rc_db_read_services mem (encodeServices recs ++ r) = .ret 0 m2 b2) := by
  have hrun : ∀ bb, s6rc_db_read_services mem bb =
      (s6rc_db_read_services_loop recs.length >>= fun _ =>
        getMem >>= fun m => returnIf (m.nargvs ≠ 0) 0 >>= fun _ => (pure 1 : M Int))
        { mem with sv := 0, nargvs := mem.db.nargvs, argvs := 0 } bb := by
    intro bb
    unfold s6rc_db_read_services s6rc_db_read_services_init
    rw [bind_assoc_M, bind_ok (getMem_apply _ _), bind_assoc_M, bind_ok (setMem_apply _ _ _),
      bind_ok (pure_apply _ _ _), hcount]
  obtain ⟨ok1, bad1⟩ := exec_loop recs { mem with sv := 0, nargvs := mem.db.nargvs, argvs := 0 }
    r hlen hsl hnd hn hwf
  rw [hrun]
  by_cases h1 : argvSlotsTotal recs ≤ mem.db.nargvs
  · obtain ⟨A, e1⟩ := ok1 h1
    rw [bind_ok e1, bind_ok (getMem_apply _ _)]
    by_cases h2 : mem.db.nargvs - argvSlotsTotal recs = 0
    · refine ⟨fun _ => ⟨A, ?_⟩, fun h => by omega⟩
      rw [bind_ok (returnIf_neg 0 _ _ (by
        show ¬ (mem.db.nargvs - argvSlotsTotal recs ≠ 0)
        omega))]
      rfl
    · refine ⟨fun h => by omega, fun _ => ?_⟩
      exact ⟨_, _, bind_ret (returnIf_pos 0 _ _ (by exact h2))⟩
  · obtain ⟨m2, b2, e1⟩ := bad1 h1
    exact ⟨fun h => by omega, fun _ => ⟨m2, b2, bind_ret e1⟩⟩

theorem be32s_encode (deps : List Nat) (r : List Byte) (h : ∀ d ∈ deps, d < 2 ^ 32) :
    be32s deps.length (encodeDeps deps ++ r) = deps ∧
      (encodeDeps deps ++ r).drop (4 * deps.length) = r := by
  induction deps with
  | nil => simp [be32s, encodeDeps]
  | cons d l ih =>
    obtain ⟨i1, i2⟩ := ih (fun x hx => h x (List.mem_cons_of_mem _ hx))
    have hd := h d (List.mem_cons_self _ _)
    have henc : encodeDeps (d :: l) ++ r =
        Fin.ofNat (d / 2 ^ 24) :: Fin.ofNat (d / 2 ^ 16) :: Fin.ofNat (d / 2 ^ 8) ::
          Fin.ofNat d :: (encodeDeps l ++ r) := by
      simp [encodeDeps, uint32_pack_big]
    rw [henc]
    constructor
    · simp only [List.length_cons, be32s, unpack_pack d hd, i1]
    · have e4 : 4 * (d :: l).length = 4 * l.length + 1 + 1 + 1 + 1 := by
        simp only [List.length_cons]; omega
      rw [e4]
      simp only [List.drop_succ_cons]
      exact i2

theorem exec_deps (max ndeps : Nat) (mem : Mem) (deps : List Nat) (r : List Byte)
    (hnd : ndeps < 2 ^ 31) (hlen : deps.length = 2 * ndeps) (hmax : ∀ d ∈ deps, d < max)
    (h32 : ∀ d ∈ deps, d < 2 ^ 32) :
    s6rc_db_read_deps max ndeps mem (encodeDeps deps ++ r) =
      .ok 1 { mem with db := { mem.db with deps := blockWrite mem.db.deps 0 deps } } r := by
  obtain ⟨i1, i2⟩ := be32s_encode deps r h32
  rw [read_deps_eq, wrap32_shift ndeps hnd, ← hlen,
    read_deps_loop_ok max deps.length 0 mem _ (by rw [i1]) (by rw [i1]; exact hmax), i1, i2]

theorem buffer_get_exact (mem : Mem) (be : List Byte) :
    buffer_get_or be.length (-1) mem be = .ok be mem [] := by
  unfold buffer_get_or
  rw [if_neg (by simp)]
  simp

theorem exec_buffer (bs be : List Byte) (db : s6rc_db_t) (pool : List Byte) (deps : List Nat)
    (recs : List s6rc_service_t) (hwf : WfDb db pool deps recs) :
    (db.nargvs = argvSlotsTotal recs → ∃ memF,
      readBuffer bs be db (encodeDb bs be pool deps recs) = .ok 1 memF [] ∧
        memF.db.services = recs ∧ memF.db.string = pool ∧ memF.db.deps = deps) ∧
    (db.nargvs ≠ argvSlotsTotal recs → ∃ m2 b2,
      readBuffer bs be db (encodeDb bs be pool deps recs) = .ret 0 m2 b2) := by
  obtain ⟨w1, w2, w3, w4, w5, w6, w7, w8, w9, w10, w11, w12⟩ := hwf
  have hstr : db.string.drop db.stringlen = [] := List.drop_eq_nil_of_le (by omega)
  have hrun : readBuffer bs be db (encodeDb bs be pool deps recs) =
      (s6rc_db_read_services >>= fun r =>
        returnIf (r < 1) r >>= fun _ =>
          buffer_get_or be.length (-1) >>= fun banner =>
            returnIf (banner ≠ be) 0 >>= fun _ => (pure 1 : M Int))
        { db := { db with string := pool, deps := deps }, sv := 0, nargvs := 0, argvs := 0 }
        (encodeServices recs ++ be) := by
    unfold readBuffer encodeDb
    rw [read_buffer_after_banner, bind_ok (read_string_full _ _ pool _ w1),
      bind_ok (returnIf_neg 1 _ _ (by decide)),
      bind_ok (exec_deps _ _ _ deps _ w3 w4 (by
        intro d hd
        have := w5 d hd
        show d < wrap32 (db.nshort + db.nlong)
        rw [← w6, wrap32, Nat.mod_eq_of_lt w7]
        exact this) (fun d hd => by have := w5 d hd; omega)),
      bind_ok (returnIf_neg 1 _ _ (by decide))]
    simp only [hstr, List.append_nil, blockWrite_full db.deps deps (by omega)]
  obtain ⟨ok1, bad1⟩ := exec_services
    { db := { db with string := pool, deps := deps }, sv := 0, nargvs := 0, argvs := 0 }
    recs be w1 w2 (by show db.ndeps < 2 ^ 32; omega) w8
    (by show wrap32 (db.nshort + db.nlong) = recs.length
        rw [← w6, wrap32, Nat.mod_eq_of_lt w7]) w9
  rw [hrun]
  constructor
  · intro h
    obtain ⟨A, e1⟩ := ok1 h
    rw [bind_ok e1, bind_ok (returnIf_neg 1 _ _ (by decide)), bind_ok (buffer_get_exact _ _),
      bind_ok (returnIf_neg 0 _ _ (by simp))]
    exact ⟨_, rfl, blockWrite_full db.services recs (by omega), rfl, rfl⟩
  · intro h
    obtain ⟨m2, b2, e1⟩ := bad1 h
    exact ⟨m2, b2, bind_ret e1⟩

/-! ## The dependency ranges (C2), the argv accounting (C3) and the round trip (C4) -/

/-- C2, the failing input: the stream `exWrapStream` is accepted although its record has
`deps[0] + ndeps[0] = 1 + (2 ^ 32 - 1) > ndeps = 1`: the source adds the two `uint32` values
modulo `2 ^ 32`, and the sum wraps to `0`. -/
theorem C2_wrapped_range_accepted :
    (readBuffer exStart exEnd exWrapDb exWrapStream).code = 1 ∧
      (readBuffer exStart exEnd exWrapDb exWrapStream).mem.db.services[0]? =
        some exWrapLongrun ∧
      exWrapLongrun.deps0 ≤ exWrapDb.ndeps ∧
      ¬ (exWrapLongrun.deps0 + exWrapLongrun.ndeps0 ≤ exWrapDb.ndeps) ∧
      wrap32 (exWrapLongrun.deps0 + exWrapLongrun.ndeps0) = 0 := by
  refine ⟨by rfl, by rfl, by decide, by decide, by decide⟩

theorem exWfOneshot : WfService exPool 1 exOneshot := by
  refine ⟨by decide, by decide, by decide, by decide, ⟨by decide, 1, by decide, by decide, rfl⟩,
    by decide, by decide, ?_⟩
  refine ⟨rfl, by decide, by decide, by decide, by decide, ?_, ?_⟩
  · exact (check_valid_strings_iff exPool 5 2 1).mp (by decide)
  · exact (check_valid_strings_iff exPool 5 77 0).mp (by decide)

theorem exWfLongrun : WfService exPool 1 exLongrun := by
  refine ⟨by decide, by decide, by decide, by decide, ⟨by decide, 4, by decide, by decide, rfl⟩,
    by decide, by decide, ?_⟩
  exact ⟨rfl, by decide, by decide, 1, by decide, by decide, rfl⟩

theorem exWf (n : Nat) (hn : n < 2 ^ 32) :
    WfDb (exDbSlots n) exPool exDeps [exOneshot, exLongrun] := by
  have h1 : (exDbSlots n).stringlen = 5 := rfl
  have h2 : (exDbSlots n).ndeps = 1 := rfl
  refine ⟨rfl, by rw [h1]; decide, by rw [h2]; decide, rfl, by decide, rfl, by decide, hn, ?_,
    rfl, rfl, rfl⟩
  intro sv hsv
  simp only [List.mem_cons, List.mem_singleton, List.not_mem_nil, or_false] at hsv
  rcases hsv with rfl | rfl
  · exact exWfOneshot
  · exact exWfLongrun

/-- C3, the claim as stated fails: the example service set is well formed and the argument
counts of its oneshot groups sum to `1`, yet with `nargvs = 1` the reader returns `0`. -/
theorem C3_counterexample :
    WfDb (exDbSlots 1) exPool exDeps [exOneshot, exLongrun] ∧
      argcTotal [exOneshot, exLongrun] = (exDbSlots 1).nargvs ∧
      (readBuffer exStart exEnd (exDbSlots 1)
        (encodeDb exStart exEnd exPool exDeps [exOneshot, exLongrun])).code = 0 :=
  ⟨exWf 1 (by decide), by decide, by rfl⟩

/-- C3, amended: for every well-formed service set, the reader (`s6rc_db_read_buffer` on the
whole stream, `s6rc_db_read_services` on the records) returns `1` when the declared `nargvs`
equals the number of argv slots the records take, `argc + 1` for each group of every oneshot,
and returns `0` when it differs from that number, in particular by one in either
direction. -/
theorem C3_argv_exact (bs be : List Byte) (db : s6rc_db_t) (pool : List Byte) (deps : List Nat)
    (recs : List s6rc_service_t) (hwf : WfDb db pool deps recs) :
    (db.nargvs = argvSlotsTotal recs →
      (readBuffer bs be db (encodeDb bs be pool deps recs)).code = 1) ∧
    (db.nargvs ≠ argvSlotsTotal recs →
      (readBuffer bs be db (encodeDb bs be pool deps recs)).code = 0) ∧
    (∀ r : List Byte, db.string = pool →
      (db.nargvs = argvSlotsTotal recs →
        (readServices db (encodeServices recs ++ r)).code = 1) ∧
      (db.nargvs ≠ argvSlotsTotal recs →
        (readServices db (encodeServices recs ++ r)).code = 0)) := by
  obtain ⟨ok1, bad1⟩ := exec_buffer bs be db pool deps recs hwf
  refine ⟨?_, ?_, ?_⟩
  · intro h
    obtain ⟨memF, e, _⟩ := ok1 h
    rw [e]; rfl
  · intro h
    obtain ⟨m2, b2, e⟩ := bad1 h
    rw [e]; rfl
  · intro r hpool
    obtain ⟨w1, w2, w3, w4, w5, w6, w7, w8, w9, w10, w11, w12⟩ := hwf
    obtain ⟨ok2, bad2⟩ := exec_services { db := db, sv := 0, nargvs := 0, argvs := 0 } recs r
      w10 w2 (by show db.ndeps < 2 ^ 32; omega) w8
      (by show wrap32 (db.nshort + db.nlong) = recs.length
          rw [← w6, wrap32, Nat.mod_eq_of_lt w7])
      (by intro sv hsv
          show WfService db.string db.ndeps sv
          rw [hpool]
          exact w9 sv hsv)
    constructor
    · intro h
      obtain ⟨A, e⟩ := ok2 h
      unfold readServices
      rw [e]; rfl
    · intro h
      obtain ⟨m2, b2, e⟩ := bad2 h
      unfold readServices
      rw [e]; rfl

/-- An instance of C3 on the example service set, which takes `(1 + 1) + (0 + 1) = 3` argv
slots: accepted with `nargvs = 3`, rejected with `nargvs = 2` and with `nargvs = 4`. -/
theorem C3_argv_exact_witness :
    (readBuffer exStart exEnd (exDbSlots 3)
        (encodeDb exStart exEnd exPool exDeps [exOneshot, exLongrun])).code = 1 ∧
      (readBuffer exStart exEnd (exDbSlots 2)
        (encodeDb exStart exEnd exPool exDeps [exOneshot, exLongrun])).code = 0 ∧
      (readBuffer exStart exEnd (exDbSlots 4)
        (encodeDb exStart exEnd exPool exDeps [exOneshot, exLongrun])).code = 0 :=
  ⟨(C3_argv_exact exStart exEnd (exDbSlots 3) exPool exDeps [exOneshot, exLongrun]
      (exWf 3 (by decide))).1 (by decide),
    (C3_argv_exact exStart exEnd (exDbSlots 2) exPool exDeps [exOneshot, exLongrun]
      (exWf 2 (by decide))).2.1 (by decide),
    (C3_argv_exact exStart exEnd (exDbSlots 4) exPool exDeps [exOneshot, exLongrun]
      (exWf 4 (by decide))).2.1 (by decide)⟩

/-- C4: round trip. For every well-formed service set whose argv block has the size the
records take, `s6rc_db_read_buffer` on the stream start banner ++ string pool ++ dependency
table ++ records ++ end banner returns `1`, has read the whole stream, and leaves
`db->services` equal to the records, `db->string` to the pool and `db->deps` to the
dependency table. -/
theorem C4_round_trip (bs be : List Byte) (db : s6rc_db_t) (pool : List Byte) (deps : List Nat)
    (recs : List s6rc_service_t) (hwf : WfDb db pool deps recs)
    (hn : db.nargvs = argvSlotsTotal recs) :
    (readBuffer bs be db (encodeDb bs be pool deps recs)).code = 1 ∧
      (readBuffer bs be db (encodeDb bs be pool deps recs)).mem.db.services = recs ∧
      (readBuffer bs be db (encodeDb bs be pool deps recs)).mem.db.string = pool ∧
      (readBuffer bs be db (encodeDb bs be pool deps recs)).mem.db.deps = deps ∧
      (readBuffer bs be db (encodeDb bs be pool deps recs)).rest = [] := by
  obtain ⟨memF, e, h1, h2, h3⟩ := (exec_buffer bs be db pool deps recs hwf).1 hn
  rw [e]
  exact ⟨rfl, h1, h2, h3, rfl⟩

/-- An instance of C4: the example service set, a oneshot and a longrun. -/
theorem C4_round_trip_witness :
    (readBuffer exStart exEnd (exDbSlots 3)
        (encodeDb exStart exEnd exPool exDeps [exOneshot, exLongrun])).code = 1 ∧
      (readBuffer exStart exEnd (exDbSlots 3)
        (encodeDb exStart exEnd exPool exDeps [exOneshot, exLongrun])).mem.db.services =
        [exOneshot, exLongrun] :=
  have h := C4_round_trip exStart exEnd (exDbSlots 3) exPool exDeps [exOneshot, exLongrun]
    (exWf 3 (by decide)) (by decide)
  ⟨h.1, h.2.1⟩

/-! ## Exact accounting of the argv pool (C17) -/

theorem argvSlotsTotal_longrun (recs : List s6rc_service_t)
    (h : ∀ sv ∈ recs, ∃ servicedir, sv.x = .longrun servicedir) : argvSlotsTotal recs = 0 := by
  induction recs with
  | nil => rfl
  | cons sv l ih =>
    obtain ⟨sd, hsd⟩ := h sv (List.mem_cons_self _ _)
    simp only [argvSlotsTotal, argvSlots, hsd, Nat.zero_add]
    exact ih (fun s hs => h s (List.mem_cons_of_mem _ hs))

/-- C17: each oneshot argument group takes `argc + 1` slots of the argv pool, so on every
well-formed service set the reader (`s6rc_db_read_buffer` on the whole stream,
`s6rc_db_read_services` on the records) returns `1` if and only if the declared `nargvs`
equals the sum over the oneshot records of `(argc[0] + 1) + (argc[1] + 1)`; without a oneshot
record it returns `1` only for `nargvs = 0`. -/
theorem C17_argv_accounting (bs be : List Byte) (db : s6rc_db_t) (pool : List Byte)
    (deps : List Nat) (recs : List s6rc_service_t) (hwf : WfDb db pool deps recs) :
    ((readBuffer bs be db (encodeDb bs be pool deps recs)).code = 1 ↔
      db.nargvs = argvSlotsTotal recs) ∧
    (∀ r : List Byte, db.string = pool →
      ((readServices db (encodeServices recs ++ r)).code = 1 ↔
        db.nargvs = argvSlotsTotal recs)) ∧
    ((∀ sv ∈ recs, ∃ servicedir, sv.x = .longrun servicedir) →
      ((readBuffer bs be db (encodeDb bs be pool deps recs)).code = 1 ↔ db.nargvs = 0)) := by
  obtain ⟨ok1, bad1⟩ := exec_buffer bs be db pool deps recs hwf
  have hbuf : (readBuffer bs be db (encodeDb bs be pool deps recs)).code = 1 ↔
      db.nargvs = argvSlotsTotal recs := by
    constructor
    · intro hc
      by_contra hne
      obtain ⟨m2, b2, e⟩ := bad1 hne
      rw [e] at hc
      simp [Res.code] at hc
    · intro h
      obtain ⟨memF, e, _⟩ := ok1 h
      rw [e]; rfl
  refine ⟨hbuf, ?_, ?_⟩
  · intro r hpool
    obtain ⟨w1, w2, w3, w4, w5, w6, w7, w8, w9, w10, w11, w12⟩ := hwf
    obtain ⟨ok2, bad2⟩ := exec_services { db := db, sv := 0, nargvs := 0, argvs := 0 } recs r
      w10 w2 (by show db.ndeps < 2 ^ 32; omega) w8
      (by show wrap32 (db.nshort + db.nlong) = recs.length
          rw [← w6, wrap32, Nat.mod_eq_of_lt w7])
      (by intro sv hsv
          show WfService db.string db.ndeps sv
          rw [hpool]
          exact w9 sv hsv)
    constructor
    · intro hc
      by_contra hne
      obtain ⟨m2, b2, e⟩ := bad2 hne
      unfold readServices at hc
      rw [e] at hc
      simp [Res.code] at hc
    · intro h
      obtain ⟨A, e⟩ := ok2 h
      unfold readServices
      rw [e]; rfl
  · intro hlong
    rw [hbuf, argvSlotsTotal_longrun recs hlong]

/-- An instance of C17: the example service set takes `(1 + 1) + (0 + 1) = 3` slots, and the
reader accepts it with `nargvs = 3`. -/
theorem C17_argv_accounting_witness :
    argvSlotsTotal [exOneshot, exLongrun] = 3 ∧
      (readBuffer exStart exEnd (exDbSlots 3)
        (encodeDb exStart exEnd exPool exDeps [exOneshot, exLongrun])).code = 1 :=
  ⟨rfl, (C17_argv_accounting exStart exEnd (exDbSlots 3) exPool exDeps [exOneshot, exLongrun]
    (exWf 3 (by decide))).1.mpr (by decide)⟩

/-! ## The database after a rejected read (C11) -/

theorem sameShape_refl (db : s6rc_db_t) : SameShape db db :=
  ⟨rfl, rfl, rfl, rfl, rfl, rfl, rfl, rfl⟩

theorem sameShape_trans {a b c : s6rc_db_t} (h1 : SameShape a b) (h2 : SameShape b c) :
    SameShape a c := by
  obtain ⟨a1, a2, a3, a4, a5, a6, a7, a8⟩ := h1
  obtain ⟨b1, b2, b3, b4, b5, b6, b7, b8⟩ := h2
  exact ⟨b1.trans a1, b2.trans a2, b3.trans a3, b4.trans a4, b5.trans a5, b6.trans a6,
    b7.trans a7, b8.trans a8⟩

theorem shapes_bind {α β : Type} {m : M α} {f : α → M β} (hm : Shapes m)
    (hf : ∀ a, Shapes (f a)) : Shapes (m >>= f) := by
  intro mem b
  have h1 := hm mem b
  rw [bind_apply]
  cases hx : m mem b with
  | ok a mem1 b1 =>
    rw [hx] at h1
    exact sameShape_trans h1 (hf a mem1 b1)
  | ret c mem1 b1 =>
    rw [hx] at h1
    exact h1

theorem shapes_pure {α : Type} {a : α} : Shapes (pure a : M α) :=
  fun mem _ => sameShape_refl mem.db

theorem shapes_ret {α : Type} {code : Int} : Shapes (ret code : M α) :=
  fun mem _ => sameShape_refl mem.db

theorem shapes_returnIf {c : Prop} [Decidable c] {code : Int} : Shapes (returnIf c code) := by
  intro mem b
  by_cases hc : c
  · rw [returnIf_pos code mem b hc]; exact sameShape_refl _
  · rw [returnIf_neg code mem b hc]; exact sameShape_refl _

theorem shapes_getMem : Shapes getMem :=
  fun mem _ => sameShape_refl mem.db

theorem shapes_setMem {f : Mem → Mem} (h : ∀ mem, SameShape mem.db (f mem).db) :
    Shapes (setMem f) :=
  fun mem _ => h mem

theorem shapes_setSv {f : s6rc_service_t → s6rc_service_t} : Shapes (setSv f) :=
  shapes_setMem fun _ => ⟨rfl, rfl, rfl, rfl, rfl, rfl, by simp, rfl⟩

theorem shapes_read_uint32_or {code : Int} : Shapes (read_uint32_or code) := by
  intro mem b
  unfold read_uint32_or
  split <;> exact sameShape_refl _

theorem shapes_buffer_get_or {len : Nat} {code : Int} : Shapes (buffer_get_or len code) := by
  intro mem b
  unfold buffer_get_or
  split <;> exact sameShape_refl _

theorem shapes_read_string {len : Nat} : Shapes (s6rc_db_read_string len) := by
  intro mem b
  unfold s6rc_db_read_string
  simp only
  split <;> exact ⟨rfl, rfl, rfl, rfl, rfl, rfl, rfl, rfl⟩

theorem env_make_length (string : List Byte) (argc : Nat) :
    ∀ (argvs : List (Option Nat)) (v s len : Nat),
      (env_make string argc argvs v s len).2.length = argvs.length := by
  induction argc with
  | zero => intro _ _ _ _; rfl
  | succ argc ih =>
    intro argvs v s len
    simp only [env_make]
    split
    · rfl
    · rw [ih]; simp

theorem shapes_read_deps_loop (max n d : Nat) : Shapes (s6rc_db_read_deps_loop max n d) := by
  induction n generalizing d with
  | zero => exact shapes_pure
  | succ n ih =>
    unfold s6rc_db_read_deps_loop
    refine shapes_bind shapes_read_uint32_or fun _ => ?_
    refine shapes_bind shapes_returnIf fun _ => ?_
    refine shapes_bind (shapes_setMem fun _ => ⟨rfl, rfl, rfl, rfl, rfl, by simp, rfl, rfl⟩)
      fun _ => ?_
    exact ih _

theorem shapes_read_deps (max n : Nat) : Shapes (s6rc_db_read_deps max n) := by
  unfold s6rc_db_read_deps
  exact shapes_bind (shapes_read_deps_loop _ _ _) fun _ => shapes_pure

theorem shapes_local {f : Mem → Mem} (h : ∀ mem, (f mem).db = mem.db) : Shapes (setMem f) :=
  shapes_setMem fun mem => by rw [h mem]; exact sameShape_refl _

theorem shapes_bind_at {α β : Type} {m : M α} {f : α → M β} {mem : Mem} {b : List Byte}
    (hm : SameShape mem.db (m mem b).mem.db)
    (hf : ∀ a mem1 b1, m mem b = .ok a mem1 b1 → SameShape mem1.db (f a mem1 b1).mem.db) :
    SameShape mem.db ((m >>= f) mem b).mem.db := by
  rw [bind_apply]
  cases hx : m mem b with
  | ok a mem1 b1 =>
    rw [hx] at hm
    exact sameShape_trans hm (hf a mem1 b1 hx)
  | ret c mem1 b1 =>
    rw [hx] at hm
    exact hm

theorem shapes_read_services_argv (i : Nat) : Shapes (s6rc_db_read_services_argv i) := by
  intro mem b
  unfold s6rc_db_read_services_argv
  refine shapes_bind_at (shapes_read_uint32_or _ _) fun argc mem1 b1 h1 => ?_
  obtain ⟨_, _, _, _, _, _, rfl⟩ := read_uint32_or_ok_inv h1
  refine shapes_bind_at (shapes_getMem _ _) fun mem0 mem2 b2 h2 => ?_
  rw [getMem_apply] at h2
  cases h2
  refine shapes_bind_at (shapes_returnIf _ _) fun _ mem3 b3 h3 => ?_
  obtain ⟨_, rfl, rfl⟩ := returnIf_ok_inv h3
  refine shapes_bind_at (shapes_read_uint32_or _ _) fun argvpos mem4 b4 h4 => ?_
  obtain ⟨_, _, _, _, _, _, rfl⟩ := read_uint32_or_ok_inv h4
  refine shapes_bind_at (shapes_returnIf _ _) fun _ mem5 b5 h5 => ?_
  obtain ⟨_, rfl, rfl⟩ := returnIf_ok_inv h5
  refine shapes_bind_at ?_ fun _ mem6 b6 _ => ?_
  · rw [setMem_apply]
    exact ⟨rfl, rfl, rfl, rfl, rfl, rfl, rfl, env_make_length _ _ _ _ _ _⟩
  refine (shapes_bind shapes_returnIf fun _ => ?_) _ _
  refine shapes_bind shapes_setSv fun _ => ?_
  refine shapes_bind (shapes_local fun _ => rfl) fun _ => ?_
  refine shapes_bind shapes_getMem fun _ => ?_
  refine shapes_bind (shapes_local fun _ => rfl) fun _ => ?_
  refine shapes_bind shapes_returnIf fun _ => ?_
  exact shapes_setMem fun _ => ⟨rfl, rfl, rfl, rfl, rfl, rfl, rfl, by simp⟩

theorem shapes_read_services_payload (type : Byte) :
    Shapes (s6rc_db_read_services_payload type) := by
  unfold s6rc_db_read_services_payload
  split
  · refine shapes_bind shapes_setSv fun _ => ?_
    refine shapes_bind shapes_read_uint32_or fun _ => ?_
    refine shapes_bind shapes_setSv fun _ => ?_
    refine shapes_bind shapes_getMem fun _ => ?_
    exact shapes_returnIf
  · refine shapes_bind shapes_setSv fun _ => ?_
    refine shapes_bind (shapes_read_services_argv _) fun _ => ?_
    exact shapes_read_services_argv _

theorem shapes_read_services_record : Shapes s6rc_db_read_services_record := by
  unfold s6rc_db_read_services_record
  refine shapes_bind shapes_read_uint32_or fun _ => ?_
  refine shapes_bind shapes_setSv fun _ => ?_
  refine shapes_bind shapes_getMem fun _ => ?_
  refine shapes_bind shapes_returnIf fun _ => ?_
  refine shapes_bind shapes_returnIf fun _ => ?_
  refine shapes_bind shapes_read_uint32_or fun _ => ?_
  refine shapes_bind shapes_setSv fun _ => ?_
  refine shapes_bind shapes_read_uint32_or fun _ => ?_
  refine shapes_bind shapes_setSv fun _ => ?_
  refine shapes_bind shapes_read_uint32_or fun _ => ?_
  refine shapes_bind shapes_setSv fun _ => ?_
  refine shapes_bind shapes_read_uint32_or fun _ => ?_
  refine shapes_bind shapes_setSv fun _ => ?_
  refine shapes_bind shapes_read_uint32_or fun _ => ?_
  refine shapes_bind shapes_setSv fun _ => ?_
  refine shapes_bind shapes_read_uint32_or fun _ => ?_
  refine shapes_bind shapes_setSv fun _ => ?_
  refine shapes_bind shapes_returnIf fun _ => ?_
  refine shapes_bind shapes_read_uint32_or fun _ => ?_
  refine shapes_bind shapes_setSv fun _ => ?_
  refine shapes_bind shapes_returnIf fun _ => ?_
  refine shapes_bind shapes_buffer_get_or fun _ => ?_
  exact shapes_read_services_payload _

theorem shapes_read_services_marker : Shapes s6rc_db_read_services_marker := by
  unfold s6rc_db_read_services_marker
  refine shapes_bind shapes_buffer_get_or fun _ => ?_
  refine shapes_bind shapes_returnIf fun _ => ?_
  exact shapes_local fun _ => rfl

theorem shapes_read_services_loop (n : Nat) : Shapes (s6rc_db_read_services_loop n) := by
  induction n with
  | zero => exact shapes_pure
  | succ n ih =>
    unfold s6rc_db_read_services_loop
    refine shapes_bind shapes_read_services_record fun _ => ?_
    refine shapes_bind shapes_read_services_marker fun _ => ?_
    exact ih

theorem shapes_read_services : Shapes s6rc_db_read_services := by
  unfold s6rc_db_read_services s6rc_db_read_services_init
  refine shapes_bind ?_ fun _ => ?_
  · refine shapes_bind shapes_getMem fun _ => ?_
    refine shapes_bind (shapes_local fun _ => rfl) fun _ => ?_
    exact shapes_pure
  refine shapes_bind (shapes_read_services_loop _) fun _ => ?_
  refine shapes_bind shapes_getMem fun _ => ?_
  refine shapes_bind shapes_returnIf fun _ => ?_
  exact shapes_pure

theorem shapes_read_buffer (bs be : List Byte) : Shapes (s6rc_db_read_buffer bs be) := by
  unfold s6rc_db_read_buffer
  refine shapes_bind shapes_buffer_get_or fun _ => ?_
  refine shapes_bind shapes_returnIf fun _ => ?_
  refine shapes_bind shapes_getMem fun _ => ?_
  refine shapes_bind shapes_read_string fun _ => ?_
  refine shapes_bind shapes_returnIf fun _ => ?_
  refine shapes_bind (shapes_read_deps _ _) fun _ => ?_
  refine shapes_bind shapes_returnIf fun _ => ?_
  refine shapes_bind shapes_read_services fun _ => ?_
  refine shapes_bind shapes_returnIf fun _ => ?_
  refine shapes_bind shapes_buffer_get_or fun _ => ?_
  refine shapes_bind shapes_returnIf fun _ => ?_
  exact shapes_pure

/-- C11, counterexample: the stream `exBadStream` is rejected with `0` at the name offset `99`
of its second record, and the caller's database is not what it was before the call: the string
pool and the dependency block hold the bytes of the rejected stream, and the second record
holds the out-of-range name offset `99` (the pool has 5 bytes). -/
theorem C11_counterexample :
    (readBuffer exStart exEnd (exDbSlots 3) exBadStream).code = 0 ∧
      (readBuffer exStart exEnd (exDbSlots 3) exBadStream).mem.db ≠ exDbSlots 3 ∧
      (exDbSlots 3).string = [0, 0, 0, 0, 0] ∧
      (readBuffer exStart exEnd (exDbSlots 3) exBadStream).mem.db.string = exPool ∧
      (readBuffer exStart exEnd (exDbSlots 3) exBadStream).mem.db.deps = exDeps ∧
      ((readBuffer exStart exEnd (exDbSlots 3) exBadStream).mem.db.services.map
        fun sv => sv.name) = [0, 99] ∧
      (exDbSlots 3).stringlen = 5 := by
  have hs : (readBuffer exStart exEnd (exDbSlots 3) exBadStream).mem.db.string = exPool := by rfl
  refine ⟨by rfl, ?_, rfl, hs, by rfl, by rfl, rfl⟩
  intro h
  rw [h] at hs
  revert hs
  decide

/-- C11, amended: `s6rc_db_read_buffer` reads into the caller's database in place, so a
rejected read (result `0` or `-1`) may leave bytes and offsets of the rejected stream in the
string pool, the dependency block, the records and the argv pool. What every run, accepted or
rejected, leaves as it was is the shape of the database: the five counts and the sizes of the
dependency, record and argv blocks (and the size of the string pool when it is pre-sized to
`stringlen`). -/
theorem C11_rejected_keeps_shape (bs be : List Byte) (db : s6rc_db_t) (b : List Byte) :
    SameShape db (readBuffer bs be db b).mem.db :=
  shapes_read_buffer bs be _ b

/-! ## The reads of the string pool stay inside it (C18) -/

theorem range_succ_shift (k : Nat) : 0 :: (List.range k).map (· + 1) = List.range (k + 1) := by
  rw [List.range_succ_eq_map]

theorem byte_chr_reads_eq (s : List Byte) (n : Nat) (c : Byte) :
    byte_chr_reads s n c = List.range (min (byte_chr s n c + 1) n) := by
  induction s generalizing n with
  | nil =>
    cases n with
    | zero => simp [byte_chr_reads]
    | succ n => simp [byte_chr_reads, byte_chr]
  | cons x s ih =>
    cases n with
    | zero => simp [byte_chr_reads]
    | succ n =>
      simp only [byte_chr_reads, byte_chr]
      split
      · rw [show min (0 + 1) (n + 1) = 1 by omega]
        rfl
      · rw [ih, range_succ_shift]
        congr 1
        omega

theorem str_len_reads_eq (s : List Byte) : str_len_reads s = List.range (str_len s + 1) := by
  induction s with
  | nil => rfl
  | cons x s ih =>
    simp only [str_len_reads, str_len]
    split
    · rfl
    · rw [ih, range_succ_shift]

theorem check_valid_string_reads_lt (string : List Byte) (stringlen pos : Nat) :
    ∀ i ∈ s6rc_db_check_valid_string_reads string stringlen pos, i < stringlen := by
  intro i hi
  unfold s6rc_db_check_valid_string_reads at hi
  split at hi
  · simp at hi
  · rw [byte_chr_reads_eq] at hi
    simp only [List.mem_map, List.mem_range] at hi
    obtain ⟨j, hj, rfl⟩ := hi
    omega

/-- C18: on a pool of `stringlen` bytes, every byte `s6rc_db_check_valid_strings` reads, in
the bounded scan of the check and in the unbounded `str_len` of the advance, is at an index
below `stringlen`, and `pos` is at most `stringlen` after every advance, so below `2 ^ 32`
when `stringlen` is: the 32-bit sum has not wrapped. -/
theorem C18_reads_in_pool (string : List Byte) (stringlen pos n : Nat)
    (hlen : string.length = stringlen) :
    (∀ i ∈ s6rc_db_check_valid_strings_reads string stringlen pos n,
      i < stringlen ∧ i < string.length) ∧
    (∀ p ∈ s6rc_db_check_valid_strings_advances string stringlen pos n,
      p ≤ stringlen ∧ (stringlen < 2 ^ 32 → wrap32 p = p)) := by
  induction n generalizing pos with
  | zero =>
    simp [s6rc_db_check_valid_strings_reads, s6rc_db_check_valid_strings_advances]
  | succ n ih =>
    simp only [s6rc_db_check_valid_strings_reads, s6rc_db_check_valid_strings_advances]
    cases hv : s6rc_db_check_valid_string string stringlen pos with
    | false =>
      simp only [Bool.not_false, if_true, List.append_nil, List.not_mem_nil, false_imp_iff,
        implies_true, and_true]
      intro i hi
      have := check_valid_string_reads_lt string stringlen pos i hi
      omega
    | true =>
      obtain ⟨hlt, _⟩ := str_len_of_valid string stringlen pos hv
      obtain ⟨ih1, ih2⟩ := ih (pos + (str_len (string.drop pos) + 1))
      simp only [Bool.not_true, Bool.false_eq_true, if_false]
      constructor
      · intro i hi
        rw [List.mem_append, List.mem_append] at hi
        rcases hi with hi | hi | hi
        · have := check_valid_string_reads_lt string stringlen pos i hi
          omega
        · rw [str_len_reads_eq] at hi
          simp only [List.mem_map, List.mem_range] at hi
          obtain ⟨j, hj, rfl⟩ := hi
          omega
        · exact ih1 i hi
      · intro p hp
        rw [List.mem_cons] at hp
        rcases hp with rfl | hp
        · refine ⟨by omega, fun h32 => ?_⟩
          unfold wrap32
          exact Nat.mod_eq_of_lt (by omega)
        · exact ih2 p hp

/-- An instance of C18 on the pool `"a\0bc\0"`: checking two strings from offset 0 reads the
indices 0 to 4, some of them twice, and advances `pos` to 2 and to 5. -/
theorem C18_reads_in_pool_witness :
    s6rc_db_check_valid_strings_reads [97, 0, 98, 99, 0] 5 0 2 = [0, 1, 0, 1, 2, 3, 4, 2, 3, 4] ∧
    s6rc_db_check_valid_strings_advances [97, 0, 98, 99, 0] 5 0 2 = [2, 5] ∧
    ((∀ i ∈ s6rc_db_check_valid_strings_reads [97, 0, 98, 99, 0] 5 0 2,
      i < 5 ∧ i < ([97, 0, 98, 99, 0] : List Byte).length) ∧
    (∀ p ∈ s6rc_db_check_valid_strings_advances [97, 0, 98, 99, 0] 5 0 2,
      p ≤ 5 ∧ (5 < 2 ^ 32 → wrap32 p = p))) :=
  ⟨by decide, by decide, C18_reads_in_pool [97, 0, 98, 99, 0] 5 0 2 (by decide)⟩

/-! ## The cursor of the argv pool (C19) -/

theorem read_services_record_split :
    s6rc_db_read_services_record =
      s6rc_db_read_services_record_head >>= fun type =>
        s6rc_db_read_services_payload (type.headD 0) := by
  unfold s6rc_db_read_services_record s6rc_db_read_services_record_head
  simp only [bind_assoc_M]

theorem env_make_writes_mem (string : List Byte) (argc : Nat) :
    ∀ (v s len j : Nat), j ∈ env_make_writes string argc v s len → v ≤ j ∧ j < v + argc := by
  induction argc with
  | zero => intro v s len j hj; simp [env_make_writes] at hj
  | succ argc ih =>
    intro v s len j hj
    simp only [env_make_writes] at hj
    split at hj
    · simp at hj
    · rw [List.mem_cons] at hj
      rcases hj with rfl | hj
      · omega
      · have := ih _ _ _ _ hj
        omega

theorem thenWrites_mem {α : Type} {m : M α} {f : α → Mem → List Byte → List ArgvWrite}
    {mem : Mem} {b : List Byte} {w : ArgvWrite} (h : w ∈ thenWrites m f mem b) :
    ∃ a mem1 b1, m mem b = .ok a mem1 b1 ∧ w ∈ f a mem1 b1 := by
  unfold thenWrites at h
  split at h
  · rename_i a mem1 b1 hx
    exact ⟨a, mem1, b1, hx, h⟩
  · simp at h

theorem argv_writes_cursor (n : Nat) (hn : n < 2 ^ 32) (mem : Mem) (b : List Byte)
    (hc : Cursor n mem) :
    ∀ w ∈ s6rc_db_read_services_argv_writes mem b,
      w.slot < n ∧ w.consumed + w.remaining = n := by
  intro w hw
  obtain ⟨h1, h2⟩ := hc
  unfold s6rc_db_read_services_argv_writes at hw
  obtain ⟨argc, mem1, b1, hx1, hw1⟩ := thenWrites_mem hw
  clear hw
  obtain ⟨_, _, _, _, _, _, rfl⟩ := read_uint32_or_ok_inv hx1
  by_cases hargc : argc > mem1.nargvs
  · rw [if_pos hargc] at hw1
    simp at hw1
  rw [if_neg hargc] at hw1
  obtain ⟨argvpos, mem2, b2, hx2, hw2⟩ := thenWrites_mem hw1
  clear hw1
  by_cases hvalid :
      s6rc_db_check_valid_strings mem1.db.string mem1.db.stringlen argvpos argc = false
  · rw [if_pos hvalid] at hw2
    simp at hw2
  rw [if_neg hvalid, List.mem_append] at hw2
  rcases hw2 with hw3 | hw3
  · rw [List.mem_map] at hw3
    obtain ⟨j, hj, rfl⟩ := hw3
    have := env_make_writes_mem _ _ _ _ _ _ hj
    simp only
    omega
  · by_cases hmade : (env_make mem1.db.string argc mem1.db.argvs mem1.argvs argvpos
        (wrap32 (mem1.db.stringlen + 2 ^ 32 - argvpos))).1 = false
    · rw [if_pos hmade] at hw3
      simp at hw3
    rw [if_neg hmade] at hw3
    by_cases hne : mem1.nargvs - argc = 0
    · rw [if_pos hne] at hw3
      simp at hw3
    rw [if_neg hne, List.mem_singleton] at hw3
    subst hw3
    simp only
    have hw32 : wrap32 (mem1.nargvs - argc + 2 ^ 32 - 1) = mem1.nargvs - argc - 1 := by
      unfold wrap32
      rw [show mem1.nargvs - argc + 2 ^ 32 - 1 = (mem1.nargvs - argc - 1) + 2 ^ 32 by omega,
        Nat.add_mod_right]
      exact Nat.mod_eq_of_lt (by omega)
    rw [hw32]
    omega

theorem post_cursor_argv (n : Nat) (hn : n < 2 ^ 32) (i : Nat) (mem : Mem) (b : List Byte)
    (hc : Cursor n mem) :
    Post (s6rc_db_read_services_argv i) mem b fun _ m1 _ => Cursor n m1 := by
  obtain ⟨h1, h2⟩ := hc
  unfold s6rc_db_read_services_argv
  refine post_bind (post_read_uint32_or fun a0 a1 a2 a3 _ _ => ?_)
  refine post_bind (post_getMem ?_)
  refine post_bind (post_returnIf fun hargc => ?_)
  refine post_bind (post_read_uint32_or fun _ _ _ _ _ _ => ?_)
  refine post_bind (post_returnIf fun _ => ?_)
  refine post_bind (post_setMem ?_)
  refine post_bind (post_returnIf fun _ => ?_)
  refine post_bind (post_setSv ?_)
  refine post_bind (post_setMem ?_)
  refine post_bind (post_getMem ?_)
  refine post_bind (post_setMem ?_)
  refine post_bind (post_returnIf fun hne => ?_)
  refine post_setMem ?_
  refine ⟨h1, ?_⟩
  simp only at hne hargc ⊢
  generalize uint32_unpack_big a0 a1 a2 a3 = argc at hne hargc ⊢
  unfold wrap32
  rw [show mem.nargvs - argc + 2 ^ 32 - 1 = (mem.nargvs - argc - 1) + 2 ^ 32 by omega,
    Nat.add_mod_right, Nat.mod_eq_of_lt (by omega)]
  omega

theorem post_cursor_payload (n : Nat) (hn : n < 2 ^ 32) (type : Byte) (mem : Mem)
    (b : List Byte) (hc : Cursor n mem) :
    Post (s6rc_db_read_services_payload type) mem b fun _ m1 _ => Cursor n m1 := by
  unfold s6rc_db_read_services_payload
  split
  · refine post_bind (post_setSv_gen (P := Cursor n) hc fun m1 h1 => ?_)
    refine post_bind (post_read_uint32_or fun _ _ _ _ _ _ => ?_)
    refine post_bind (post_setSv_gen (P := Cursor n) h1 fun m2 h2 => ?_)
    refine post_bind (post_getMem ?_)
    exact post_returnIf fun _ => h2
  · refine post_bind (post_setSv_gen (P := Cursor n) hc fun m1 h1 => ?_)
    refine post_bind ?_
    refine post_mono (post_cursor_argv n hn 0 m1 b h1) fun _ m2 b2 h2 => ?_
    exact post_cursor_argv n hn 1 m2 b2 h2

theorem post_cursor_record_head (n : Nat) (mem : Mem) (b : List Byte) (hc : Cursor n mem) :
    Post s6rc_db_read_services_record_head mem b fun _ m1 _ => Cursor n m1 := by
  unfold s6rc_db_read_services_record_head
  refine post_bind (post_read_uint32_or fun _ _ _ _ _ _ => ?_)
  refine post_bind (post_setSv_gen (P := Cursor n) hc fun m1 h1 => ?_)
  refine post_bind (post_getMem ?_)
  refine post_bind (post_returnIf fun _ => ?_)
  refine post_bind (post_returnIf fun _ => ?_)
  refine post_bind (post_read_uint32_or fun _ _ _ _ _ _ => ?_)
  refine post_bind (post_setSv_gen (P := Cursor n) h1 fun m2 h2 => ?_)
  refine post_bind (post_read_uint32_or fun _ _ _ _ _ _ => ?_)
  refine post_bind (post_setSv_gen (P := Cursor n) h2 fun m3 h3 => ?_)
  refine post_bind (post_read_uint32_or fun _ _ _ _ _ _ => ?_)
  refine post_bind (post_setSv_gen (P := Cursor n) h3 fun m4 h4 => ?_)
  refine post_bind (post_read_uint32_or fun _ _ _ _ _ _ => ?_)
  refine post_bind (post_setSv_gen (P := Cursor n) h4 fun m5 h5 => ?_)
  refine post_bind (post_read_uint32_or fun _ _ _ _ _ _ => ?_)
  refine post_bind (post_setSv_gen (P := Cursor n) h5 fun m6 h6 => ?_)
  refine post_bind (post_read_uint32_or fun _ _ _ _ _ _ => ?_)
  refine post_bind (post_setSv_gen (P := Cursor n) h6 fun m7 h7 => ?_)
  refine post_bind (post_returnIf fun _ => ?_)
  refine post_bind (post_read_uint32_or fun _ _ _ _ _ _ => ?_)
  refine post_bind (post_setSv_gen (P := Cursor n) h7 fun m8 h8 => ?_)
  refine post_bind (post_returnIf fun _ => ?_)
  exact post_buffer_get_or fun _ _ _ _ => h8

theorem post_cursor_record (n : Nat) (hn : n < 2 ^ 32) (mem : Mem) (b : List Byte)
    (hc : Cursor n mem) :
    Post s6rc_db_read_services_record mem b fun _ m1 _ => Cursor n m1 := by
  rw [read_services_record_split]
  refine post_bind ?_
  refine post_mono (post_cursor_record_head n mem b hc) fun type m1 b1 h1 => ?_
  exact post_cursor_payload n hn _ m1 b1 h1

theorem post_cursor_marker (n : Nat) (mem : Mem) (b : List Byte) (hc : Cursor n mem) :
    Post s6rc_db_read_services_marker mem b fun _ m1 _ => Cursor n m1 := by
  unfold s6rc_db_read_services_marker
  refine post_bind (post_buffer_get_or fun _ _ _ _ => ?_)
  refine post_bind (post_returnIf fun _ => ?_)
  exact post_setMem hc

theorem payload_writes_cursor (n : Nat) (hn : n < 2 ^ 32) (type : Byte) (mem : Mem)
    (b : List Byte) (hc : Cursor n mem) :
    ∀ w ∈ s6rc_db_read_services_payload_writes type mem b,
      w.slot < n ∧ w.consumed + w.remaining = n := by
  intro w hw
  unfold s6rc_db_read_services_payload_writes at hw
  by_cases ht : type ≠ 0
  · rw [if_pos ht] at hw
    simp at hw
  rw [if_neg ht] at hw
  obtain ⟨_, mem1, b1, hx1, hw1⟩ := thenWrites_mem hw
  clear hw
  rw [setSv_apply] at hx1
  cases hx1
  rw [List.mem_append] at hw1
  rcases hw1 with hw2 | hw2
  · refine argv_writes_cursor n hn _ _ ?_ w hw2
    exact hc
  · obtain ⟨_, mem2, b2, hx2, hw3⟩ := thenWrites_mem hw2
    refine argv_writes_cursor n hn mem2 b2 (post_cursor_argv n hn 0 _ _ ?_ _ _ _ hx2) w hw3
    exact hc

theorem record_writes_cursor (n : Nat) (hn : n < 2 ^ 32) (mem : Mem) (b : List Byte)
    (hc : Cursor n mem) :
    ∀ w ∈ s6rc_db_read_services_record_writes mem b,
      w.slot < n ∧ w.consumed + w.remaining = n := by
  intro w hw
  unfold s6rc_db_read_services_record_writes at hw
  obtain ⟨type, mem1, b1, hx1, hw1⟩ := thenWrites_mem hw
  exact payload_writes_cursor n hn _ mem1 b1 (post_cursor_record_head n mem b hc _ _ _ hx1) w hw1

theorem loop_writes_cursor (n : Nat) (hn : n < 2 ^ 32) (k : Nat) :
    ∀ (mem : Mem) (b : List Byte), Cursor n mem →
      ∀ w ∈ s6rc_db_read_services_loop_writes k mem b,
        w.slot < n ∧ w.consumed + w.remaining = n := by
  induction k with
  | zero => intro mem b _ w hw; simp [s6rc_db_read_services_loop_writes] at hw
  | succ k ih =>
    intro mem b hc w hw
    simp only [s6rc_db_read_services_loop_writes, List.mem_append] at hw
    rcases hw with hw1 | hw1
    · exact record_writes_cursor n hn mem b hc w hw1
    · obtain ⟨_, mem2, b2, hx2, hw2⟩ := thenWrites_mem hw1
      obtain ⟨_, mem1, b1, hx1, hx3⟩ := bind_ok_inv hx2
      have hc1 := post_cursor_record n hn mem b hc _ _ _ hx1
      have hc2 := post_cursor_marker n mem1 b1 hc1 _ _ _ hx3
      exact ih mem2 b2 hc2 w hw2

/-- C19: for every input stream and every database whose `nargvs` is an `unsigned int`, at
every store `s6rc_db_read_services` makes into the argv pool (the argument pointers that
`env_make` writes for a group, and the null slot `*argvs++ = 0` that ends it) the slots
consumed `argvs - db->argvs` plus the remaining capacity `nargvs` is the declared
`db->nargvs`, and the slot written has an index below `db->nargvs`. -/
theorem C19_argv_cursor (db : s6rc_db_t) (b : List Byte) (hn : db.nargvs < 2 ^ 32) :
    ∀ w ∈ readServicesWrites db b,
      w.slot < db.nargvs ∧ w.consumed + w.remaining = db.nargvs := by
  intro w hw
  unfold readServicesWrites s6rc_db_read_services_writes at hw
  obtain ⟨k, mem1, b1, hx1, hw1⟩ := thenWrites_mem hw
  have hx : s6rc_db_read_services_init { db := db, sv := 0, nargvs := 0, argvs := 0 } b =
      .ok (wrap32 (db.nshort + db.nlong))
        { db := db, sv := 0, nargvs := db.nargvs, argvs := 0 } b := rfl
  rw [hx] at hx1
  cases hx1
  exact loop_writes_cursor db.nargvs hn _ _ _ ⟨rfl, by simp⟩ w hw1

/-- An instance of C19: reading the two example records into a pool of 3 slots stores into
slot 0 (the argument of the first group), slot 1 (its null slot) and slot 2 (the null slot of
the empty second group). -/
theorem C19_argv_cursor_witness :
    readServicesWrites (exDbSlots 3) (encodeServices [exOneshot, exLongrun]) =
      [⟨0, 0, 3⟩, ⟨1, 2, 1⟩, ⟨2, 3, 0⟩] ∧
    ∀ w ∈ readServicesWrites (exDbSlots 3) (encodeServices [exOneshot, exLongrun]),
      w.slot < (exDbSlots 3).nargvs ∧ w.consumed + w.remaining = (exDbSlots 3).nargvs :=
  ⟨by rfl, C19_argv_cursor (exDbSlots 3) (encodeServices [exOneshot, exLongrun]) (by decide)⟩

/-! ## The reconciler `s6rc_servicedir_manage` (C12 to C16) -/

theorem manage_down_keeps (env : Env) (d : List Byte) (st : St) :
    (s6rc_servicedir_manage_down env d st).2.fs.scandir = st.fs.scandir ∧
      (s6rc_servicedir_manage_down env d st).2.fs.servicedirs = st.fs.servicedirs := by
  unfold s6rc_servicedir_manage_down
  simp only
  split
  · exact ⟨rfl, rfl⟩
  · split
    · exact ⟨rfl, rfl⟩
    · split
      · exact ⟨rfl, rfl⟩
      · split <;> exact ⟨rfl, rfl⟩

theorem manage_symlink_existing (env : Env) (live d : List Byte) (st : St)
    (h : d ∈ st.fs.scandir.map Prod.fst) :
    s6rc_servicedir_manage_symlink env live d st = (some EEXIST, st.call (.symlink d)) := by
  unfold s6rc_servicedir_manage_symlink
  simp only
  rw [if_pos (by exact h)]

theorem manage_symlink_keys (env : Env) (live d : List Byte) (st : St) :
    ((s6rc_servicedir_manage_symlink env live d st).1 = none →
      d ∈ (s6rc_servicedir_manage_symlink env live d st).2.fs.scandir.map Prod.fst) ∧
    (∀ x, x ∈ st.fs.scandir.map Prod.fst →
      x ∈ (s6rc_servicedir_manage_symlink env live d st).2.fs.scandir.map Prod.fst) ∧
    (s6rc_servicedir_manage_symlink env live d st).2.fs.servicedirs = st.fs.servicedirs := by
  unfold s6rc_servicedir_manage_symlink
  simp only
  split
  · rename_i h
    exact ⟨fun hn => (by cases hn), fun x hx => hx, rfl⟩
  · split
    · exact ⟨fun hn => (by cases hn), fun x hx => hx, rfl⟩
    · refine ⟨fun _ => ?_, fun x hx => ?_, rfl⟩
      · simp [St.call]
      · simp only [List.map_append, List.mem_append]
        exact Or.inl hx

/-- What the body of the loop does for an entry `d`, by the result `r` of the probe and the
state `st2` after the block under `if (!r)`. -/
theorem manage_entry_eq (env : Env) (live d : List Byte) (st : St)
    (hr : ¬ (env.s6_svc_ok d).1 < 0) :
    ∃ st2 : St,
      (if (env.s6_svc_ok d).1 = 0 then s6rc_servicedir_manage_down env d (st.call (.s6_svc_ok d))
        else (none, st.call (.s6_svc_ok d))).2 = st2 ∧
      st2.fs.scandir = st.fs.scandir ∧ st2.fs.servicedirs = st.fs.servicedirs ∧
      (((if (env.s6_svc_ok d).1 = 0 then
            s6rc_servicedir_manage_down env d (st.call (.s6_svc_ok d))
          else (none, st.call (.s6_svc_ok d))).1 ≠ none ∧
          s6rc_servicedir_manage_entry env live d st =
            ((if (env.s6_svc_ok d).1 = 0 then
                s6rc_servicedir_manage_down env d (st.call (.s6_svc_ok d))
              else (none, st.call (.s6_svc_ok d))).1, st2)) ∨
        ((if (env.s6_svc_ok d).1 = 0 then
            s6rc_servicedir_manage_down env d (st.call (.s6_svc_ok d))
          else (none, st.call (.s6_svc_ok d))).1 = none ∧
          s6rc_servicedir_manage_entry env live d st =
            (match s6rc_servicedir_manage_symlink env live d st2 with
              | (some e, st3) =>
                if (env.s6_svc_ok d).1 = 0 ∨ e ≠ EEXIST then (some e, st3) else (none, st3)
              | (none, st3) => (none, st3)))) := by
  unfold s6rc_servicedir_manage_entry
  simp only [if_neg hr]
  generalize hx : (if (env.s6_svc_ok d).1 = 0 then
      s6rc_servicedir_manage_down env d (st.call (.s6_svc_ok d))
    else (none, st.call (.s6_svc_ok d))) = x
  have hkeep : x.2.fs.scandir = st.fs.scandir ∧ x.2.fs.servicedirs = st.fs.servicedirs := by
    rw [← hx]
    split
    · exact manage_down_keeps env d _
    · exact ⟨rfl, rfl⟩
  obtain ⟨err, st2⟩ := x
  refine ⟨st2, rfl, hkeep.1, hkeep.2, ?_⟩
  cases err with
  | none =>
    exact Or.inr ⟨rfl, rfl⟩
  | some e => exact Or.inl ⟨by simp, rfl⟩

theorem manage_symlink_cases (env : Env) (live d : List Byte) (st : St) :
    (d ∈ st.fs.scandir.map Prod.fst ∧
      s6rc_servicedir_manage_symlink env live d st = (some EEXIST, st.call (.symlink d))) ∨
    (∃ e, env.symlink d = some e ∧
      s6rc_servicedir_manage_symlink env live d st = (some e, st.call (.symlink d))) ∨
    (∃ st3 : St, s6rc_servicedir_manage_symlink env live d st = (none, st3) ∧
      d ∈ st3.fs.scandir.map Prod.fst) := by
  by_cases h : d ∈ st.fs.scandir.map Prod.fst
  · exact Or.inl ⟨h, manage_symlink_existing env live d st h⟩
  · right
    unfold s6rc_servicedir_manage_symlink
    simp only
    rw [if_neg (by exact h)]
    cases hs : env.symlink d with
    | some e => exact Or.inl ⟨e, rfl, rfl⟩
    | none => exact Or.inr ⟨_, rfl, by simp [St.call]⟩

theorem manage_entry_facts (env : Env) (live d : List Byte) (st : St) :
    (∀ x, x ∈ st.fs.scandir.map Prod.fst →
      x ∈ (s6rc_servicedir_manage_entry env live d st).2.fs.scandir.map Prod.fst) ∧
    (s6rc_servicedir_manage_entry env live d st).2.fs.servicedirs = st.fs.servicedirs ∧
    ((s6rc_servicedir_manage_entry env live d st).1 = none → env.symlink d ≠ some EEXIST →
      d ∈ (s6rc_servicedir_manage_entry env live d st).2.fs.scandir.map Prod.fst) := by
  by_cases hr : (env.s6_svc_ok d).1 < 0
  · have e : s6rc_servicedir_manage_entry env live d st =
        (some (env.s6_svc_ok d).2, st.call (.s6_svc_ok d)) := by
      unfold s6rc_servicedir_manage_entry
      simp only [if_pos hr]
    rw [e]
    exact ⟨fun x hx => hx, rfl, fun h => (by cases h)⟩
  · obtain ⟨st2, _, hsc, hsd, hcase⟩ := manage_entry_eq env live d st hr
    rcases hcase with ⟨hne, heq⟩ | ⟨_, heq⟩
    · rw [heq]
      refine ⟨fun x hx => ?_, hsd, fun h => absurd h hne⟩
      rw [hsc]
      exact hx
    · rw [heq]
      have hk := manage_symlink_keys env live d st2
      rcases manage_symlink_cases env live d st2 with ⟨hin, e1⟩ | ⟨e, he, e1⟩ | ⟨st3, e1, hin⟩
      · rw [e1] at hk ⊢
        simp only
        split
        · refine ⟨fun x hx => hk.2.1 x (hsc ▸ hx), hk.2.2.trans hsd, fun h => (by cases h)⟩
        · exact ⟨fun x hx => hk.2.1 x (hsc ▸ hx), hk.2.2.trans hsd, fun _ _ => hin⟩
      · rw [e1] at hk ⊢
        simp only
        split
        · refine ⟨fun x hx => hk.2.1 x (hsc ▸ hx), hk.2.2.trans hsd, fun h => (by cases h)⟩
        · rename_i hor
          refine ⟨fun x hx => hk.2.1 x (hsc ▸ hx), hk.2.2.trans hsd, fun _ hsym => ?_⟩
          have : e = EEXIST := by
            by_contra hne
            exact hor (Or.inr hne)
          rw [he, this] at hsym
          exact absurd rfl hsym
      · rw [e1] at hk ⊢
        exact ⟨fun x hx => hk.2.1 x (hsc ▸ hx), hk.2.2.trans hsd, fun _ _ => hin⟩

/-- An entry that is supervised and has an entry in the scan directory already: the probe and
the failing `symlink` are the only calls, and nothing changes. -/
theorem manage_entry_live_existing (env : Env) (live d : List Byte) (st : St)
    (hr : 0 < (env.s6_svc_ok d).1) (hin : d ∈ st.fs.scandir.map Prod.fst) :
    s6rc_servicedir_manage_entry env live d st =
      (none, (st.call (.s6_svc_ok d)).call (.symlink d)) := by
  unfold s6rc_servicedir_manage_entry
  simp only
  rw [if_neg (by omega), if_neg (by omega)]
  simp only
  rw [manage_symlink_existing env live d _ (by exact hin)]
  simp only
  rw [if_neg]
  intro h
  rcases h with h | h
  · omega
  · exact h rfl

/-- An entry that is not supervised and has an entry in the scan directory already: the body
ends in `goto err`, with `EEXIST` when the block under `if (!r)` has not failed before. -/
theorem manage_entry_down_existing (env : Env) (live d : List Byte) (st : St)
    (hr : (env.s6_svc_ok d).1 = 0) (hin : d ∈ st.fs.scandir.map Prod.fst) :
    ∃ e, (s6rc_servicedir_manage_entry env live d st).1 = some e ∧
      ((s6rc_servicedir_manage_down env d (st.call (.s6_svc_ok d))).1 = none → e = EEXIST) := by
  unfold s6rc_servicedir_manage_entry
  simp only
  rw [if_neg (by omega), if_pos hr]
  have hk := (manage_down_keeps env d (st.call (.s6_svc_ok d))).1
  cases hd : s6rc_servicedir_manage_down env d (st.call (.s6_svc_ok d)) with
  | mk err st2 =>
    rw [hd] at hk
    cases err with
    | some e => exact ⟨e, rfl, fun h => (by cases h)⟩
    | none =>
      simp only
      rw [manage_symlink_existing env live d st2 (by rw [hk]; exact hin)]
      simp only
      rw [if_pos (Or.inl hr)]
      exact ⟨EEXIST, rfl, fun _ => rfl⟩

theorem manage_scan_facts (env : Env) (live : List Byte) (rest : List (List Byte)) :
    ∀ (k : Nat) (st : St),
      (∀ x, x ∈ st.fs.scandir.map Prod.fst →
        x ∈ (s6rc_servicedir_manage_scan env live rest k st).2.fs.scandir.map Prod.fst) ∧
      (s6rc_servicedir_manage_scan env live rest k st).2.fs.servicedirs = st.fs.servicedirs ∧
      ((s6rc_servicedir_manage_scan env live rest k st).1 = none →
        (∀ d, env.symlink d ≠ some EEXIST) →
        ∀ d ∈ rest, d.head? ≠ some 46 →
          d ∈ (s6rc_servicedir_manage_scan env live rest k st).2.fs.scandir.map Prod.fst) := by
  induction rest with
  | nil =>
    intro k st
    simp only [s6rc_servicedir_manage_scan]
    split
    · exact ⟨fun x hx => hx, rfl, fun _ _ d hd => by simp at hd⟩
    · exact ⟨fun x hx => hx, rfl, fun _ _ d hd => by simp at hd⟩
  | cons d0 rest ih =>
    intro k st
    simp only [s6rc_servicedir_manage_scan]
    split
    · exact ⟨fun x hx => hx, rfl, fun h => (by cases h)⟩
    · split
      · rename_i hdot
        obtain ⟨i1, i2, i3⟩ := ih (k + 1) (st.call .readdir)
        refine ⟨i1, i2, fun hn hsym d hd hnd => ?_⟩
        rw [List.mem_cons] at hd
        rcases hd with rfl | hd
        · exact absurd hdot hnd
        · exact i3 hn hsym d hd hnd
      · obtain ⟨f1, f2, f3⟩ := manage_entry_facts env live d0 (st.call .readdir)
        cases he : s6rc_servicedir_manage_entry env live d0 (st.call .readdir) with
        | mk err st1 =>
          rw [he] at f1 f2 f3
          cases err with
          | some e => exact ⟨f1, f2, fun h => (by cases h)⟩
          | none =>
            simp only
            obtain ⟨i1, i2, i3⟩ := ih (k + 1) st1
            refine ⟨fun x hx => i1 x (f1 x hx), i2.trans f2, fun hn hsym d hd hnd => ?_⟩
            rw [List.mem_cons] at hd
            rcases hd with rfl | hd
            · exact i1 _ (f3 rfl (hsym _))
            · exact i3 hn hsym d hd hnd

theorem manage_scan_fails (env : Env) (live d : List Byte) (hnd : d.head? ≠ some 46)
    (hr : (env.s6_svc_ok d).1 = 0) (rest : List (List Byte)) :
    ∀ (k : Nat) (st : St), d ∈ rest → d ∈ st.fs.scandir.map Prod.fst →
      (s6rc_servicedir_manage_scan env live rest k st).1 ≠ none := by
  induction rest with
  | nil => intro k st hd; simp at hd
  | cons d0 rest ih =>
    intro k st hd hin
    simp only [s6rc_servicedir_manage_scan]
    split
    · simp
    · split
      · rename_i hdot
        rw [List.mem_cons] at hd
        rcases hd with rfl | hd
        · exact absurd hdot hnd
        · exact ih (k + 1) _ hd hin
      · obtain ⟨f1, _, _⟩ := manage_entry_facts env live d0 (st.call .readdir)
        cases he : s6rc_servicedir_manage_entry env live d0 (st.call .readdir) with
        | mk err st1 =>
          rw [he] at f1
          cases err with
          | some e => simp
          | none =>
            simp only
            rw [List.mem_cons] at hd
            rcases hd with rfl | hd
            · obtain ⟨e, h1, _⟩ := manage_entry_down_existing env live d (st.call .readdir) hr hin
              rw [he] at h1
              cases h1
            · exact ih (k + 1) st1 hd (f1 _ hin)

theorem manage_scan_live (env : Env) (live : List Byte) (hread : ∀ k, env.readdir k = 0)
    (rest : List (List Byte)) :
    ∀ (k : Nat) (st : St),
      (∀ d ∈ rest, d.head? ≠ some 46 →
        0 < (env.s6_svc_ok d).1 ∧ d ∈ st.fs.scandir.map Prod.fst) →
      (s6rc_servicedir_manage_scan env live rest k st).1 = none ∧
        (s6rc_servicedir_manage_scan env live rest k st).2.fs = st.fs ∧
        (s6rc_servicedir_manage_scan env live rest k st).2.ids = st.ids := by
  induction rest with
  | nil =>
    intro k st _
    simp only [s6rc_servicedir_manage_scan]
    rw [if_neg (by simp [hread])]
    exact ⟨rfl, rfl, rfl⟩
  | cons d0 rest ih =>
    intro k st h
    simp only [s6rc_servicedir_manage_scan]
    rw [if_neg (by simp [hread])]
    split
    · exact ih (k + 1) _ fun d hd hnd => h d (List.mem_cons_of_mem _ hd) hnd
    · rename_i hdot
      obtain ⟨hr, hin⟩ := h d0 (List.mem_cons_self _ _) hdot
      rw [manage_entry_live_existing env live d0 (st.call .readdir) hr hin]
      simp only
      exact ih (k + 1) _ fun d hd hnd => h d (List.mem_cons_of_mem _ hd) hnd

theorem manage_down_count (env : Env) (d : List Byte) (st : St) (x : Call)
    (hx : x = .dir_close ∨ x = .genalloc_free ∨ x = .ftrigr_end ∨ ∃ ids, x = .ftrigr_wait_and ids) :
    (s6rc_servicedir_manage_down env d st).2.calls.count x = st.calls.count x := by
  unfold s6rc_servicedir_manage_down St.call
  simp only
  rcases hx with rfl | rfl | rfl | ⟨ids, rfl⟩ <;> (repeat' split) <;> simp [List.count_append]

theorem manage_symlink_count (env : Env) (live d : List Byte) (st : St) (x : Call)
    (hx : x = .dir_close ∨ x = .genalloc_free ∨ x = .ftrigr_end ∨ ∃ ids, x = .ftrigr_wait_and ids) :
    (s6rc_servicedir_manage_symlink env live d st).2.calls.count x = st.calls.count x := by
  unfold s6rc_servicedir_manage_symlink St.call
  simp only
  rcases hx with rfl | rfl | rfl | ⟨ids, rfl⟩ <;> (repeat' split) <;> simp [List.count_append]

theorem manage_entry_count (env : Env) (live d : List Byte) (st : St) (x : Call)
    (hx : x = .dir_close ∨ x = .genalloc_free ∨ x = .ftrigr_end ∨ ∃ ids, x = .ftrigr_wait_and ids) :
    (s6rc_servicedir_manage_entry env live d st).2.calls.count x = st.calls.count x := by
  have h0 : (st.call (.s6_svc_ok d)).calls.count x = st.calls.count x := by
    unfold St.call
    rcases hx with rfl | rfl | rfl | ⟨ids, rfl⟩ <;> simp [List.count_append]
  by_cases hr : (env.s6_svc_ok d).1 < 0
  · unfold s6rc_servicedir_manage_entry
    simp only [if_pos hr]
    exact h0
  · obtain ⟨st2, h2, _, _, hcase⟩ := manage_entry_eq env live d st hr
    have hc2 : st2.calls.count x = st.calls.count x := by
      rw [← h2]
      split
      · rw [manage_down_count env d _ x hx, h0]
      · exact h0
    have hc3 := manage_symlink_count env live d st2 x hx
    rcases hcase with ⟨_, heq⟩ | ⟨_, heq⟩
    · rw [heq]
      exact hc2
    · rw [heq]
      cases hs : s6rc_servicedir_manage_symlink env live d st2 with
      | mk err st3 =>
        rw [hs] at hc3
        cases err with
        | none => exact hc3.trans hc2
        | some e =>
          simp only
          split <;> exact hc3.trans hc2

theorem manage_scan_count (env : Env) (live : List Byte) (x : Call)
    (hx : x = .dir_close ∨ x = .genalloc_free ∨ x = .ftrigr_end ∨ ∃ ids, x = .ftrigr_wait_and ids) (rest : List (List Byte)) :
    ∀ (k : Nat) (st : St),
      (s6rc_servicedir_manage_scan env live rest k st).2.calls.count x = st.calls.count x := by
  have h0 : ∀ st : St, (st.call .readdir).calls.count x = st.calls.count x := by
    intro st
    unfold St.call
    rcases hx with rfl | rfl | rfl | ⟨ids, rfl⟩ <;> simp [List.count_append]
  induction rest with
  | nil =>
    intro k st
    simp only [s6rc_servicedir_manage_scan]
    split <;> exact h0 st
  | cons d0 rest ih =>
    intro k st
    simp only [s6rc_servicedir_manage_scan]
    split
    · exact h0 st
    · split
      · rw [ih, h0]
      · have hc := manage_entry_count env live d0 (st.call .readdir) x hx
        cases he : s6rc_servicedir_manage_entry env live d0 (st.call .readdir) with
        | mk err st1 =>
          rw [he] at hc
          cases err with
          | some e => exact hc.trans (h0 st)
          | none =>
            simp only
            rw [ih, hc, h0]

/-- The ways `s6rc_servicedir_manage` ends, by the outcomes of the external operations. -/
theorem manage_cases (env : Env) (live : List Byte) (fs : Fs) :
    (∃ e, env.ftrigr_startf = some e ∧ s6rc_servicedir_manage env live fs =
      { ret := 0, errno := some e, fs := fs, calls := [.ftrigr_startf] }) ∨
    (env.ftrigr_startf = none ∧ ∃ e, env.opendir = some e ∧
      s6rc_servicedir_manage env live fs = s6rc_servicedir_manage_closederr 0
        { fs := fs, ids := [], calls := [.ftrigr_startf, .opendir] }) ∨
    (env.ftrigr_startf = none ∧ env.opendir = none ∧ ∃ e st,
      s6rc_servicedir_manage_scan env live fs.servicedirs 0
        { fs := fs, ids := [], calls := [.ftrigr_startf, .opendir] } = (some e, st) ∧
      s6rc_servicedir_manage env live fs =
        s6rc_servicedir_manage_closederr e (st.call .dir_close)) ∨
    (env.ftrigr_startf = none ∧ env.opendir = none ∧ ∃ st,
      s6rc_servicedir_manage_scan env live fs.servicedirs 0
        { fs := fs, ids := [], calls := [.ftrigr_startf, .opendir] } = (none, st) ∧
      ((env.s6_svc_writectl.1 < 0 ∧ s6rc_servicedir_manage env live fs =
          s6rc_servicedir_manage_closederr env.s6_svc_writectl.2
            ((st.call .dir_close).call .s6_svc_writectl)) ∨
        (env.s6_svc_writectl.1 = 0 ∧ s6rc_servicedir_manage env live fs =
          s6rc_servicedir_manage_return 3 ((st.call .dir_close).call .s6_svc_writectl)) ∨
        (0 < env.s6_svc_writectl.1 ∧ ∃ e, env.ftrigr_wait_and st.ids = some e ∧
          s6rc_servicedir_manage env live fs =
            s6rc_servicedir_manage_closederr e
              (((st.call .dir_close).call .s6_svc_writectl).call (.ftrigr_wait_and st.ids))) ∨
        (0 < env.s6_svc_writectl.1 ∧ env.ftrigr_wait_and st.ids = none ∧
          s6rc_servicedir_manage env live fs =
            s6rc_servicedir_manage_return 1
              (((st.call .dir_close).call .s6_svc_writectl).call
                (.ftrigr_wait_and st.ids))))) := by
  unfold s6rc_servicedir_manage
  cases hs : env.ftrigr_startf with
  | some e => exact Or.inl ⟨e, rfl, rfl⟩
  | none =>
    right
    cases ho : env.opendir with
    | some e => exact Or.inl ⟨rfl, e, rfl, rfl⟩
    | none =>
      right
      cases hscan : s6rc_servicedir_manage_scan env live fs.servicedirs 0
          { fs := fs, ids := [], calls := [.ftrigr_startf, .opendir] } with
      | mk err st =>
        cases err with
        | some e => exact Or.inl ⟨rfl, rfl, e, st, rfl, rfl⟩
        | none =>
          right
          refine ⟨rfl, rfl, st, rfl, ?_⟩
          simp only
          by_cases h1 : env.s6_svc_writectl.1 < 0
          · exact Or.inl ⟨h1, by rw [if_pos h1]⟩
          · right
            rw [if_neg h1]
            by_cases h2 : env.s6_svc_writectl.1 = 0
            · exact Or.inl ⟨h2, by rw [if_pos h2]⟩
            · right
              rw [if_neg h2]
              have h3 : 0 < env.s6_svc_writectl.1 := by omega
              have hids : ((st.call .dir_close).call .s6_svc_writectl).ids = st.ids := rfl
              rw [hids]
              cases hw : env.ftrigr_wait_and st.ids with
              | some e => exact Or.inl ⟨h3, e, rfl, rfl⟩
              | none => exact Or.inr ⟨h3, rfl, rfl⟩

/-- C12, the claim as stated fails, on both counts. For the entry `a`, not supervised, whose
entry in the scan directory is already a symbolic link to the same target
`live/servicedirs/a`, the function returns `0` with `errno = EEXIST`; for the entry `a`,
supervised, whose entry in the scan directory is not a symbolic link, no operation failing,
it returns `1`. -/
theorem C12_counterexample :
    exFsLinked.scandir = [([97], .symlink (srcfn exLive [97]))] ∧
    (exEnvDown.s6_svc_ok [97]).1 = 0 ∧
    (s6rc_servicedir_manage exEnvDown exLive exFsLinked).ret = 0 ∧
    (s6rc_servicedir_manage exEnvDown exLive exFsLinked).errno = some EEXIST ∧
    exFsOther.scandir = [([97], .other)] ∧
    (exEnvUp.s6_svc_ok [97]).1 = 1 ∧
    (s6rc_servicedir_manage exEnvUp exLive exFsOther).ret = 1 := by
  refine ⟨rfl, rfl, ?_, ?_, rfl, rfl, ?_⟩ <;> rfl

/-- C12, amended: the step never looks at what an existing `scandir/name` is; `symlink`
fails with `EEXIST` for a symbolic link to the same target as for anything else, and what
follows depends on the liveness probe. When the probe reported the entry live, the existing
entry is tolerated: the body of the loop makes no other call, changes nothing and the scan
goes on. When the probe reported the entry not live, the body ends in `goto err` (with
`EEXIST` unless the sentinel, the event directory or the subscription failed before), and
`s6rc_servicedir_manage` returns `0` for every live tree that holds such an entry. -/
theorem C12_symlink_conflict (env : Env) (live d : List Byte) (st : St)
    (hin : d ∈ st.fs.scandir.map Prod.fst) :
    (0 < (env.s6_svc_ok d).1 →
      s6rc_servicedir_manage_entry env live d st =
        (none, (st.call (.s6_svc_ok d)).call (.symlink d))) ∧
    ((env.s6_svc_ok d).1 = 0 →
      (∃ e, (s6rc_servicedir_manage_entry env live d st).1 = some e ∧
        ((s6rc_servicedir_manage_down env d (st.call (.s6_svc_ok d))).1 = none →
          e = EEXIST)) ∧
      ∀ fs : Fs, d ∈ fs.servicedirs → d.head? ≠ some 46 → d ∈ fs.scandir.map Prod.fst →
        (s6rc_servicedir_manage env live fs).ret = 0) := by
  refine ⟨fun hr => manage_entry_live_existing env live d st hr hin, fun hr => ⟨?_, ?_⟩⟩
  · exact manage_entry_down_existing env live d st hr hin
  · intro fs hd hnd hfs
    rcases manage_cases env live fs with ⟨e, _, h⟩ | ⟨_, e, _, h⟩ | ⟨_, _, e, st1, _, h⟩ |
      ⟨_, _, st1, hscan, _⟩
    · rw [h]
    · rw [h]; rfl
    · rw [h]; rfl
    · have := manage_scan_fails env live d hnd hr fs.servicedirs 0
        { fs := fs, ids := [], calls := [.ftrigr_startf, .opendir] } hd hfs
      rw [hscan] at this
      exact absurd rfl this

/-- An instance of C12 with the entry `a` already linked in the scan directory: supervised, it
is passed over; not supervised, the function returns `0`. -/
theorem C12_symlink_conflict_witness :
    s6rc_servicedir_manage_entry exEnvUp exLive [97] { fs := exFsLinked, ids := [], calls := [] } =
      (none, { fs := exFsLinked, ids := [], calls := [.s6_svc_ok [97], .symlink [97]] }) ∧
    (s6rc_servicedir_manage exEnvDown exLive exFsLinked).ret = 0 :=
  ⟨(C12_symlink_conflict exEnvUp exLive [97] { fs := exFsLinked, ids := [], calls := [] }
      (by decide)).1 (by decide),
    ((C12_symlink_conflict exEnvDown exLive [97] { fs := exFsLinked, ids := [], calls := [] }
      (by decide)).2 rfl).2 exFsLinked (by decide) (by decide) (by decide)⟩

/-- C13, the claim as stated fails: a first call on the tree with the one entry `a`, not
supervised and with nothing listening on the control pipe, returns `3` and leaves the
sentinel, the event directory and the symbolic link; a second call in the same conditions, on
the same tree, returns `0` with `errno = EEXIST`. -/
theorem C13_counterexample :
    (s6rc_servicedir_manage exEnvDown exLive exFs).ret = 3 ∧
    (s6rc_servicedir_manage exEnvDown exLive exFs).fs =
      { servicedirs := [[97]], down := [[97]], event := [[97]],
        scandir := [([97], .symlink (srcfn exLive [97]))] } ∧
    (s6rc_servicedir_manage exEnvDown exLive
      (s6rc_servicedir_manage exEnvDown exLive exFs).fs).ret = 0 ∧
    (s6rc_servicedir_manage exEnvDown exLive
      (s6rc_servicedir_manage exEnvDown exLive exFs).fs).errno = some EEXIST := by
  refine ⟨?_, ?_, ?_, ?_⟩ <;> rfl

/-- C13, amended: after a call that returned success (`1` or `3`), with the entries of
`servicedirs` unchanged, a second call in which the probe reports every entry live and no
external operation fails returns success and changes nothing in the file system: it creates
no sentinel, no event directory and no symbolic link. (`symlink` is taken to report `EEXIST`
only for an existing entry.) A second call that finds an entry still not live fails on the
symbolic link it made the first time, with `EEXIST`. -/
theorem C13_second_call (env1 env2 : Env) (live : List Byte) (fs : Fs)
    (h1 : (s6rc_servicedir_manage env1 live fs).ret ≠ 0)
    (hsym : ∀ d, env1.symlink d ≠ some EEXIST)
    (hstart : env2.ftrigr_startf = none) (hopen : env2.opendir = none)
    (hread : ∀ k, env2.readdir k = 0)
    (hlive : ∀ d ∈ fs.servicedirs, d.head? ≠ some 46 → 0 < (env2.s6_svc_ok d).1)
    (hctl : 0 ≤ env2.s6_svc_writectl.1) (hwait : env2.ftrigr_wait_and [] = none) :
    (s6rc_servicedir_manage env1 live fs).fs.servicedirs = fs.servicedirs ∧
    ((s6rc_servicedir_manage env2 live (s6rc_servicedir_manage env1 live fs).fs).ret = 1 ∨
      (s6rc_servicedir_manage env2 live (s6rc_servicedir_manage env1 live fs).fs).ret = 3) ∧
    (s6rc_servicedir_manage env2 live (s6rc_servicedir_manage env1 live fs).fs).fs =
      (s6rc_servicedir_manage env1 live fs).fs := by
  have hfirst : ∃ st1, s6rc_servicedir_manage_scan env1 live fs.servicedirs 0
      { fs := fs, ids := [], calls := [.ftrigr_startf, .opendir] } = (none, st1) ∧
      (s6rc_servicedir_manage env1 live fs).fs = st1.fs := by
    rcases manage_cases env1 live fs with ⟨e, _, h⟩ | ⟨_, e, _, h⟩ | ⟨_, _, e, st1, _, h⟩ |
      ⟨_, _, st1, hscan, hend⟩
    · rw [h] at h1; exact absurd rfl h1
    · rw [h] at h1; exact absurd rfl h1
    · rw [h] at h1; exact absurd rfl h1
    · refine ⟨st1, hscan, ?_⟩
      rcases hend with ⟨_, h⟩ | ⟨_, h⟩ | ⟨_, e, _, h⟩ | ⟨_, _, h⟩ <;> rw [h] <;> rfl
  obtain ⟨st1, hscan1, hfs1⟩ := hfirst
  obtain ⟨_, f2, f3⟩ := manage_scan_facts env1 live fs.servicedirs 0
    { fs := fs, ids := [], calls := [.ftrigr_startf, .opendir] }
  rw [hscan1] at f2 f3
  have hdirs : st1.fs.servicedirs = fs.servicedirs := f2
  have hkeys := f3 rfl hsym
  rw [hfs1]
  refine ⟨hdirs, ?_⟩
  obtain ⟨g1, g2, g3⟩ := manage_scan_live env2 live hread st1.fs.servicedirs 0
    { fs := st1.fs, ids := [], calls := [.ftrigr_startf, .opendir] }
    (by
      intro d hd hnd
      rw [hdirs] at hd
      exact ⟨hlive d hd hnd, hkeys d hd hnd⟩)
  rcases manage_cases env2 live st1.fs with ⟨e, he, _⟩ | ⟨_, e, he, _⟩ | ⟨_, _, e, st2, hs, _⟩ |
    ⟨_, _, st2, hscan2, hend⟩
  · rw [hstart] at he; cases he
  · rw [hopen] at he; cases he
  · rw [hs] at g1; cases g1
  · rw [hscan2] at g2 g3
    have g2s : st2.fs = st1.fs := g2
    have g3s : st2.ids = [] := g3
    rcases hend with ⟨hneg, _⟩ | ⟨_, h⟩ | ⟨_, e, he, _⟩ | ⟨_, _, h⟩
    · omega
    · rw [h]
      exact ⟨Or.inr rfl, g2s⟩
    · rw [g3s, hwait] at he; cases he
    · rw [h]
      exact ⟨Or.inl rfl, g2s⟩

/-- An instance of C13: after the first call of the counterexample, a second call that finds
the entry `a` supervised returns `1` and leaves the file system as it is. -/
theorem C13_second_call_witness :
    (s6rc_servicedir_manage exEnvDown exLive exFs).ret = 3 ∧
    ((s6rc_servicedir_manage exEnvDown exLive exFs).fs.servicedirs = exFs.servicedirs ∧
    ((s6rc_servicedir_manage exEnvUp exLive
        (s6rc_servicedir_manage exEnvDown exLive exFs).fs).ret = 1 ∨
      (s6rc_servicedir_manage exEnvUp exLive
        (s6rc_servicedir_manage exEnvDown exLive exFs).fs).ret = 3) ∧
    (s6rc_servicedir_manage exEnvUp exLive (s6rc_servicedir_manage exEnvDown exLive exFs).fs).fs =
      (s6rc_servicedir_manage exEnvDown exLive exFs).fs) :=
  ⟨rfl, C13_second_call exEnvDown exEnvUp exLive exFs (by decide) (fun _ => by simp [exEnvDown])
    rfl rfl (fun _ => rfl) (fun _ _ _ => Int.one_pos) (by decide) rfl⟩

/-- C14: when the scan has ended without error, a control write that finds no listener
(`s6_svc_writectl` returns `0`) makes `s6rc_servicedir_manage` return `3`; no call of
`ftrigr_wait_and` is made, and the file system is as the scan left it, with every sentinel,
event directory and symbolic link the scan made. When the write reaches a listener, the
function waits on the recorded subscriptions and returns `1` exactly when the wait succeeds,
`0` when it fails. -/
theorem C14_rescan (env : Env) (live : List Byte) (fs : Fs) (st : St)
    (hstart : env.ftrigr_startf = none) (hopen : env.opendir = none)
    (hscan : s6rc_servicedir_manage_scan env live fs.servicedirs 0
      { fs := fs, ids := [], calls := [.ftrigr_startf, .opendir] } = (none, st)) :
    (env.s6_svc_writectl.1 = 0 →
      (s6rc_servicedir_manage env live fs).ret = 3 ∧
      (s6rc_servicedir_manage env live fs).fs = st.fs ∧
      (s6rc_servicedir_manage env live fs).calls =
        st.calls ++ [.dir_close, .s6_svc_writectl, .genalloc_free, .ftrigr_end] ∧
      ∀ ids, (s6rc_servicedir_manage env live fs).calls.count (.ftrigr_wait_and ids) = 0) ∧
    (0 < env.s6_svc_writectl.1 →
      ((s6rc_servicedir_manage env live fs).ret = 1 ↔ env.ftrigr_wait_and st.ids = none) ∧
      (env.ftrigr_wait_and st.ids ≠ none → (s6rc_servicedir_manage env live fs).ret = 0) ∧
      (s6rc_servicedir_manage env live fs).fs = st.fs ∧
      (s6rc_servicedir_manage env live fs).calls =
        st.calls ++ [.dir_close, .s6_svc_writectl, .ftrigr_wait_and st.ids, .genalloc_free,
          .ftrigr_end]) := by
  have hcount : ∀ ids, st.calls.count (.ftrigr_wait_and ids) = 0 := by
    intro ids
    have := manage_scan_count env live (.ftrigr_wait_and ids)
      (Or.inr (Or.inr (Or.inr ⟨ids, rfl⟩))) fs.servicedirs 0
      { fs := fs, ids := [], calls := [.ftrigr_startf, .opendir] }
    rw [hscan] at this
    rw [this]
    simp
  rcases manage_cases env live fs with ⟨e, he, _⟩ | ⟨_, e, he, _⟩ | ⟨_, _, e, st2, hs, _⟩ |
    ⟨_, _, st2, hscan2, hend⟩
  · rw [hstart] at he; cases he
  · rw [hopen] at he; cases he
  · rw [hscan] at hs; cases hs
  · rw [hscan] at hscan2
    cases hscan2
    rcases hend with ⟨hneg, _⟩ | ⟨hz, h⟩ | ⟨hp, e, he, h⟩ | ⟨hp, hw, h⟩
    · exact ⟨fun h0 => by omega, fun h0 => by omega⟩
    · refine ⟨fun _ => ?_, fun h0 => by omega⟩
      rw [h]
      refine ⟨rfl, rfl, ?_, fun ids => ?_⟩
      · simp [s6rc_servicedir_manage_return, St.call]
      · simp [s6rc_servicedir_manage_return, St.call, List.count_append, hcount]
    · refine ⟨fun h0 => by omega, fun _ => ?_⟩
      rw [h, he]
      refine ⟨?_, fun _ => rfl, rfl, ?_⟩
      · simp [s6rc_servicedir_manage_closederr]
      · simp [s6rc_servicedir_manage_closederr, St.call]
    · refine ⟨fun h0 => by omega, fun _ => ?_⟩
      rw [h, hw]
      refine ⟨?_, fun hne => absurd rfl hne, rfl, ?_⟩
      · simp [s6rc_servicedir_manage_return]
      · simp [s6rc_servicedir_manage_return, St.call]

/-- An instance of C14 on the tree with the one entry `a`, not supervised: with nothing
listening on the control pipe the function returns `3`, and the sentinel, the event directory
and the symbolic link are there. -/
theorem C14_rescan_witness :
    (s6rc_servicedir_manage exEnvDown exLive exFs).ret = 3 ∧
    (s6rc_servicedir_manage exEnvDown exLive exFs).fs =
      { servicedirs := [[97]], down := [[97]], event := [[97]],
        scandir := [([97], .symlink (srcfn exLive [97]))] } ∧
    (s6rc_servicedir_manage exEnvDown exLive exFs).calls =
      [.ftrigr_startf, .opendir, .readdir, .s6_svc_ok [97], .touch [97],
        .ftrigw_fifodir_make [97], .ftrigr_subscribe [97], .genalloc_append 1, .symlink [97],
        .readdir] ++ [.dir_close, .s6_svc_writectl, .genalloc_free, .ftrigr_end] ∧
    ∀ ids, (s6rc_servicedir_manage exEnvDown exLive exFs).calls.count
      (.ftrigr_wait_and ids) = 0 :=
  (C14_rescan exEnvDown exLive exFs _ rfl rfl rfl).1 rfl

/-- C15, the failing path: when `opendir` fails, with whatever error, the function returns
`0` through `closederr` with the local `e` still `0`, and the `errno` it leaves is `0`, not
the error of `opendir`. -/
theorem C15_opendir_errno_lost (env : Env) (live : List Byte) (fs : Fs) (e : Nat)
    (hstart : env.ftrigr_startf = none) (hopen : env.opendir = some e) :
    (s6rc_servicedir_manage env live fs).ret = 0 ∧
      (s6rc_servicedir_manage env live fs).errno = some 0 := by
  unfold s6rc_servicedir_manage
  rw [hstart, hopen]
  exact ⟨rfl, rfl⟩

/-- An instance of C15: `opendir` fails with `ENOENT` (2) and the caller finds `errno = 0`. -/
theorem C15_opendir_errno_lost_witness :
    exEnvNoDir.opendir = some 2 ∧
    (s6rc_servicedir_manage exEnvNoDir exLive exFs).ret = 0 ∧
      (s6rc_servicedir_manage exEnvNoDir exLive exFs).errno = some 0 :=
  ⟨rfl, C15_opendir_errno_lost exEnvNoDir exLive exFs 2 rfl rfl⟩

/-- C16: in every run of `s6rc_servicedir_manage`, whatever it returns: when the event client
was started, `genalloc_free` and `ftrigr_end` are each called exactly once, and they are the
last two calls; when `ftrigr_startf` failed neither is called; `dir_close` is called exactly
once when `opendir` succeeded, and not at all when the directory was not opened. -/
theorem C16_release (env : Env) (live : List Byte) (fs : Fs) :
    (env.ftrigr_startf = none →
      (s6rc_servicedir_manage env live fs).calls.count .genalloc_free = 1 ∧
      (s6rc_servicedir_manage env live fs).calls.count .ftrigr_end = 1 ∧
      ∃ l, (s6rc_servicedir_manage env live fs).calls = l ++ [.genalloc_free, .ftrigr_end]) ∧
    (env.ftrigr_startf ≠ none →
      (s6rc_servicedir_manage env live fs).calls.count .genalloc_free = 0 ∧
      (s6rc_servicedir_manage env live fs).calls.count .ftrigr_end = 0 ∧
      (s6rc_servicedir_manage env live fs).calls.count .dir_close = 0) ∧
    (env.ftrigr_startf = none → env.opendir = none →
      (s6rc_servicedir_manage env live fs).calls.count .dir_close = 1) ∧
    (env.ftrigr_startf = none → env.opendir ≠ none →
      (s6rc_servicedir_manage env live fs).calls.count .dir_close = 0) := by
  have hc : ∀ (x : Call), x = .dir_close ∨ x = .genalloc_free ∨ x = .ftrigr_end ∨
      (∃ ids, x = .ftrigr_wait_and ids) → ∀ e st,
      s6rc_servicedir_manage_scan env live fs.servicedirs 0
        { fs := fs, ids := [], calls := [.ftrigr_startf, .opendir] } = (e, st) →
      st.calls.count x = 0 := by
    intro x hx e st hs
    have := manage_scan_count env live x hx fs.servicedirs 0
      { fs := fs, ids := [], calls := [.ftrigr_startf, .opendir] }
    rw [hs] at this
    rw [this]
    rcases hx with rfl | rfl | rfl | ⟨ids, rfl⟩ <;> simp
  rcases manage_cases env live fs with ⟨e, he, h⟩ | ⟨hs, e, he, h⟩ | ⟨hs, ho, e, st, hscan, h⟩ |
    ⟨hs, ho, st, hscan, hend⟩
  · rw [h]
    refine ⟨fun h0 => ?_, fun _ => ⟨by simp, by simp, by simp⟩, fun h0 => ?_, fun h0 => ?_⟩
    all_goals rw [he] at h0; cases h0
  · rw [h]
    refine ⟨fun _ => ⟨by simp [s6rc_servicedir_manage_closederr],
      by simp [s6rc_servicedir_manage_closederr], _, rfl⟩, fun h0 => absurd hs h0,
      fun _ h0 => ?_, fun _ _ => by simp [s6rc_servicedir_manage_closederr]⟩
    rw [he] at h0; cases h0
  · rw [h]
    have c1 := hc .dir_close (Or.inl rfl) _ _ hscan
    have c2 := hc .genalloc_free (Or.inr (Or.inl rfl)) _ _ hscan
    have c3 := hc .ftrigr_end (Or.inr (Or.inr (Or.inl rfl))) _ _ hscan
    refine ⟨fun _ => ⟨?_, ?_, _, rfl⟩, fun h0 => absurd hs h0, fun _ _ => ?_,
      fun _ h0 => absurd ho h0⟩ <;>
      simp [s6rc_servicedir_manage_closederr, St.call, List.count_append, c1, c2, c3]
  · have c1 := hc .dir_close (Or.inl rfl) _ _ hscan
    have c2 := hc .genalloc_free (Or.inr (Or.inl rfl)) _ _ hscan
    have c3 := hc .ftrigr_end (Or.inr (Or.inr (Or.inl rfl))) _ _ hscan
    rcases hend with ⟨_, h⟩ | ⟨_, h⟩ | ⟨_, e, _, h⟩ | ⟨_, _, h⟩ <;> rw [h] <;>
      refine ⟨fun _ => ⟨?_, ?_, _, rfl⟩, fun h0 => absurd hs h0, fun _ _ => ?_,
        fun _ h0 => absurd ho h0⟩ <;>
      simp [s6rc_servicedir_manage_closederr, s6rc_servicedir_manage_return, St.call,
        List.count_append, c1, c2, c3]

/-! ## The path splitter `s6rc_sanitize_dir` (C20) -/

/-- C20: for every path `fn`, every buffer and whatever bytes `dir` the call of `sadirname`
appends, when `s6rc_sanitize_dir` returns `1` it has stored a `*dirlen` greater than the
initial length `base`, the byte of the buffer at index `*dirlen - 1` is `'/'`, the bytes
`[base, *dirlen)` of the buffer are `dir` followed by one `'/'`, or `dir` alone when `dir` is
exactly `"/"`, and the bytes from `*dirlen` on are the base name that `sabasename` appended. -/
theorem C20_sanitize_dir (env : SaEnv) (sa : Option (List Byte)) (fn : List Byte)
    (h : (s6rc_sanitize_dir env sa fn).ret = 1) :
    ∃ dir bn dirlen buf,
      env.sadirname fn = some dir ∧ env.sabasename fn = some bn ∧
      (s6rc_sanitize_dir env sa fn).dirlen = some dirlen ∧
      (s6rc_sanitize_dir env sa fn).sa = some buf ∧
      (sa.getD []).length < dirlen ∧
      buf[dirlen - 1]? = some 47 ∧
      buf = sa.getD [] ++ (if dir = [47] then [47] else dir ++ [47]) ++ bn ∧
      dirlen = (sa.getD [] ++ (if dir = [47] then [47] else dir ++ [47])).length ∧
      buf.drop dirlen = bn := by
  unfold s6rc_sanitize_dir at h ⊢
  simp only at h ⊢
  cases hd : env.sadirname fn with
  | none => rw [hd] at h; simp at h
  | some dir =>
    rw [hd] at h
    simp only at h ⊢
    by_cases hslash : (sa.getD [] ++ dir).length ≠ (sa.getD []).length + 1 ∨
        (sa.getD [] ++ dir)[(sa.getD []).length]? ≠ some 47
    · rw [if_pos hslash] at h ⊢
      have hne : dir ≠ [47] := by
        rintro rfl
        rcases hslash with h1 | h1
        · simp at h1
        · simp at h1
      by_cases hc : env.stralloc_catb = false
      · rw [if_pos hc] at h
        simp [s6rc_sanitize_dir_err] at h
      · rw [if_neg hc] at h ⊢
        cases hb : env.sabasename fn with
        | none => rw [hb] at h; simp [s6rc_sanitize_dir_err] at h
        | some bn =>
          refine ⟨dir, bn, _, _, rfl, rfl, rfl, rfl, ?_, ?_, ?_, ?_, ?_⟩
          · simp only [List.length_append, List.length_singleton]
            omega
          · simp only [List.length_append, List.length_singleton, Nat.add_sub_cancel]
            rw [List.getElem?_append_left (by simp)]
            rw [List.getElem?_append_right (by simp)]
            simp
          · rw [if_neg hne]
            simp
          · rw [if_neg hne]
            simp
          · simp
    · rw [if_neg hslash] at h ⊢
      have hdir : dir = [47] := by
        simp only [ne_eq, not_or, not_not] at hslash
        obtain ⟨h1, h2⟩ := hslash
        rw [List.getElem?_append_right (by simp)] at h2
        simp only [List.length_append] at h1
        simp only [Nat.sub_self] at h2
        obtain ⟨x, rfl⟩ := List.length_eq_one.mp (by omega : dir.length = 1)
        simp at h2
        rw [h2]
      subst hdir
      cases hb : env.sabasename fn with
      | none => rw [hb] at h; simp [s6rc_sanitize_dir_err] at h
      | some bn =>
        refine ⟨[47], bn, _, _, rfl, rfl, rfl, rfl, ?_, ?_, ?_, ?_, ?_⟩
        · simp
        · simp only [List.length_append, List.length_singleton, Nat.add_sub_cancel]
          rw [List.getElem?_append_left (by simp)]
          rw [List.getElem?_append_right (by simp)]
          simp
        · simp
        · simp
        · simp

/-- An instance of C20: on the buffer `"ab"`, a directory name `"/"` gives `"ab/db"` with
`*dirlen = 3`, and a directory name `"x"` gives `"abx/db"` with `*dirlen = 4`. -/
theorem C20_sanitize_dir_witness :
    s6rc_sanitize_dir exSaRoot (some [97, 98]) [100, 98] =
      { ret := 1, sa := some [97, 98, 47, 100, 98], dirlen := some 3 } ∧
    s6rc_sanitize_dir exSaDir (some [97, 98]) [120, 47, 100, 98] =
      { ret := 1, sa := some [97, 98, 120, 47, 100, 98], dirlen := some 4 } ∧
    ∃ dir bn dirlen buf,
      exSaDir.sadirname [120, 47, 100, 98] = some dir ∧
      exSaDir.sabasename [120, 47, 100, 98] = some bn ∧
      (s6rc_sanitize_dir exSaDir (some [97, 98]) [120, 47, 100, 98]).dirlen = some dirlen ∧
      (s6rc_sanitize_dir exSaDir (some [97, 98]) [120, 47, 100, 98]).sa = some buf ∧
      ((some [97, 98] : Option (List Byte)).getD []).length < dirlen ∧
      buf[dirlen - 1]? = some 47 ∧
      buf = (some [97, 98] : Option (List Byte)).getD [] ++
        (if dir = [47] then [47] else dir ++ [47]) ++ bn ∧
      dirlen = ((some [97, 98] : Option (List Byte)).getD [] ++
        (if dir = [47] then [47] else dir ++ [47])).length ∧
      buf.drop dirlen = bn :=
  ⟨by decide, by decide,
    C20_sanitize_dir exSaDir (some [97, 98]) [120, 47, 100, 98] (by decide)⟩

end S6rc
